import Mathlib

/-!
# Contextual profile reader (`llvm/lib/ProfileData/PGOCtxProfReader.cpp`)

A shallow embedding of the reader of contextual instrumentation profiles and
a verification of its documented behaviour.

* The reader's functions are Lean functions over an explicit cursor state.
  The bitstream cursor itself is not part of the reader: the functions take
  it as a parameter (`BitstreamCursor σ`), so that what is proved of them
  holds for every cursor.  `tokCursor` is one concrete cursor, over a finite
  sequence of entries, on which the functions can be run.
* `readProfile` and the loops around it are recursive in the shape of the
  stream.  They are defined by recursion on a fuel counter; the result `none`
  means that the fuel ran out, `some r` that the function returned `r`.
* Machine integers are natural numbers; the one narrowing conversion of the
  reader (a 64-bit record value stored in a 32-bit call-site index) is an
  explicit `% 2 ^ 32`.
-/

namespace PGOCtxProf

/-! ## Vocabulary -/

namespace bitc

/-- Modelled from the spec: the id of the block-info block, a constant of the
bitstream format that `readMetadata` compares with (`BitCodeEnums.h` is not
among the sources). -/
def BLOCKINFO_BLOCK_ID : Nat := 0

/-- Modelled from the spec: the first block id an application may use
(`BitCodeEnums.h`). -/
def FIRST_APPLICATION_BLOCKID : Nat := 8

/-- Modelled from the spec: the abbreviation id of an unabbreviated record
(`BitCodeEnums.h`), which the reader passes to `readRecord`. -/
def UNABBREV_RECORD : Nat := 3

end bitc

/-- Modelled from the spec: the enumeration `PGOCtxProfileBlockIDs` of
`PGOCtxProfWriter.h`, which is not among the sources.  The spec gives the
block ids as an ordered enumeration (Metadata, ContextsSection, ContextRoot,
ContextNode, FlatProfilesSection, FlatProfile, Unhandled) bounded by
`FIRST_VALID` and `LAST_VALID`. -/
abbrev PGOCtxProfileBlockIDs := Nat

namespace PGOCtxProfileBlockIDs

def FIRST_VALID : Nat := bitc.FIRST_APPLICATION_BLOCKID
def ProfileMetadataBlockID : Nat := FIRST_VALID
def ContextsSectionBlockID : Nat := ProfileMetadataBlockID + 1
def ContextRootBlockID : Nat := ContextsSectionBlockID + 1
def ContextNodeBlockID : Nat := ContextRootBlockID + 1
def FlatProfilesSectionBlockID : Nat := ContextNodeBlockID + 1
def FlatProfileBlockID : Nat := FlatProfilesSectionBlockID + 1
def UnhandledBlockID : Nat := FlatProfileBlockID + 1
def LAST_VALID : Nat := UnhandledBlockID

end PGOCtxProfileBlockIDs

/-- Modelled from the spec: the enumeration `PGOCtxProfileRecords` of
`PGOCtxProfWriter.h`, which is not among the sources: the record kinds
Version, Guid, CallsiteIndex, Counters and TotalRootEntryCount, pairwise
different codes. -/
abbrev PGOCtxProfileRecords := Nat

namespace PGOCtxProfileRecords

def Invalid : Nat := 0
def Version : Nat := 1
def Guid : Nat := 2
def CallsiteIndex : Nat := 3
def Counters : Nat := 4
def TotalRootEntryCount : Nat := 5

end PGOCtxProfileRecords

/-- Modelled from the spec: the two constants of `PGOCtxProfileWriter` that
`readMetadata` compares with, the fixed magic byte sequence of the container
and the current format version.  The header that defines them is not among
the sources, so the reader takes them as a parameter. -/
structure PGOCtxProfileWriter where
  ContainerMagic : List Nat
  CurrentVersion : Nat

/-! ## Errors -/

/-- The two `instrprof_error` codes the reader raises. -/
inductive instrprof_error where
  | invalid_prof
  | unsupported_version
  deriving DecidableEq, Repr

/-- An `llvm::Error` that is not success: an `InstrProfError` made by the
reader (code and message), or whatever error the bitstream cursor reported. -/
inductive Error where
  | instr (code : instrprof_error) (msg : String)
  | cursor (tag : Nat)
  deriving DecidableEq, Repr

/-- `PGOCtxProfileReader::wrongValue`. -/
def wrongValue (Msg : String) : Error :=
  Error.instr instrprof_error.invalid_prof Msg

/-- `PGOCtxProfileReader::unsupported`. -/
def unsupported (Msg : String) : Error :=
  Error.instr instrprof_error.unsupported_version Msg

/-- An error is an `invalid_prof` error, whatever its message. -/
def Error.isInvalidProf : Error → Bool
  | Error.instr instrprof_error.invalid_prof _ => true
  | _ => false

/-! ## `std::map` -/

/-- A `std::map` with integer keys: the entries in increasing key order. -/
abbrev MapTy (V : Type) := List (Nat × V)

/-- `std::map::find`: the value stored under `k`, if any. -/
def mapFind {V : Type} (k : Nat) : MapTy V → Option V
  | [] => none
  | (k', v) :: m => if k = k' then some v else mapFind k m

/-- Assignment through the reference `operator[]` returns: the value under
`k` becomes `v`, the entry being created at its place in the key order when
the key was absent. -/
def mapPut {V : Type} (k : Nat) (v : V) : MapTy V → MapTy V
  | [] => [(k, v)]
  | (k', v') :: m =>
    if k < k' then (k, v) :: (k', v') :: m
    else if k = k' then (k, v) :: m
    else (k', v') :: mapPut k v m

/-- `std::map::insert`: when no entry has the key, the entry is added at its
place in the key order; when the key is taken the map is unchanged.  The flag
tells whether the entry was inserted. -/
def mapInsert {V : Type} (k : Nat) (v : V) (m : MapTy V) : MapTy V × Bool :=
  match mapFind k m with
  | some _ => (m, false)
  | none => (mapPut k v m, true)

/-! ## Data model -/

/-- `CtxProfFlatProfile`: guid to counters. -/
abbrev CtxProfFlatProfile := MapTy (List Nat)

/-- Modelled from the spec: the class `PGOCtxProfContext` of
`PGOCtxProfReader.h`, which is not among the sources: one node of the context
tree, with the fields of the spec's data model (guid, counters, the optional
total root entry count, the optional unhandled flat profile, the call sites).
`Callsites` maps a call-site index to the map from callee guid to callee
context (`CallsiteMapTy`, `CallTargetMapTy`). -/
inductive PGOCtxProfContext where
  | mk (GUID : Nat) (Counters : List Nat) (RootEntryCount : Option Nat)
      (Unhandled : Option CtxProfFlatProfile)
      (Callsites : List (Nat × List (Nat × PGOCtxProfContext)))

namespace PGOCtxProfContext

abbrev CallTargetMapTy := MapTy PGOCtxProfContext
abbrev CallsiteMapTy := MapTy CallTargetMapTy

def guid : PGOCtxProfContext → Nat
  | mk g _ _ _ _ => g

def counters : PGOCtxProfContext → List Nat
  | mk _ c _ _ _ => c

def getTotalRootEntryCount : PGOCtxProfContext → Option Nat
  | mk _ _ t _ _ => t

def getUnhandled : PGOCtxProfContext → Option CtxProfFlatProfile
  | mk _ _ _ u _ => u

def callsites : PGOCtxProfContext → CallsiteMapTy
  | mk _ _ _ _ cs => cs

/-- The context with its call-site map replaced. -/
def setCallsites : PGOCtxProfContext → CallsiteMapTy → PGOCtxProfContext
  | mk g c t u _, cs => mk g c t u cs

/-- `PGOCtxProfContext::isRoot`: a context is a root when it carries a total
root entry count. -/
def isRoot (Ctx : PGOCtxProfContext) : Bool :=
  Ctx.getTotalRootEntryCount.isSome

/-- The constructor the reader calls: the fields as given, no call sites. -/
def create (G : Nat) (Counters : List Nat) (RootEntryCount : Option Nat)
    (Unhandled : Option CtxProfFlatProfile) : PGOCtxProfContext :=
  mk G Counters RootEntryCount Unhandled []

/-- `PGOCtxProfContext::getOrEmplace`: a fresh context for `G` is inserted
under `Callsites[Index]`; a guid already present there is an error.  The
result is the context with the new callee in place. -/
def getOrEmplace (Ctx : PGOCtxProfContext) (Index : Nat) (G : Nat)
    (Counters : List Nat) : Except Error PGOCtxProfContext :=
  let Targets := (mapFind Index Ctx.callsites).getD []
  let r := mapInsert G (create G Counters none none) Targets
  if !r.2 then
    Except.error (Error.instr instrprof_error.invalid_prof
      "Duplicate GUID for same callsite.")
  else
    Except.ok (Ctx.setCallsites (mapPut Index r.1 Ctx.callsites))

end PGOCtxProfContext

/-- `CtxProfContextualProfiles`: root guid to root context. -/
abbrev CtxProfContextualProfiles := MapTy PGOCtxProfContext

/-- `PGOCtxProfile`: the decoded profile. -/
structure PGOCtxProfile where
  Contexts : CtxProfContextualProfiles
  FlatProfiles : CtxProfFlatProfile

/-! ## The bitstream cursor -/

/-- Modelled from the spec: the kinds of entry `advance` returns
(`BitstreamReader.h` is not among the sources): a sub-block, a record or the
end of a block.  `Error` is the kind of the entry the cursor returns where the
stream ends.  The reader tests for `SubBlock` and `Record` only, so it treats
`EndBlock` and `Error` alike. -/
inductive EntryKind where
  | Error
  | EndBlock
  | SubBlock
  | Record
  deriving DecidableEq, Repr

/-- Modelled from the spec: `BitstreamEntry`, what `advance` returns: the
kind of the entry and, for a sub-block, the block id. -/
structure BitstreamEntry where
  Kind : EntryKind
  ID : Nat
  deriving DecidableEq, Repr

/-- Modelled from the spec: the bit cursor, which the spec treats as an
external primitive with four operations (advance to the next entry, enter a
sub-block by id, skip a block, read an unabbreviated record).  The reader
takes the cursor as a parameter: these are the operations of
`BitstreamCursor` it calls, over a cursor state `σ`.  Every operation returns
the state it leaves the cursor in, also when it reports an error.  `advance`
takes its flags, `EnterSubBlock` the block id, `readRecord` the abbreviation
id and returns the record code with the record values. -/
structure BitstreamCursor (σ : Type) where
  advance : Nat → σ → Except Error BitstreamEntry × σ
  EnterSubBlock : Nat → σ → Except Error Unit × σ
  SkipBlock : σ → Except Error Unit × σ
  readRecord : Nat → σ → Except Error (Nat × List Nat) × σ

/-- `BitstreamCursor::AF_DontAutoprocessAbbrevs`. -/
def AF_DontAutoprocessAbbrevs : Nat := 2

section Reader

variable {σ : Type}

/-- `PGOCtxProfileReader::advance`. -/
def advance (C : BitstreamCursor σ) (s : σ) : Except Error BitstreamEntry × σ :=
  C.advance AF_DontAutoprocessAbbrevs s

/-- `PGOCtxProfileReader::tryGetNextKnownBlockID`: `some ID` stands for the
result `true` with `ID` assigned, `none` for `false`.  An error of `advance`
is consumed. -/
def tryGetNextKnownBlockID (C : BitstreamCursor σ) (s : σ) : Option Nat × σ :=
  match advance C s with
  | (Except.error _, s1) => (none, s1)
  | (Except.ok Blk, s1) =>
    if Blk.Kind ≠ EntryKind.SubBlock then (none, s1)
    else if PGOCtxProfileBlockIDs.FIRST_VALID > Blk.ID ∨
        PGOCtxProfileBlockIDs.LAST_VALID < Blk.ID then (none, s1)
    else (some Blk.ID, s1)

/-- `PGOCtxProfileReader::canEnterBlockWithID`. -/
def canEnterBlockWithID (C : BitstreamCursor σ) (ID : Nat) (s : σ) : Bool × σ :=
  match tryGetNextKnownBlockID C s with
  | (some Test, s1) => (decide (Test = ID), s1)
  | (none, s1) => (false, s1)

/-- `PGOCtxProfileReader::enterBlockWithID`. -/
def enterBlockWithID (C : BitstreamCursor σ) (ID : Nat) (s : σ) :
    Except Error Unit × σ :=
  C.EnterSubBlock ID s

/-- The local variables of `readProfile` that the field loop fills. -/
structure Fields where
  Guid : Option Nat := none
  Counters : Option (List Nat) := none
  CallsiteIndex : Option Nat := none
  TotalEntryCount : Option Nat := none
  Unhandled : Option CtxProfFlatProfile := none

/-- The lambda `GotAllWeNeed` of `readProfile`. -/
def GotAllWeNeed (Kind : Nat) (F : Fields) : Bool :=
  let ExpectIndex := decide (Kind = PGOCtxProfileBlockIDs.ContextNodeBlockID)
  let IsRoot := decide (Kind = PGOCtxProfileBlockIDs.ContextRootBlockID)
  F.Guid.isSome && F.Counters.isSome &&
    (!ExpectIndex || F.CallsiteIndex.isSome) &&
    (!IsRoot || F.TotalEntryCount.isSome) &&
    (!IsRoot || F.Unhandled.isSome)

/-- The `switch (*ReadRecord)` of `readProfile`: what a record with code
`Code` and values `RecordValues` does to the fields. -/
def applyRecord (Kind : Nat) (F : Fields) (Code : Nat) (RecordValues : List Nat) :
    Except Error Fields :=
  let ExpectIndex := decide (Kind = PGOCtxProfileBlockIDs.ContextNodeBlockID)
  let IsRoot := decide (Kind = PGOCtxProfileBlockIDs.ContextRootBlockID)
  if Code = PGOCtxProfileRecords.Guid then
    if RecordValues.length ≠ 1 then
      Except.error (wrongValue "The GUID record should have exactly one value")
    else Except.ok { F with Guid := some (RecordValues.getD 0 0) }
  else if Code = PGOCtxProfileRecords.Counters then
    if RecordValues.isEmpty then
      Except.error (wrongValue
        "Empty counters. At least the entry counter (one value) was expected")
    else Except.ok { F with Counters := some RecordValues }
  else if Code = PGOCtxProfileRecords.CallsiteIndex then
    if !ExpectIndex then
      Except.error (wrongValue "The root context should not have a callee index")
    else if RecordValues.length ≠ 1 then
      Except.error (wrongValue "The callee index should have exactly one value")
    else Except.ok { F with CallsiteIndex := some (RecordValues.getD 0 0 % 2 ^ 32) }
  else if Code = PGOCtxProfileRecords.TotalRootEntryCount then
    if !IsRoot then
      Except.error (wrongValue "Non-root has a total entry count record")
    else if RecordValues.length ≠ 1 then
      Except.error (wrongValue
        "The root total entry count record should have exactly one value")
    else Except.ok { F with TotalEntryCount := some (RecordValues.getD 0 0) }
  else
    Except.ok F

/-- The body of the second loop of `readProfile`: the callee `SC` is stored
under `Ret.callsites()[Index][SC.guid()]`, a taken slot being an error. -/
def insertCallee (Ret : PGOCtxProfContext) (Index : Nat) (SC : PGOCtxProfContext) :
    Except Error PGOCtxProfContext :=
  let Targets := (mapFind Index Ret.callsites).getD []
  let r := mapInsert SC.guid SC Targets
  if !r.2 then
    Except.error (wrongValue
      "Unexpected duplicate target (callee) at the same callsite.")
  else
    Except.ok (Ret.setCallsites (mapPut Index r.1 Ret.callsites))

mutual

/-- `PGOCtxProfileReader::readProfile`: the block is entered, the field loop
runs (`readFields`), the context is built and the callee loop runs
(`readCallees`).  The result is the pair the source returns, the optional
call-site index and the context, with the cursor state.  The assertion on
`Kind` at the head of the source function is a precondition of the callers
and is not part of the function. -/
def readProfile (C : BitstreamCursor σ) :
    Nat → Nat → σ → Option (Except Error ((Option Nat × PGOCtxProfContext) × σ))
  | 0, _, _ => none
  | fuel + 1, Kind, s =>
    match enterBlockWithID C Kind s with
    | (Except.error e, _) => some (Except.error e)
    | (Except.ok _, s1) =>
      match readFields C fuel Kind {} s1 with
      | none => none
      | some (Except.error e) => some (Except.error e)
      | some (Except.ok (F, s2)) =>
        readCallees C fuel F.CallsiteIndex
          (PGOCtxProfContext.create (F.Guid.getD 0) (F.Counters.getD [])
            F.TotalEntryCount F.Unhandled) s2

/-- The loop `while (!GotAllWeNeed())` of `readProfile`, from the fields `F`
read so far; it returns the fields at the exit of the loop. -/
def readFields (C : BitstreamCursor σ) :
    Nat → Nat → Fields → σ → Option (Except Error (Fields × σ))
  | 0, _, _, _ => none
  | fuel + 1, Kind, F, s =>
    if GotAllWeNeed Kind F then some (Except.ok (F, s))
    else
      match readField C fuel Kind F s with
      | none => none
      | some (Except.error e) => some (Except.error e)
      | some (Except.ok (F1, s1)) => readFields C fuel Kind F1 s1

/-- One iteration of the loop `while (!GotAllWeNeed())` of `readProfile`. -/
def readField (C : BitstreamCursor σ) :
    Nat → Nat → Fields → σ → Option (Except Error (Fields × σ))
  | 0, _, _, _ => none
  | fuel + 1, Kind, F, s =>
    match advance C s with
    | (Except.error e, _) => some (Except.error e)
    | (Except.ok Entry, s1) =>
      if Entry.Kind ≠ EntryKind.Record then
        if Kind = PGOCtxProfileBlockIDs.ContextRootBlockID ∧
            Entry.Kind = EntryKind.SubBlock ∧
            Entry.ID = PGOCtxProfileBlockIDs.UnhandledBlockID then
          match enterBlockWithID C PGOCtxProfileBlockIDs.UnhandledBlockID s1 with
          | (Except.error e, _) => some (Except.error e)
          | (Except.ok _, s2) =>
            match loadFlatProfileList C fuel [] s2 with
            | none => none
            | some (Except.error e) => some (Except.error e)
            | some (Except.ok (P, s3)) =>
              some (Except.ok ({ F with Unhandled := some P }, s3))
        else
          some (Except.error (wrongValue
            "Expected records before encountering more subcontexts"))
      else
        match C.readRecord bitc.UNABBREV_RECORD s1 with
        | (Except.error e, _) => some (Except.error e)
        | (Except.ok (Code, RecordValues), s2) =>
          match applyRecord Kind F Code RecordValues with
          | Except.error e => some (Except.error e)
          | Except.ok F1 => some (Except.ok (F1, s2))

/-- The loop `while (canEnterBlockWithID(ContextNodeBlockID))` of
`readProfile`, from the context `Ret` built so far; it returns what
`readProfile` returns. -/
def readCallees (C : BitstreamCursor σ) :
    Nat → Option Nat → PGOCtxProfContext → σ →
      Option (Except Error ((Option Nat × PGOCtxProfContext) × σ))
  | 0, _, _, _ => none
  | fuel + 1, CallsiteIndex, Ret, s =>
    match canEnterBlockWithID C PGOCtxProfileBlockIDs.ContextNodeBlockID s with
    | (false, s1) => some (Except.ok ((CallsiteIndex, Ret), s1))
    | (true, s1) =>
      match readProfile C fuel PGOCtxProfileBlockIDs.ContextNodeBlockID s1 with
      | none => none
      | some (Except.error e) => some (Except.error e)
      | some (Except.ok (SC, s2)) =>
        match insertCallee Ret (SC.1.getD 0) SC.2 with
        | Except.error e => some (Except.error e)
        | Except.ok Ret1 => readCallees C fuel CallsiteIndex Ret1 s2

/-- `PGOCtxProfileReader::loadFlatProfileList`, from the flat profile `P`
filled so far. -/
def loadFlatProfileList (C : BitstreamCursor σ) :
    Nat → CtxProfFlatProfile → σ → Option (Except Error (CtxProfFlatProfile × σ))
  | 0, _, _ => none
  | fuel + 1, P, s =>
    match canEnterBlockWithID C PGOCtxProfileBlockIDs.FlatProfileBlockID s with
    | (false, s1) => some (Except.ok (P, s1))
    | (true, s1) =>
      match readProfile C fuel PGOCtxProfileBlockIDs.FlatProfileBlockID s1 with
      | none => none
      | some (Except.error e) => some (Except.error e)
      | some (Except.ok (E, s2)) =>
        if !(mapInsert E.2.guid E.2.counters P).2 then
          some (Except.error (wrongValue "Duplicate flat profile entries"))
        else loadFlatProfileList C fuel (mapInsert E.2.guid E.2.counters P).1 s2

end

/-- `PGOCtxProfileReader::readMetadata`, for the magic bytes `Magic` the
reader was constructed with. -/
def readMetadata (C : BitstreamCursor σ) (W : PGOCtxProfileWriter) (Magic : List Nat)
    (s : σ) : Except Error Unit × σ :=
  if Magic.length < W.ContainerMagic.length ∨ Magic ≠ W.ContainerMagic then
    (Except.error (Error.instr instrprof_error.invalid_prof "Invalid magic"), s)
  else
    match C.advance 0 s with
    | (Except.error e, s1) => (Except.error e, s1)
    | (Except.ok Entry, s1) =>
      if Entry.Kind ≠ EntryKind.SubBlock ∨ Entry.ID ≠ bitc.BLOCKINFO_BLOCK_ID then
        (Except.error (unsupported "Expected Block ID"), s1)
      else
        match C.SkipBlock s1 with
        | (Except.error e, s2) => (Except.error e, s2)
        | (Except.ok _, s2) =>
          match advance C s2 with
          | (Except.error e, s3) => (Except.error e, s3)
          | (Except.ok Blk, s3) =>
            if Blk.Kind ≠ EntryKind.SubBlock then
              (Except.error (unsupported "Expected Version record"), s3)
            else
              match C.EnterSubBlock PGOCtxProfileBlockIDs.ProfileMetadataBlockID s3 with
              | (Except.error e, s4) => (Except.error e, s4)
              | (Except.ok _, s4) =>
                match advance C s4 with
                | (Except.error e, s5) => (Except.error e, s5)
                | (Except.ok MData, s5) =>
                  if MData.Kind ≠ EntryKind.Record then
                    (Except.error (unsupported "Expected Version record"), s5)
                  else
                    match C.readRecord bitc.UNABBREV_RECORD s5 with
                    | (Except.error e, s6) => (Except.error e, s6)
                    | (Except.ok (Code, Ver), s6) =>
                      if Code ≠ PGOCtxProfileRecords.Version then
                        (Except.error (unsupported "Expected Version record"), s6)
                      else if Ver.length ≠ 1 ∨ Ver.getD 0 0 > W.CurrentVersion then
                        (Except.error (unsupported ("Version " ++ toString Code ++
                          " is higher than supported version " ++
                          toString W.CurrentVersion)), s6)
                      else (Except.ok (), s6)

/-- The loop `while (canEnterBlockWithID(ContextRootBlockID))` of
`loadContexts`, from the roots `P` read so far. -/
def loadContextRoots (C : BitstreamCursor σ) :
    Nat → CtxProfContextualProfiles → σ →
      Option (Except Error (CtxProfContextualProfiles × σ))
  | 0, _, _ => none
  | fuel + 1, P, s =>
    match canEnterBlockWithID C PGOCtxProfileBlockIDs.ContextRootBlockID s with
    | (false, s1) => some (Except.ok (P, s1))
    | (true, s1) =>
      match readProfile C fuel PGOCtxProfileBlockIDs.ContextRootBlockID s1 with
      | none => none
      | some (Except.error e) => some (Except.error e)
      | some (Except.ok (E, s2)) =>
        if !(mapInsert E.2.guid E.2 P).2 then
          some (Except.error (wrongValue "Duplicate roots"))
        else loadContextRoots C fuel (mapInsert E.2.guid E.2 P).1 s2

/-- `PGOCtxProfileReader::loadContexts`. -/
def loadContexts (C : BitstreamCursor σ) (fuel : Nat) (P : CtxProfContextualProfiles)
    (s : σ) : Option (Except Error (CtxProfContextualProfiles × σ)) :=
  match enterBlockWithID C PGOCtxProfileBlockIDs.ContextsSectionBlockID s with
  | (Except.error e, _) => some (Except.error e)
  | (Except.ok _, s1) => loadContextRoots C fuel P s1

/-- `PGOCtxProfileReader::loadFlatProfiles`. -/
def loadFlatProfiles (C : BitstreamCursor σ) (fuel : Nat) (P : CtxProfFlatProfile)
    (s : σ) : Option (Except Error (CtxProfFlatProfile × σ)) :=
  match enterBlockWithID C PGOCtxProfileBlockIDs.FlatProfilesSectionBlockID s with
  | (Except.error e, _) => some (Except.error e)
  | (Except.ok _, s1) => loadFlatProfileList C fuel P s1

/-- The loop `for (auto I = 0; I < 2; ++I)` of `loadProfiles`, with `n`
iterations left and the profile `Ret` filled so far. -/
def loadSections (C : BitstreamCursor σ) (fuel : Nat) :
    Nat → PGOCtxProfile → σ → Option (Except Error (PGOCtxProfile × σ))
  | 0, Ret, s => some (Except.ok (Ret, s))
  | n + 1, Ret, s =>
    match tryGetNextKnownBlockID C s with
    | (none, s1) => some (Except.ok (Ret, s1))
    | (some Test, s1) =>
      if Test = PGOCtxProfileBlockIDs.ContextsSectionBlockID then
        match loadContexts C fuel Ret.Contexts s1 with
        | none => none
        | some (Except.error e) => some (Except.error e)
        | some (Except.ok (P, s2)) => loadSections C fuel n { Ret with Contexts := P } s2
      else if Test = PGOCtxProfileBlockIDs.FlatProfilesSectionBlockID then
        match loadFlatProfiles C fuel Ret.FlatProfiles s1 with
        | none => none
        | some (Except.error e) => some (Except.error e)
        | some (Except.ok (P, s2)) =>
          loadSections C fuel n { Ret with FlatProfiles := P } s2
      else some (Except.error (wrongValue "Unexpected section"))

/-- `PGOCtxProfileReader::loadProfiles`. -/
def loadProfiles (C : BitstreamCursor σ) (W : PGOCtxProfileWriter) (Magic : List Nat)
    (fuel : Nat) (s : σ) : Option (Except Error (PGOCtxProfile × σ)) :=
  match readMetadata C W Magic s with
  | (Except.error e, _) => some (Except.error e)
  | (Except.ok _, s1) => loadSections C fuel 2 { Contexts := [], FlatProfiles := [] } s1

end Reader

/-! ## A cursor over a finite sequence of entries -/

/-- One entry of a stream.  A sub-block entry carries the block id and
whether the block header that follows the id is well formed; a record entry
carries the record code and the values; `badRecord` is a record entry whose
content cannot be read; `malformed` is a position at which `advance` itself
reports an error. -/
inductive Tok where
  | subBlock (ID : Nat) (wellFormed : Bool)
  | endBlock
  | record (Code : Nat) (Vals : List Nat)
  | badRecord
  | malformed
  deriving DecidableEq, Repr

/-- The state of the cursor over a sequence of entries: the entry `advance`
returned last, while nothing has consumed it, and the entries still ahead. -/
structure TokState where
  last : Option Tok
  rest : List Tok
  deriving DecidableEq, Repr

/-- The entries after the end of the block the cursor is in, `depth` blocks
deeper than that block; `none` when the block does not end. -/
def skipToEnd : Nat → List Tok → Option (List Tok)
  | _, [] => none
  | 0, Tok.endBlock :: r => some r
  | d + 1, Tok.endBlock :: r => skipToEnd d r
  | d, Tok.subBlock _ _ :: r => skipToEnd (d + 1) r
  | d, _ :: r => skipToEnd d r

/-- Modelled from the spec: the bit cursor, an external primitive of which
the spec gives the operations (advance to the next entry, enter a sub-block
by id, skip a block, read an unabbreviated record), here over a finite
sequence of entries.

* `advance` moves past the next entry and returns its kind (with the block id
  for a sub-block); past the last entry it returns an entry of kind `Error`,
  and at a `malformed` position it reports an error.  A record or sub-block
  returned earlier and not consumed is passed over.
* `EnterSubBlock` succeeds when `advance` has just returned a sub-block with
  that id and a well-formed header, and reports an error otherwise.
* `SkipBlock` succeeds when `advance` has just returned a sub-block with a
  well-formed header whose end is in the stream, and moves behind that end.
* `readRecord` returns code and values of the record `advance` has just
  returned, and reports an error at a `badRecord` or when no record is
  pending. -/
def tokCursor : BitstreamCursor TokState where
  advance := fun _ s =>
    match s.rest with
    | [] => (Except.ok ⟨EntryKind.Error, 0⟩, ⟨none, []⟩)
    | Tok.subBlock ID w :: r =>
      (Except.ok ⟨EntryKind.SubBlock, ID⟩, ⟨some (Tok.subBlock ID w), r⟩)
    | Tok.endBlock :: r => (Except.ok ⟨EntryKind.EndBlock, 0⟩, ⟨none, r⟩)
    | Tok.record Code Vals :: r =>
      (Except.ok ⟨EntryKind.Record, bitc.UNABBREV_RECORD⟩, ⟨some (Tok.record Code Vals), r⟩)
    | Tok.badRecord :: r =>
      (Except.ok ⟨EntryKind.Record, bitc.UNABBREV_RECORD⟩, ⟨some Tok.badRecord, r⟩)
    | Tok.malformed :: r => (Except.error (Error.cursor 0), ⟨none, r⟩)
  EnterSubBlock := fun ID s =>
    match s.last with
    | some (Tok.subBlock ID1 true) =>
      if ID = ID1 then (Except.ok (), ⟨none, s.rest⟩)
      else (Except.error (Error.cursor 1), ⟨none, s.rest⟩)
    | _ => (Except.error (Error.cursor 1), ⟨none, s.rest⟩)
  SkipBlock := fun s =>
    match s.last with
    | some (Tok.subBlock _ true) =>
      match skipToEnd 0 s.rest with
      | some r => (Except.ok (), ⟨none, r⟩)
      | none => (Except.error (Error.cursor 2), ⟨none, []⟩)
    | _ => (Except.error (Error.cursor 2), ⟨none, s.rest⟩)
  readRecord := fun _ s =>
    match s.last with
    | some (Tok.record Code Vals) => (Except.ok (Code, Vals), ⟨none, s.rest⟩)
    | _ => (Except.error (Error.cursor 3), ⟨none, s.rest⟩)

/-- The cursor state in which `advance` has just returned a sub-block with
id `ID` and the entries `toks` follow: the state `readProfile` is called in. -/
def TokState.inBlock (ID : Nat) (toks : List Tok) : TokState :=
  ⟨some (Tok.subBlock ID true), toks⟩

/-- The cursor state at the start of the entries `toks`. -/
def TokState.start (toks : List Tok) : TokState :=
  ⟨none, toks⟩

/-- A choice of the writer's two constants (the magic bytes `CTXP`), for
running `loadProfiles` on concrete streams. -/
def sampleWriter : PGOCtxProfileWriter :=
  { ContainerMagic := [67, 84, 88, 80], CurrentVersion := 4 }

/-! ## Notions the statements use -/

/-- The fuel-indexed computation `f` returns `r`: it does so with every
sufficient amount of fuel. -/
def Returns {α : Type} (f : Nat → Option α) (r : α) : Prop :=
  ∃ n, ∀ m, n ≤ m → f m = some r

/-- The callee stored in `Ctx` under call-site index `Index` and guid `G`:
`callsites()[Index][G]`, if present. -/
def PGOCtxProfContext.callee (Ctx : PGOCtxProfContext) (Index G : Nat) :
    Option PGOCtxProfContext :=
  (mapFind Index Ctx.callsites).bind (mapFind G)

section Positions

variable {σ : Type}

/-- The record, code and values, that an iteration of the field loop of
`readProfile` reads at cursor state `s`, if it reads one. -/
def recordAt (C : BitstreamCursor σ) (s : σ) : Option (Nat × List Nat) :=
  match advance C s with
  | (Except.ok Entry, s1) =>
    if Entry.Kind = EntryKind.Record then
      match C.readRecord bitc.UNABBREV_RECORD s1 with
      | (Except.ok r, _) => some r
      | _ => none
    else none
  | _ => none

/-- `FieldsReach C Kind F s recs F1 s1`: the field loop of `readProfile`,
with the fields `F` at cursor state `s`, comes after some iterations, none of
which failed, to the head of the loop with the fields `F1` at cursor state
`s1`; `recs` lists the records these iterations read, the latest first. -/
inductive FieldsReach (C : BitstreamCursor σ) (Kind : Nat) :
    Fields → σ → List (Nat × List Nat) → Fields → σ → Prop where
  | refl (F : Fields) (s : σ) : FieldsReach C Kind F s [] F s
  | step {F F1 F2 : Fields} {s s1 s2 : σ} {recs : List (Nat × List Nat)} (n : Nat) :
      FieldsReach C Kind F s recs F1 s1 →
      GotAllWeNeed Kind F1 = false →
      readField C n Kind F1 s1 = some (Except.ok (F2, s2)) →
      FieldsReach C Kind F s ((recordAt C s1).toList ++ recs) F2 s2

/-- `InFields C Kind s0 recs F s`: the call `readProfile(Kind)` at cursor
state `s0` has entered its block and its field loop is at the head of an
iteration with the fields `F` at cursor state `s`, having read the records
`recs` (the latest first). -/
def InFields (C : BitstreamCursor σ) (Kind : Nat) (s0 : σ)
    (recs : List (Nat × List Nat)) (F : Fields) (s : σ) : Prop :=
  ∃ s1, enterBlockWithID C Kind s0 = (Except.ok (), s1) ∧
    FieldsReach C Kind {} s1 recs F s

/-- `CalleesReach C Ret s seen Ret1 s1`: the callee loop of `readProfile`,
with the context `Ret` at cursor state `s`, comes after some iterations, none
of which failed, to the head of the loop with the context `Ret1` at cursor
state `s1`; `seen` lists the call-site index and the context of the callees
these iterations decoded, the latest first. -/
inductive CalleesReach (C : BitstreamCursor σ) :
    PGOCtxProfContext → σ → List (Nat × PGOCtxProfContext) → PGOCtxProfContext → σ →
      Prop where
  | refl (Ret : PGOCtxProfContext) (s : σ) : CalleesReach C Ret s [] Ret s
  | step {Ret Ret1 Ret2 : PGOCtxProfContext} {s s1 s2 s3 : σ}
      {seen : List (Nat × PGOCtxProfContext)}
      {SC : Option Nat × PGOCtxProfContext} (n : Nat) :
      CalleesReach C Ret s seen Ret1 s1 →
      canEnterBlockWithID C PGOCtxProfileBlockIDs.ContextNodeBlockID s1 = (true, s2) →
      readProfile C n PGOCtxProfileBlockIDs.ContextNodeBlockID s2 =
        some (Except.ok (SC, s3)) →
      insertCallee Ret1 (SC.1.getD 0) SC.2 = Except.ok Ret2 →
      CalleesReach C Ret s ((SC.1.getD 0, SC.2) :: seen) Ret2 s3

/-- `InCallees C Kind s0 seen Ret s`: the call `readProfile(Kind)` at cursor
state `s0` has read its fields and built its context, and its callee loop is
at the head of an iteration with the context `Ret` at cursor state `s`,
having decoded the callees `seen` (the latest first). -/
def InCallees (C : BitstreamCursor σ) (Kind : Nat) (s0 : σ)
    (seen : List (Nat × PGOCtxProfContext)) (Ret : PGOCtxProfContext) (s : σ) : Prop :=
  ∃ recs F s1, InFields C Kind s0 recs F s1 ∧ GotAllWeNeed Kind F = true ∧
    CalleesReach C
      (PGOCtxProfContext.create (F.Guid.getD 0) (F.Counters.getD [])
        F.TotalEntryCount F.Unhandled) s1 seen Ret s

/-- `FlatListReach C P s P1 s1`: the loop of `loadFlatProfileList`, with the
flat profile `P` at cursor state `s`, comes after some iterations, none of
which failed, to the head of the loop with the flat profile `P1` at cursor
state `s1`. -/
inductive FlatListReach (C : BitstreamCursor σ) :
    CtxProfFlatProfile → σ → CtxProfFlatProfile → σ → Prop where
  | refl (P : CtxProfFlatProfile) (s : σ) : FlatListReach C P s P s
  | step {P P1 : CtxProfFlatProfile} {s s1 s2 s3 : σ}
      {E : Option Nat × PGOCtxProfContext} (n : Nat) :
      FlatListReach C P s P1 s1 →
      canEnterBlockWithID C PGOCtxProfileBlockIDs.FlatProfileBlockID s1 = (true, s2) →
      readProfile C n PGOCtxProfileBlockIDs.FlatProfileBlockID s2 =
        some (Except.ok (E, s3)) →
      (mapInsert E.2.guid E.2.counters P1).2 = true →
      FlatListReach C P s (mapInsert E.2.guid E.2.counters P1).1 s3

/-- `RootsReach C P s P1 s1`: the loop of `loadContexts`, with the roots `P`
at cursor state `s`, comes after some iterations, none of which failed, to
the head of the loop with the roots `P1` at cursor state `s1`. -/
inductive RootsReach (C : BitstreamCursor σ) :
    CtxProfContextualProfiles → σ → CtxProfContextualProfiles → σ → Prop where
  | refl (P : CtxProfContextualProfiles) (s : σ) : RootsReach C P s P s
  | step {P P1 : CtxProfContextualProfiles} {s s1 s2 s3 : σ}
      {E : Option Nat × PGOCtxProfContext} (n : Nat) :
      RootsReach C P s P1 s1 →
      canEnterBlockWithID C PGOCtxProfileBlockIDs.ContextRootBlockID s1 = (true, s2) →
      readProfile C n PGOCtxProfileBlockIDs.ContextRootBlockID s2 =
        some (Except.ok (E, s3)) →
      (mapInsert E.2.guid E.2 P1).2 = true →
      RootsReach C P s (mapInsert E.2.guid E.2 P1).1 s3

/-- `SectionsReach C k Ret s k1 Ret1 s1`: the loop of `loadProfiles`, with
`k` iterations left and the profile `Ret` at cursor state `s`, comes after
some iterations, none of which failed or left the loop, to the head of the
loop with `k1` iterations left and the profile `Ret1` at cursor state `s1`. -/
inductive SectionsReach (C : BitstreamCursor σ) :
    Nat → PGOCtxProfile → σ → Nat → PGOCtxProfile → σ → Prop where
  | refl (k : Nat) (Ret : PGOCtxProfile) (s : σ) : SectionsReach C k Ret s k Ret s
  | contexts {k k1 : Nat} {Ret Ret1 : PGOCtxProfile} {s s1 s2 s3 : σ}
      {P : CtxProfContextualProfiles} (n : Nat) :
      SectionsReach C k Ret s (k1 + 1) Ret1 s1 →
      tryGetNextKnownBlockID C s1 =
        (some PGOCtxProfileBlockIDs.ContextsSectionBlockID, s2) →
      loadContexts C n Ret1.Contexts s2 = some (Except.ok (P, s3)) →
      SectionsReach C k Ret s k1 { Ret1 with Contexts := P } s3
  | flat {k k1 : Nat} {Ret Ret1 : PGOCtxProfile} {s s1 s2 s3 : σ}
      {P : CtxProfFlatProfile} (n : Nat) :
      SectionsReach C k Ret s (k1 + 1) Ret1 s1 →
      tryGetNextKnownBlockID C s1 =
        (some PGOCtxProfileBlockIDs.FlatProfilesSectionBlockID, s2) →
      loadFlatProfiles C n Ret1.FlatProfiles s2 = some (Except.ok (P, s3)) →
      SectionsReach C k Ret s k1 { Ret1 with FlatProfiles := P } s3

/-- `InSections C W Magic s0 k Ret s`: the call of `loadProfiles` at cursor
state `s0` has read the metadata and its loop is at the head of an iteration
with `k` iterations left and the profile `Ret` at cursor state `s`. -/
def InSections (C : BitstreamCursor σ) (W : PGOCtxProfileWriter) (Magic : List Nat)
    (s0 : σ) (k : Nat) (Ret : PGOCtxProfile) (s : σ) : Prop :=
  ∃ s1, readMetadata C W Magic s0 = (Except.ok (), s1) ∧
    SectionsReach C 2 { Contexts := [], FlatProfiles := [] } s1 k Ret s

/-- `Calls C W Magic s0 Kind s`: the call of `loadProfiles` at cursor state
`s0` comes to call `readProfile(Kind)` at cursor state `s`:

* for a root of the contexts section (`root`);
* for an entry of the flat-profiles section (`flat`);
* for a callee, from the callee loop of a call it has come to (`callee`);
* for an entry of the Unhandled sub-block of a root, from the field loop of a
  call it has come to (`unhandled`). -/
inductive Calls (C : BitstreamCursor σ) (W : PGOCtxProfileWriter) (Magic : List Nat)
    (s0 : σ) : Nat → σ → Prop where
  | root {k : Nat} {Ret : PGOCtxProfile} {P : CtxProfContextualProfiles}
      {s1 s2 s3 s4 s5 : σ} :
      InSections C W Magic s0 (k + 1) Ret s1 →
      tryGetNextKnownBlockID C s1 =
        (some PGOCtxProfileBlockIDs.ContextsSectionBlockID, s2) →
      enterBlockWithID C PGOCtxProfileBlockIDs.ContextsSectionBlockID s2 =
        (Except.ok (), s3) →
      RootsReach C Ret.Contexts s3 P s4 →
      canEnterBlockWithID C PGOCtxProfileBlockIDs.ContextRootBlockID s4 = (true, s5) →
      Calls C W Magic s0 PGOCtxProfileBlockIDs.ContextRootBlockID s5
  | flat {k : Nat} {Ret : PGOCtxProfile} {P : CtxProfFlatProfile}
      {s1 s2 s3 s4 s5 : σ} :
      InSections C W Magic s0 (k + 1) Ret s1 →
      tryGetNextKnownBlockID C s1 =
        (some PGOCtxProfileBlockIDs.FlatProfilesSectionBlockID, s2) →
      enterBlockWithID C PGOCtxProfileBlockIDs.FlatProfilesSectionBlockID s2 =
        (Except.ok (), s3) →
      FlatListReach C Ret.FlatProfiles s3 P s4 →
      canEnterBlockWithID C PGOCtxProfileBlockIDs.FlatProfileBlockID s4 = (true, s5) →
      Calls C W Magic s0 PGOCtxProfileBlockIDs.FlatProfileBlockID s5
  | callee {Kind : Nat} {s s1 s2 : σ} {seen : List (Nat × PGOCtxProfContext)}
      {Ret : PGOCtxProfContext} :
      Calls C W Magic s0 Kind s →
      InCallees C Kind s seen Ret s1 →
      canEnterBlockWithID C PGOCtxProfileBlockIDs.ContextNodeBlockID s1 = (true, s2) →
      Calls C W Magic s0 PGOCtxProfileBlockIDs.ContextNodeBlockID s2
  | unhandled {s s1 s2 s3 s4 s5 : σ} {recs : List (Nat × List Nat)} {F : Fields}
      {Entry : BitstreamEntry} {P : CtxProfFlatProfile} :
      Calls C W Magic s0 PGOCtxProfileBlockIDs.ContextRootBlockID s →
      InFields C PGOCtxProfileBlockIDs.ContextRootBlockID s recs F s1 →
      GotAllWeNeed PGOCtxProfileBlockIDs.ContextRootBlockID F = false →
      advance C s1 = (Except.ok Entry, s2) →
      Entry.Kind = EntryKind.SubBlock →
      Entry.ID = PGOCtxProfileBlockIDs.UnhandledBlockID →
      enterBlockWithID C PGOCtxProfileBlockIDs.UnhandledBlockID s2 = (Except.ok (), s3) →
      FlatListReach C [] s3 P s4 →
      canEnterBlockWithID C PGOCtxProfileBlockIDs.FlatProfileBlockID s4 = (true, s5) →
      Calls C W Magic s0 PGOCtxProfileBlockIDs.FlatProfileBlockID s5

end Positions

/-! ## Counters of a decoded profile -/

/-- Every entry of a flat profile has at least one counter. -/
def flatCountersNonEmpty (P : CtxProfFlatProfile) : Bool :=
  P.all (fun e => !e.2.isEmpty)

mutual

/-- The context, the entries of its unhandled flat profile and the contexts
below it at every depth have at least one counter each. -/
def PGOCtxProfContext.countersNonEmpty : PGOCtxProfContext → Bool
  | PGOCtxProfContext.mk _ c _ u cs =>
    !c.isEmpty &&
      (match u with
        | none => true
        | some P => flatCountersNonEmpty P) &&
      callsitesCountersNonEmpty cs

/-- `countersNonEmpty` for every context of a call-site map. -/
def callsitesCountersNonEmpty : List (Nat × List (Nat × PGOCtxProfContext)) → Bool
  | [] => true
  | (_, m) :: rest => targetsCountersNonEmpty m && callsitesCountersNonEmpty rest

/-- `countersNonEmpty` for every context of a map from guid to context. -/
def targetsCountersNonEmpty : List (Nat × PGOCtxProfContext) → Bool
  | [] => true
  | (_, c) :: rest => c.countersNonEmpty && targetsCountersNonEmpty rest

end

/-- Every root context with all that is below it, and every entry of the
top-level flat profiles, has at least one counter. -/
def PGOCtxProfile.countersNonEmpty (P : PGOCtxProfile) : Bool :=
  targetsCountersNonEmpty P.Contexts && flatCountersNonEmpty P.FlatProfiles

/-- What the field loop keeps true of the fields read so far: counters that
were read are not empty, and neither are those of an unhandled profile. -/
def Fields.countersNonEmpty (F : Fields) : Prop :=
  (∀ c, F.Counters = some c → c.isEmpty = false) ∧
    (∀ P, F.Unhandled = some P → flatCountersNonEmpty P = true)

/-! ## A sample container -/

/-- The entries of a sample container: the block-info block, the metadata
block with version 1 and, inside it, a contexts section with one root (guid 7,
counters [100], total root entry count 100, one unhandled entry, one child at
call-site index 2) and a flat-profiles section with one entry. -/
def sampleContainer : List Tok :=
  [Tok.subBlock bitc.BLOCKINFO_BLOCK_ID true, Tok.endBlock,
    Tok.subBlock PGOCtxProfileBlockIDs.ProfileMetadataBlockID true,
    Tok.record PGOCtxProfileRecords.Version [1],
    Tok.subBlock PGOCtxProfileBlockIDs.ContextsSectionBlockID true,
    Tok.subBlock PGOCtxProfileBlockIDs.ContextRootBlockID true,
    Tok.record PGOCtxProfileRecords.Guid [7],
    Tok.record PGOCtxProfileRecords.TotalRootEntryCount [100],
    Tok.record PGOCtxProfileRecords.Counters [100],
    Tok.subBlock PGOCtxProfileBlockIDs.UnhandledBlockID true,
    Tok.subBlock PGOCtxProfileBlockIDs.FlatProfileBlockID true,
    Tok.record PGOCtxProfileRecords.Guid [1],
    Tok.record PGOCtxProfileRecords.Counters [3],
    Tok.endBlock,
    Tok.endBlock,
    Tok.subBlock PGOCtxProfileBlockIDs.ContextNodeBlockID true,
    Tok.record PGOCtxProfileRecords.Guid [9],
    Tok.record PGOCtxProfileRecords.CallsiteIndex [2],
    Tok.record PGOCtxProfileRecords.Counters [5],
    Tok.endBlock,
    Tok.endBlock,
    Tok.endBlock,
    Tok.subBlock PGOCtxProfileBlockIDs.FlatProfilesSectionBlockID true,
    Tok.subBlock PGOCtxProfileBlockIDs.FlatProfileBlockID true,
    Tok.record PGOCtxProfileRecords.Guid [4],
    Tok.record PGOCtxProfileRecords.Counters [8],
    Tok.endBlock,
    Tok.endBlock,
    Tok.endBlock]

/-- The profile the sample container holds. -/
def sampleProfile : PGOCtxProfile :=
  { Contexts :=
      [(7, PGOCtxProfContext.mk 7 [100] (some 100) (some [(1, [3])])
        [(2, [(9, PGOCtxProfContext.mk 9 [5] none none [])])])],
    FlatProfiles := [(4, [8])] }

/-- The body of a root block with two children that carry the same guid 9
and the same call-site index 2. -/
def duplicateCalleeBody : List Tok :=
  [Tok.record PGOCtxProfileRecords.Guid [7],
    Tok.record PGOCtxProfileRecords.Counters [100],
    Tok.record PGOCtxProfileRecords.TotalRootEntryCount [100],
    Tok.subBlock PGOCtxProfileBlockIDs.UnhandledBlockID true,
    Tok.endBlock,
    Tok.subBlock PGOCtxProfileBlockIDs.ContextNodeBlockID true,
    Tok.record PGOCtxProfileRecords.Guid [9],
    Tok.record PGOCtxProfileRecords.CallsiteIndex [2],
    Tok.record PGOCtxProfileRecords.Counters [5],
    Tok.endBlock,
    Tok.subBlock PGOCtxProfileBlockIDs.ContextNodeBlockID true,
    Tok.record PGOCtxProfileRecords.Guid [9],
    Tok.record PGOCtxProfileRecords.CallsiteIndex [2],
    Tok.record PGOCtxProfileRecords.Counters [6],
    Tok.endBlock,
    Tok.endBlock]


/-- `loadProfiles`, called at cursor state `s0`, fails with the error `e`. -/
def LoadProfilesFails {σ : Type} (C : BitstreamCursor σ) (W : PGOCtxProfileWriter)
    (Magic : List Nat) (s0 : σ) (e : Error) : Prop :=
  Returns (fun fuel => loadProfiles C W Magic fuel s0) (Except.error e)

/-- The entries of a container in which a position where `advance` reports
an error follows the version record; a contexts section with one root comes
after it. -/
def swallowedErrorContainer : List Tok :=
  [Tok.subBlock bitc.BLOCKINFO_BLOCK_ID true, Tok.endBlock,
    Tok.subBlock PGOCtxProfileBlockIDs.ProfileMetadataBlockID true,
    Tok.record PGOCtxProfileRecords.Version [1],
    Tok.malformed,
    Tok.subBlock PGOCtxProfileBlockIDs.ContextsSectionBlockID true,
    Tok.subBlock PGOCtxProfileBlockIDs.ContextRootBlockID true,
    Tok.record PGOCtxProfileRecords.Guid [7],
    Tok.record PGOCtxProfileRecords.TotalRootEntryCount [100],
    Tok.record PGOCtxProfileRecords.Counters [100],
    Tok.subBlock PGOCtxProfileBlockIDs.UnhandledBlockID true,
    Tok.endBlock,
    Tok.endBlock,
    Tok.endBlock,
    Tok.endBlock]

/-- The entries of a container whose root has a record that cannot be read
after its Guid record. -/
def badRecordContainer : List Tok :=
  [Tok.subBlock bitc.BLOCKINFO_BLOCK_ID true, Tok.endBlock,
    Tok.subBlock PGOCtxProfileBlockIDs.ProfileMetadataBlockID true,
    Tok.record PGOCtxProfileRecords.Version [1],
    Tok.subBlock PGOCtxProfileBlockIDs.ContextsSectionBlockID true,
    Tok.subBlock PGOCtxProfileBlockIDs.ContextRootBlockID true,
    Tok.record PGOCtxProfileRecords.Guid [7],
    Tok.badRecord,
    Tok.endBlock,
    Tok.endBlock,
    Tok.endBlock]

/-- The entries of the container of the spec's first concrete scenario:
version 1 and a contexts section with the one root guid 7, counters [100],
total root entry count 100, which has no Unhandled sub-block and no children;
no flat section. -/
def scenarioContainer : List Tok :=
  [Tok.subBlock bitc.BLOCKINFO_BLOCK_ID true, Tok.endBlock,
    Tok.subBlock PGOCtxProfileBlockIDs.ProfileMetadataBlockID true,
    Tok.record PGOCtxProfileRecords.Version [1],
    Tok.subBlock PGOCtxProfileBlockIDs.ContextsSectionBlockID true,
    Tok.subBlock PGOCtxProfileBlockIDs.ContextRootBlockID true,
    Tok.record PGOCtxProfileRecords.Guid [7],
    Tok.record PGOCtxProfileRecords.Counters [100],
    Tok.record PGOCtxProfileRecords.TotalRootEntryCount [100],
    Tok.endBlock,
    Tok.endBlock,
    Tok.endBlock]

/-- The entries of a container in which a sub-block with the id 100, which is
no block id of the profile format, follows the version record; a contexts
section with one root comes after it. -/
def unknownBlockContainer : List Tok :=
  [Tok.subBlock bitc.BLOCKINFO_BLOCK_ID true, Tok.endBlock,
    Tok.subBlock PGOCtxProfileBlockIDs.ProfileMetadataBlockID true,
    Tok.record PGOCtxProfileRecords.Version [1],
    Tok.subBlock 100 true,
    Tok.endBlock,
    Tok.subBlock PGOCtxProfileBlockIDs.ContextsSectionBlockID true,
    Tok.subBlock PGOCtxProfileBlockIDs.ContextRootBlockID true,
    Tok.record PGOCtxProfileRecords.Guid [7],
    Tok.record PGOCtxProfileRecords.TotalRootEntryCount [100],
    Tok.record PGOCtxProfileRecords.Counters [100],
    Tok.subBlock PGOCtxProfileBlockIDs.UnhandledBlockID true,
    Tok.endBlock,
    Tok.endBlock,
    Tok.endBlock,
    Tok.endBlock]

/-- The entries of a container in which a root block follows the version
record directly, outside a contexts section. -/
def misplacedRootContainer : List Tok :=
  [Tok.subBlock bitc.BLOCKINFO_BLOCK_ID true, Tok.endBlock,
    Tok.subBlock PGOCtxProfileBlockIDs.ProfileMetadataBlockID true,
    Tok.record PGOCtxProfileRecords.Version [1],
    Tok.subBlock PGOCtxProfileBlockIDs.ContextRootBlockID true,
    Tok.record PGOCtxProfileRecords.Guid [7],
    Tok.endBlock,
    Tok.endBlock]

section Traces

variable {σ : Type}

/-- `RootsSeen C P s seen P1 s1`: as `RootsReach C P s P1 s1`, where `seen`
lists the roots the iterations decoded, the latest first. -/
inductive RootsSeen (C : BitstreamCursor σ) :
    CtxProfContextualProfiles → σ → List PGOCtxProfContext →
      CtxProfContextualProfiles → σ → Prop where
  | refl (P : CtxProfContextualProfiles) (s : σ) : RootsSeen C P s [] P s
  | step {P P1 : CtxProfContextualProfiles} {s s1 s2 s3 : σ}
      {seen : List PGOCtxProfContext}
      {E : Option Nat × PGOCtxProfContext} (n : Nat) :
      RootsSeen C P s seen P1 s1 →
      canEnterBlockWithID C PGOCtxProfileBlockIDs.ContextRootBlockID s1 = (true, s2) →
      readProfile C n PGOCtxProfileBlockIDs.ContextRootBlockID s2 =
        some (Except.ok (E, s3)) →
      (mapInsert E.2.guid E.2 P1).2 = true →
      RootsSeen C P s (E.2 :: seen) (mapInsert E.2.guid E.2 P1).1 s3

/-- `FlatListSeen C P s seen P1 s1`: as `FlatListReach C P s P1 s1`, where
`seen` lists the entries the iterations decoded, the latest first. -/
inductive FlatListSeen (C : BitstreamCursor σ) :
    CtxProfFlatProfile → σ → List PGOCtxProfContext → CtxProfFlatProfile → σ →
      Prop where
  | refl (P : CtxProfFlatProfile) (s : σ) : FlatListSeen C P s [] P s
  | step {P P1 : CtxProfFlatProfile} {s s1 s2 s3 : σ}
      {seen : List PGOCtxProfContext}
      {E : Option Nat × PGOCtxProfContext} (n : Nat) :
      FlatListSeen C P s seen P1 s1 →
      canEnterBlockWithID C PGOCtxProfileBlockIDs.FlatProfileBlockID s1 = (true, s2) →
      readProfile C n PGOCtxProfileBlockIDs.FlatProfileBlockID s2 =
        some (Except.ok (E, s3)) →
      (mapInsert E.2.guid E.2.counters P1).2 = true →
      FlatListSeen C P s (E.2 :: seen) (mapInsert E.2.guid E.2.counters P1).1 s3

end Traces

/-- The entries from a contexts section on, the section holding two roots
with the guid 7. -/
def duplicateRootsSection : List Tok :=
  [Tok.subBlock PGOCtxProfileBlockIDs.ContextsSectionBlockID true,
    Tok.subBlock PGOCtxProfileBlockIDs.ContextRootBlockID true,
    Tok.record PGOCtxProfileRecords.Guid [7],
    Tok.record PGOCtxProfileRecords.TotalRootEntryCount [100],
    Tok.record PGOCtxProfileRecords.Counters [100],
    Tok.subBlock PGOCtxProfileBlockIDs.UnhandledBlockID true,
    Tok.endBlock,
    Tok.endBlock,
    Tok.subBlock PGOCtxProfileBlockIDs.ContextRootBlockID true,
    Tok.record PGOCtxProfileRecords.Guid [7],
    Tok.record PGOCtxProfileRecords.TotalRootEntryCount [2],
    Tok.record PGOCtxProfileRecords.Counters [2],
    Tok.subBlock PGOCtxProfileBlockIDs.UnhandledBlockID true,
    Tok.endBlock,
    Tok.endBlock,
    Tok.endBlock]

/-- The entries of a list of flat entries, two of which have the guid 4. -/
def duplicateFlatEntries : List Tok :=
  [Tok.subBlock PGOCtxProfileBlockIDs.FlatProfileBlockID true,
    Tok.record PGOCtxProfileRecords.Guid [4],
    Tok.record PGOCtxProfileRecords.Counters [8],
    Tok.endBlock,
    Tok.subBlock PGOCtxProfileBlockIDs.FlatProfileBlockID true,
    Tok.record PGOCtxProfileRecords.Guid [4],
    Tok.record PGOCtxProfileRecords.Counters [9],
    Tok.endBlock,
    Tok.endBlock]

/-- The record entries with the codes and values `recs`, in that order. -/
def recordToks (recs : List (Nat × List Nat)) : List Tok :=
  recs.map (fun r => Tok.record r.1 r.2)

/-- The records `GotAllWeNeed` asks for in a block of kind `Kind`, each once
and with a valid value count: the Guid record, a Counters record with at
least one value, the CallsiteIndex record for an inner node and the
TotalRootEntryCount record for a root. -/
def mandatoryRecords (Kind g c : Nat) (cs : List Nat) (i t : Nat) :
    List (Nat × List Nat) :=
  [(PGOCtxProfileRecords.Guid, [g]), (PGOCtxProfileRecords.Counters, c :: cs)] ++
    (if Kind = PGOCtxProfileBlockIDs.ContextNodeBlockID then
      [(PGOCtxProfileRecords.CallsiteIndex, [i])] else []) ++
    (if Kind = PGOCtxProfileBlockIDs.ContextRootBlockID then
      [(PGOCtxProfileRecords.TotalRootEntryCount, [t])] else [])

/-- The fields the field loop of `readProfile(Kind)` has after it read the
records `recs` from the fields `F`, when it reads them all without error:
before each, `GotAllWeNeed` is false. -/
def applyRecords (Kind : Nat) : Fields → List (Nat × List Nat) → Option Fields
  | F, [] => some F
  | F, r :: recs =>
    if GotAllWeNeed Kind F then none
    else
      match applyRecord Kind F r.1 r.2 with
      | Except.error _ => none
      | Except.ok F1 => applyRecords Kind F1 recs

/-! ## The text emitter -/

/-- Modelled from the spec: the output of the text emitter.  The emitter
writes through `yaml::Output` (`YAMLTraits.h` is not among the sources); the
document it produces is taken as the sequence of the calls it makes on the
output, each with the arguments that tell the calls apart: the key and the
`Required` flag of `preflightKey`, the index of `preflightElement` and of
`preflightFlowElement`, the value `yamlize` writes. -/
inductive YamlEvent where
  | beginMapping
  | endMapping
  | preflightKey (Key : String) (Required : Bool)
  | postflightKey
  | beginSequence
  | endSequence
  | preflightElement (Index : Nat)
  | postflightElement
  | beginFlowSequence
  | endFlowSequence
  | preflightFlowElement (Index : Nat)
  | postflightFlowElement
  | yamlize (Val : Nat)
  deriving DecidableEq, Repr

/-- `llvm::max_element` over the keys of a call-site map: the largest key.
The source asserts that the map is not empty. -/
def max_element (Callsites : PGOCtxProfContext.CallsiteMapTy) : Nat :=
  (Callsites.map Prod.fst).foldl max 0

/-- The loop `for (size_t I = 0U, E = Counters.size(); I < E; ++I)` of
`toYaml`, from the index `I` with the counters still to write. -/
def countersLoop : Nat → List Nat → List YamlEvent
  | _, [] => []
  | I, V :: rest =>
    YamlEvent.preflightFlowElement I :: YamlEvent.yamlize V ::
      YamlEvent.postflightFlowElement :: countersLoop (I + 1) rest

/-- The loop `for (const auto &[_, Ctx] : CallTargets)` of `toYaml(Out,
CallTargets)`, from the element index `Index` with the entries still to
write; `render` is the call `toYaml(Out, Ctx)`, which gives no result when it
does not return. -/
def callTargetsLoop (render : PGOCtxProfContext → Option (List YamlEvent)) :
    Nat → List (Nat × PGOCtxProfContext) → Option (List YamlEvent)
  | _, [] => some []
  | Index, (_, Ctx) :: rest =>
    match render Ctx with
    | none => none
    | some out =>
      match callTargetsLoop render (Index + 1) rest with
      | none => none
      | some out1 =>
        some (YamlEvent.preflightElement Index :: out ++
          YamlEvent.postflightElement :: out1)

/-- The loop `for (const auto &[Guid, Counters] : Flat)` of `toYaml(Out,
Flat)`, from the element index `ElemID` with the entries still to write;
`render` is the call `toYaml(Out, Guid, Counters, {})`. -/
def flatLoop (render : Nat → List Nat → Option (List YamlEvent)) :
    Nat → List (Nat × List Nat) → Option (List YamlEvent)
  | _, [] => some []
  | ElemID, (Guid, Counters) :: rest =>
    match render Guid Counters with
    | none => none
    | some out =>
      match flatLoop render (ElemID + 1) rest with
      | none => none
      | some out1 =>
        some (YamlEvent.preflightElement ElemID :: out ++
          YamlEvent.postflightElement :: out1)

/-- The loop `for (auto I = 0U; I <= *MaxIt; ++I)` of `toYaml(Out,
Callsites)`, from the counter value `I`; `MaxIt` is the value of `*MaxIt` and
`render` is the call `toYaml(Out, It->second)`.  The counter is an `unsigned`
of 32 bits, so `++I` is the successor modulo `2 ^ 32`.  The first argument is
the fuel: one unit for each test of the loop condition; `none` is the result
with too little fuel. -/
def callsitesLoop (render : PGOCtxProfContext.CallTargetMapTy → Option (List YamlEvent))
    (Callsites : PGOCtxProfContext.CallsiteMapTy) (MaxIt : Nat) :
    Nat → Nat → Option (List YamlEvent)
  | 0, _ => none
  | fuel + 1, I =>
    if I ≤ MaxIt then
      match (match mapFind I Callsites with
        | none => some [YamlEvent.beginFlowSequence, YamlEvent.endFlowSequence]
        | some Targets => render Targets) with
      | none => none
      | some out =>
        match callsitesLoop render Callsites MaxIt fuel ((I + 1) % 2 ^ 32) with
        | none => none
        | some out1 =>
          some (YamlEvent.preflightElement I :: out ++
            YamlEvent.postflightElement :: out1)
    else some []

/-- The calls `Out.preflightKey(Key, Required, false, UseDefault, SaveInfo)`
and `Out.postflightKey(nullptr)` around the calls `Val` that write the value
of the key; there is no result when writing the value does not return. -/
def writeKey (Key : String) (Required : Bool) (Val : Option (List YamlEvent)) :
    Option (List YamlEvent) :=
  match Val with
  | none => none
  | some out => some (YamlEvent.preflightKey Key Required :: out ++ [YamlEvent.postflightKey])

/-- The first part of the body of `toYaml(Out, Guid, Counters, Callsites,
TotalRootEntryCount, Unhandled)`: the key Guid, the key TotalRootEntryCount
when the count is present, and the key Counters with the counters as a flow
sequence. -/
def writeFields (Guid : Nat) (TotalRootEntryCount : Option Nat) (Counters : List Nat) :
    List YamlEvent :=
  [YamlEvent.preflightKey "Guid" true, YamlEvent.yamlize Guid, YamlEvent.postflightKey] ++
    (match TotalRootEntryCount with
      | some T =>
        [YamlEvent.preflightKey "TotalRootEntryCount" true, YamlEvent.yamlize T,
          YamlEvent.postflightKey]
      | none => []) ++
    [YamlEvent.preflightKey "Counters" true, YamlEvent.beginFlowSequence] ++
    countersLoop 0 Counters ++
    [YamlEvent.endFlowSequence, YamlEvent.postflightKey]

mutual

/-- `toYaml(yaml::Output &, const PGOCtxProfContext &)`.  The first argument
of the emitter functions is the fuel; `none` is the result with too little
fuel.  A root carries an unhandled flat profile; for a context that has none
the empty one is taken. -/
def toYamlCtx : Nat → PGOCtxProfContext → Option (List YamlEvent)
  | 0, _ => none
  | fuel + 1, Ctx =>
    if Ctx.isRoot then
      toYamlNode fuel Ctx.guid Ctx.counters Ctx.callsites Ctx.getTotalRootEntryCount
        (Ctx.getUnhandled.getD [])
    else
      toYamlNode fuel Ctx.guid Ctx.counters Ctx.callsites none []

/-- `toYaml(yaml::Output &, const PGOCtxProfContext::CallTargetMapTy &)`. -/
def toYamlCallTargets : Nat → PGOCtxProfContext.CallTargetMapTy → Option (List YamlEvent)
  | 0, _ => none
  | fuel + 1, CallTargets =>
    match callTargetsLoop (toYamlCtx fuel) 0 CallTargets with
    | none => none
    | some out => some (YamlEvent.beginSequence :: out ++ [YamlEvent.endSequence])

/-- `toYaml(yaml::Output &, const PGOCtxProfContext::CallsiteMapTy &)`.  The
assertion that the map is not empty is a precondition of the caller. -/
def toYamlCallsites : Nat → PGOCtxProfContext.CallsiteMapTy → Option (List YamlEvent)
  | 0, _ => none
  | fuel + 1, Callsites =>
    match callsitesLoop (toYamlCallTargets fuel) Callsites (max_element Callsites)
        fuel 0 with
    | none => none
    | some out => some (YamlEvent.beginSequence :: out ++ [YamlEvent.endSequence])

/-- `toYaml(yaml::Output &, GlobalValue::GUID, const SmallVectorImpl<uint64_t>
&, const CallsiteMapTy &, std::optional<uint64_t>, CtxProfFlatProfile)`: the
mapping of one context. -/
def toYamlNode : Nat → Nat → List Nat → PGOCtxProfContext.CallsiteMapTy → Option Nat →
    CtxProfFlatProfile → Option (List YamlEvent)
  | 0, _, _, _, _, _ => none
  | fuel + 1, Guid, Counters, Callsites, TotalRootEntryCount, Unhandled =>
    match (if !Unhandled.isEmpty then
        writeKey "Unhandled" false (toYamlFlat fuel Unhandled)
      else some []) with
    | none => none
    | some outU =>
      match (if !Callsites.isEmpty then
          writeKey "Callsites" true (toYamlCallsites fuel Callsites)
        else some []) with
      | none => none
      | some outC =>
        some (YamlEvent.beginMapping ::
          writeFields Guid TotalRootEntryCount Counters ++ outU ++ outC ++
          [YamlEvent.endMapping])

/-- `toYaml(yaml::Output &, const CtxProfFlatProfile &)`. -/
def toYamlFlat : Nat → CtxProfFlatProfile → Option (List YamlEvent)
  | 0, _ => none
  | fuel + 1, Flat =>
    match flatLoop (fun Guid Counters => toYamlNode fuel Guid Counters [] none []) 0
        Flat with
    | none => none
    | some out => some (YamlEvent.beginSequence :: out ++ [YamlEvent.endSequence])

end

/-- `llvm::convertCtxProfToYaml`. -/
def convertCtxProfToYaml (fuel : Nat) (Profile : PGOCtxProfile) :
    Option (List YamlEvent) :=
  match (if !Profile.Contexts.isEmpty then
      writeKey "Contexts" false (toYamlCallTargets fuel Profile.Contexts)
    else some []) with
  | none => none
  | some outC =>
    match (if !Profile.FlatProfiles.isEmpty then
        writeKey "FlatProfiles" false (toYamlFlat fuel Profile.FlatProfiles)
      else some []) with
    | none => none
    | some outF => some (YamlEvent.beginMapping :: outC ++ outF ++ [YamlEvent.endMapping])

/-- The calls that write the elements `elems` of a block sequence, the first
with the index `Index`. -/
def sequenceFrom : Nat → List (List YamlEvent) → List YamlEvent
  | _, [] => []
  | Index, e :: es =>
    YamlEvent.preflightElement Index :: e ++
      YamlEvent.postflightElement :: sequenceFrom (Index + 1) es

/-- The calls that write the block sequence with the elements `elems`. -/
def blockSequence (elems : List (List YamlEvent)) : List YamlEvent :=
  YamlEvent.beginSequence :: sequenceFrom 0 elems ++ [YamlEvent.endSequence]

/-- The calls that write an empty flow sequence, `[ ]`. -/
def emptyFlowSequence : List YamlEvent :=
  [YamlEvent.beginFlowSequence, YamlEvent.endFlowSequence]

/-- A context without call sites that is not a root. -/
def leafContext (G : Nat) (Counters : List Nat) : PGOCtxProfContext :=
  PGOCtxProfContext.mk G Counters none none []

/-- The call-site map of the spec's first example: children only at the
indices 0 and 3. -/
def sparseCallsites : PGOCtxProfContext.CallsiteMapTy :=
  [(0, [(1, leafContext 1 [10])]), (3, [(2, leafContext 2 [20])])]

/-- The call-site map of the spec's concrete scenario: one child (guid 9,
counters [5]) at the index 2. -/
def scenarioCallsites : PGOCtxProfContext.CallsiteMapTy :=
  [(2, [(9, leafContext 9 [5])])]

/-- A call-site map whose only child is at the largest index an `uint32_t`
holds, 4294967295. -/
def maxIndexCallsites : PGOCtxProfContext.CallsiteMapTy :=
  [(4294967295, [(9, leafContext 9 [5])])]

/-- The calls that write the context `leafContext G [V]` as the only element
of a sequence of call targets. -/
def leafTargetEvents (G V : Nat) : List YamlEvent :=
  [YamlEvent.beginSequence, YamlEvent.preflightElement 0, YamlEvent.beginMapping,
    YamlEvent.preflightKey "Guid" true, YamlEvent.yamlize G, YamlEvent.postflightKey,
    YamlEvent.preflightKey "Counters" true, YamlEvent.beginFlowSequence,
    YamlEvent.preflightFlowElement 0, YamlEvent.yamlize V, YamlEvent.postflightFlowElement,
    YamlEvent.endFlowSequence, YamlEvent.postflightKey, YamlEvent.endMapping,
    YamlEvent.postflightElement, YamlEvent.endSequence]

/-- The nesting depth after a call on the output made at the nesting depth
`d`: the number of mappings, sequences and flow sequences begun and not
ended. -/
def YamlEvent.depthAfter (d : Nat) : YamlEvent → Nat
  | YamlEvent.beginMapping => d + 1
  | YamlEvent.beginSequence => d + 1
  | YamlEvent.beginFlowSequence => d + 1
  | YamlEvent.endMapping => d - 1
  | YamlEvent.endSequence => d - 1
  | YamlEvent.endFlowSequence => d - 1
  | _ => d

/-- The key a call on the output adds to the outermost mapping: the key of a
call of `preflightKey` made at the nesting depth 1. -/
def YamlEvent.keyAt (d : Nat) : YamlEvent → List String
  | YamlEvent.preflightKey Key _ => if d = 1 then [Key] else []
  | _ => []

/-- The keys of the outermost mapping of a document, given as the calls that
write it, in the order of the calls; `d` is the nesting depth at the head of
the calls. -/
def mappingKeys : Nat → List YamlEvent → List String
  | _, [] => []
  | d, e :: r => e.keyAt d ++ mappingKeys (e.depthAfter d) r

/-- The calls `o` write whole values below the outermost mapping: made at a
nesting depth of `k` or more, they add no key of the outermost mapping and
leave the nesting depth as it was. -/
def QuietFrom (k : Nat) (o : List YamlEvent) : Prop :=
  ∀ d, k ≤ d → ∀ rest, mappingKeys d (o ++ rest) = mappingKeys d rest

mutual

/-- Every call-site index of the context and of the contexts below it, at
every depth, is less than `B`. -/
def PGOCtxProfContext.indicesBelow (B : Nat) : PGOCtxProfContext → Bool
  | PGOCtxProfContext.mk _ _ _ _ cs => callsitesIndicesBelow B cs

/-- `indicesBelow` for a call-site map: its indices and those below. -/
def callsitesIndicesBelow (B : Nat) : List (Nat × List (Nat × PGOCtxProfContext)) → Bool
  | [] => true
  | (i, m) :: rest =>
    decide (i < B) && targetsIndicesBelow B m && callsitesIndicesBelow B rest

/-- `indicesBelow` for every context of a map from guid to context. -/
def targetsIndicesBelow (B : Nat) : List (Nat × PGOCtxProfContext) → Bool
  | [] => true
  | (_, c) :: rest => c.indicesBelow B && targetsIndicesBelow B rest

end

/-- The root of the sample profile. -/
def sampleRoot : PGOCtxProfContext :=
  PGOCtxProfContext.mk 7 [100] (some 100) (some [(1, [3])])
    [(2, [(9, PGOCtxProfContext.mk 9 [5] none none [])])]

/-- The operations of the cursor `C` consume the stream as measured by `μ`,
the amount of the stream still ahead: no operation increases `μ`, and an
`advance` that returns a sub-block or a record decreases it. -/
structure Consuming {σ : Type} (C : BitstreamCursor σ) (μ : σ → Nat) : Prop where
  advance_le : ∀ flags s, μ (C.advance flags s).2 ≤ μ s
  advance_lt : ∀ flags s Entry s1, C.advance flags s = (Except.ok Entry, s1) →
    Entry.Kind = EntryKind.SubBlock ∨ Entry.Kind = EntryKind.Record → μ s1 < μ s
  enter_le : ∀ ID s, μ (C.EnterSubBlock ID s).2 ≤ μ s
  skip_le : ∀ s, μ (C.SkipBlock s).2 ≤ μ s
  read_le : ∀ AbbrevID s, μ (C.readRecord AbbrevID s).2 ≤ μ s

/-! ## Keys and node identity -/

mutual

/-- Every callee below the context, at every depth, is stored under its own
guid. -/
def PGOCtxProfContext.keysAgree : PGOCtxProfContext → Bool
  | PGOCtxProfContext.mk _ _ _ _ cs => callsitesKeysAgree cs

/-- `keysAgree` for a call-site map: every callee at every index is stored
under its own guid, and so is everything below it. -/
def callsitesKeysAgree : List (Nat × List (Nat × PGOCtxProfContext)) → Bool
  | [] => true
  | (_, m) :: rest => targetsKeysAgree m && callsitesKeysAgree rest

/-- `keysAgree` for a map from guid to context: the key of every entry is the
guid of its context, and so below it. -/
def targetsKeysAgree : List (Nat × PGOCtxProfContext) → Bool
  | [] => true
  | (g, c) :: rest => decide (g = c.guid) && c.keysAgree && targetsKeysAgree rest

end

/-- Every root is stored under its own guid, and every callee below a root,
at every depth, under its own guid. -/
def PGOCtxProfile.keysAgree (P : PGOCtxProfile) : Bool :=
  targetsKeysAgree P.Contexts

/-- The entries of an InnerNode block without children: the sub-block entry,
the Guid record `[G]`, the CallsiteIndex record `[V]`, the Counters record
`Counters`, and the end of the block. -/
def leafBlock (G V : Nat) (Counters : List Nat) : List Tok :=
  [Tok.subBlock PGOCtxProfileBlockIDs.ContextNodeBlockID true,
    Tok.record PGOCtxProfileRecords.Guid [G],
    Tok.record PGOCtxProfileRecords.CallsiteIndex [V],
    Tok.record PGOCtxProfileRecords.Counters Counters,
    Tok.endBlock]

/-- The body of a root block with two children of guid 9 whose CallsiteIndex
records hold 2 and `2 + 2 ^ 32 = 4294967298`. -/
def wrappedIndexBody : List Tok :=
  [Tok.record PGOCtxProfileRecords.Guid [7],
    Tok.record PGOCtxProfileRecords.Counters [100],
    Tok.record PGOCtxProfileRecords.TotalRootEntryCount [100],
    Tok.subBlock PGOCtxProfileBlockIDs.UnhandledBlockID true,
    Tok.endBlock] ++
  (leafBlock 9 2 [5] ++ leafBlock 9 4294967298 [6] ++ [Tok.endBlock])

/-! ## The canonical layout -/

/-- Modelled from the spec: the entries that lay a flat profile out, one
FlatEntry block for each entry, in key order: the sub-block entry, the Guid
record, the Counters record and the end of the block.  (The writer is not
among the sources.) -/
def layoutFlat : CtxProfFlatProfile → List Tok
  | [] => []
  | (g, c) :: rest =>
    [Tok.subBlock PGOCtxProfileBlockIDs.FlatProfileBlockID true,
      Tok.record PGOCtxProfileRecords.Guid [g],
      Tok.record PGOCtxProfileRecords.Counters c, Tok.endBlock] ++ layoutFlat rest

mutual

/-- Modelled from the spec: the entries that lay a context out, from behind
the sub-block entry of its block: the Guid record, the Counters record, the
TotalRootEntryCount record for a context that has the count (a root) and the
CallsiteIndex record with `Index` for one that has not (an inner node); then,
for a context with an unhandled profile, an Unhandled sub-block holding the
layout of that profile; then the blocks of the children; then the end of the
block.  (The writer is not among the sources.) -/
def layoutContext : Nat → PGOCtxProfContext → List Tok
  | Index, PGOCtxProfContext.mk g c t u cs =>
    [Tok.record PGOCtxProfileRecords.Guid [g],
      Tok.record PGOCtxProfileRecords.Counters c] ++
    (match t with
      | some T => [Tok.record PGOCtxProfileRecords.TotalRootEntryCount [T]]
      | none => [Tok.record PGOCtxProfileRecords.CallsiteIndex [Index]]) ++
    (match u with
      | some U =>
        Tok.subBlock PGOCtxProfileBlockIDs.UnhandledBlockID true :: layoutFlat U ++
          [Tok.endBlock]
      | none => []) ++
    layoutCallsites cs ++ [Tok.endBlock]

/-- The InnerNode blocks of the children of a call-site map, in the order of
the call-site indices. -/
def layoutCallsites : List (Nat × List (Nat × PGOCtxProfContext)) → List Tok
  | [] => []
  | (i, m) :: rest => layoutTargets i m ++ layoutCallsites rest

/-- The InnerNode blocks of the children at the call-site index `Index`, in
the order of their keys. -/
def layoutTargets : Nat → List (Nat × PGOCtxProfContext) → List Tok
  | _, [] => []
  | Index, (_, c) :: rest =>
    Tok.subBlock PGOCtxProfileBlockIDs.ContextNodeBlockID true ::
      layoutContext Index c ++ layoutTargets Index rest

end

/-- Modelled from the spec: the entries that lay the roots out, one
RootContext block for each root, in key order. -/
def layoutRoots : CtxProfContextualProfiles → List Tok
  | [] => []
  | (_, c) :: rest =>
    Tok.subBlock PGOCtxProfileBlockIDs.ContextRootBlockID true ::
      layoutContext 0 c ++ layoutRoots rest

/-- The entries of a map are in increasing order of their keys, as in a
`std::map`. -/
def keysIncreasing {V : Type} (m : MapTy V) : Bool :=
  decide ((m.map Prod.fst).Pairwise (fun a b => a < b))

mutual

/-- The context is one a profile can hold, as a root (`Root = true`) or as an
inner node (`Root = false`): it has at least one counter; it has a total root
entry count and an unhandled flat profile exactly when it is a root; the
entries of the unhandled profile are in key order and have at least one
counter each; the call-site map is in key order; and `callsitesCanonical`
holds of the call-site map. -/
def PGOCtxProfContext.canonical : Bool → PGOCtxProfContext → Bool
  | Root, PGOCtxProfContext.mk _ c t u cs =>
    !c.isEmpty && (t.isSome == Root) && (u.isSome == Root) &&
      (match u with
        | none => true
        | some U => keysIncreasing U && flatCountersNonEmpty U) &&
      keysIncreasing cs && callsitesCanonical cs

/-- Every call-site index is a 32-bit value and has at least one callee; the
callees at an index are in key order, each stored under its own guid, and
each canonical as an inner node. -/
def callsitesCanonical : List (Nat × List (Nat × PGOCtxProfContext)) → Bool
  | [] => true
  | (i, m) :: rest =>
    decide (i < 2 ^ 32) && !m.isEmpty && keysIncreasing m && targetsCanonical false m &&
      callsitesCanonical rest

/-- Every context of the map is stored under its own guid and is canonical,
as a root or as an inner node. -/
def targetsCanonical : Bool → List (Nat × PGOCtxProfContext) → Bool
  | _, [] => true
  | Root, (g, c) :: rest =>
    decide (g = c.guid) && c.canonical Root && targetsCanonical Root rest

end

/-- The call-site map `done` with the callees `dm` at the index `i` added
behind it, when there are any. -/
def snocTarget (done : PGOCtxProfContext.CallsiteMapTy) (i : Nat)
    (dm : PGOCtxProfContext.CallTargetMapTy) : PGOCtxProfContext.CallsiteMapTy :=
  if dm.isEmpty then done else done ++ [(i, dm)]

/-- A root whose call-site map has the index 3 with no callee under it. -/
def emptyCallsiteRoot : PGOCtxProfContext :=
  PGOCtxProfContext.mk 7 [100] (some 100) (some []) [(3, [])]

/-- The body of a root block with the guid 7 whose Unhandled sub-block holds
the flat entries of the guids 1 and 2, with the entries `ins` between the two;
the Counters and TotalRootEntryCount records of the root follow the sub-block. -/
def rootWithUnhandled (ins : List Tok) : List Tok :=
  [Tok.record PGOCtxProfileRecords.Guid [7],
    Tok.subBlock PGOCtxProfileBlockIDs.UnhandledBlockID true,
    Tok.subBlock PGOCtxProfileBlockIDs.FlatProfileBlockID true,
    Tok.record PGOCtxProfileRecords.Guid [1],
    Tok.record PGOCtxProfileRecords.Counters [3], Tok.endBlock] ++ ins ++
  [Tok.subBlock PGOCtxProfileBlockIDs.FlatProfileBlockID true,
    Tok.record PGOCtxProfileRecords.Guid [2],
    Tok.record PGOCtxProfileRecords.Counters [4], Tok.endBlock,
    Tok.endBlock,
    Tok.record PGOCtxProfileRecords.Counters [100],
    Tok.record PGOCtxProfileRecords.TotalRootEntryCount [100],
    Tok.endBlock]

/-- The body of a root block with the guid 7 and one child, of the guid 9,
whose CallsiteIndex record holds 4294967295. -/
def maxIndexRootBody : List Tok :=
  [Tok.record PGOCtxProfileRecords.Guid [7],
    Tok.record PGOCtxProfileRecords.Counters [100],
    Tok.record PGOCtxProfileRecords.TotalRootEntryCount [100],
    Tok.subBlock PGOCtxProfileBlockIDs.UnhandledBlockID true, Tok.endBlock] ++
  leafBlock 9 4294967295 [5] ++ [Tok.endBlock]

/-- The root the reader makes of `maxIndexRootBody`: its only child is at the
call-site index 4294967295. -/
def maxIndexRoot : PGOCtxProfContext :=
  PGOCtxProfContext.mk 7 [100] (some 100) (some []) maxIndexCallsites

section Mono
variable {σ : Type} (C : BitstreamCursor σ)

/-- One more unit of fuel keeps every result of the five mutually recursive
functions. -/
theorem fuel_step (n : Nat) :
    (∀ Kind s r, readProfile C n Kind s = some r → readProfile C (n + 1) Kind s = some r) ∧
    (∀ Kind F s r, readFields C n Kind F s = some r →
      readFields C (n + 1) Kind F s = some r) ∧
    (∀ Kind F s r, readField C n Kind F s = some r → readField C (n + 1) Kind F s = some r) ∧
    (∀ I Ret s r, readCallees C n I Ret s = some r → readCallees C (n + 1) I Ret s = some r) ∧
    (∀ P s r, loadFlatProfileList C n P s = some r →
      loadFlatProfileList C (n + 1) P s = some r) := by
  induction n with
  | zero =>
    refine ⟨?_, ?_, ?_, ?_, ?_⟩ <;> intros <;>
      simp_all [readProfile, readFields, readField, readCallees, loadFlatProfileList]
  | succ n ih =>
    obtain ⟨ih1, ih2, ih3, ih4, ih5⟩ := ih
    refine ⟨?_, ?_, ?_, ?_, ?_⟩
    · intro Kind s r h
      rw [readProfile] at h ⊢
      rcases hE : enterBlockWithID C Kind s with ⟨_ | _, s1⟩
      · rw [hE] at h; exact h
      · rw [hE] at h
        simp only at h ⊢
        cases hF : readFields C n Kind {} s1 with
        | none => rw [hF] at h; cases h
        | some x =>
          rw [ih2 _ _ _ _ hF]
          rw [hF] at h
          cases x with
          | error e => exact h
          | ok v => exact ih4 _ _ _ _ h
    · intro Kind F s r h
      rw [readFields] at h ⊢
      by_cases hG : GotAllWeNeed Kind F = true
      · rw [if_pos hG] at h ⊢; exact h
      · rw [if_neg hG] at h ⊢
        cases hF : readField C n Kind F s with
        | none => rw [hF] at h; cases h
        | some x =>
          rw [ih3 _ _ _ _ hF]
          rw [hF] at h
          cases x with
          | error e => exact h
          | ok v => exact ih2 _ _ _ _ h
    · intro Kind F s r h
      rw [readField] at h ⊢
      rcases hA : advance C s with ⟨_ | Entry, s1⟩
      · rw [hA] at h; exact h
      · rw [hA] at h
        simp only at h ⊢
        by_cases hK : Entry.Kind ≠ EntryKind.Record
        · rw [if_pos hK] at h ⊢
          by_cases hU : Kind = PGOCtxProfileBlockIDs.ContextRootBlockID ∧
              Entry.Kind = EntryKind.SubBlock ∧
              Entry.ID = PGOCtxProfileBlockIDs.UnhandledBlockID
          · rw [if_pos hU] at h ⊢
            rcases hE : enterBlockWithID C PGOCtxProfileBlockIDs.UnhandledBlockID s1
              with ⟨_ | _, s2⟩
            · rw [hE] at h; exact h
            · rw [hE] at h
              simp only at h ⊢
              cases hL : loadFlatProfileList C n [] s2 with
              | none => rw [hL] at h; cases h
              | some x =>
                rw [ih5 _ _ _ hL]
                rw [hL] at h
                exact h
          · rw [if_neg hU] at h ⊢; exact h
        · rw [if_neg hK] at h ⊢; exact h
    · intro I Ret s r h
      rw [readCallees] at h ⊢
      rcases hC : canEnterBlockWithID C PGOCtxProfileBlockIDs.ContextNodeBlockID s
        with ⟨_ | _, s1⟩
      · rw [hC] at h; exact h
      · rw [hC] at h
        simp only at h ⊢
        cases hP : readProfile C n PGOCtxProfileBlockIDs.ContextNodeBlockID s1 with
        | none => rw [hP] at h; cases h
        | some x =>
          rw [ih1 _ _ _ hP]
          rw [hP] at h
          cases x with
          | error e => exact h
          | ok v =>
            simp only at h ⊢
            cases hI : insertCallee Ret (v.1.1.getD 0) v.1.2 with
            | error e => rw [hI] at h; exact h
            | ok Ret1 => rw [hI] at h; exact ih4 _ _ _ _ h
    · intro P s r h
      rw [loadFlatProfileList] at h ⊢
      rcases hC : canEnterBlockWithID C PGOCtxProfileBlockIDs.FlatProfileBlockID s
        with ⟨_ | _, s1⟩
      · rw [hC] at h; exact h
      · rw [hC] at h
        simp only at h ⊢
        cases hP : readProfile C n PGOCtxProfileBlockIDs.FlatProfileBlockID s1 with
        | none => rw [hP] at h; cases h
        | some x =>
          rw [ih1 _ _ _ hP]
          rw [hP] at h
          cases x with
          | error e => exact h
          | ok v =>
            simp only at h ⊢
            by_cases hD : (!(mapInsert v.1.2.guid v.1.2.counters P).2) = true
            · rw [if_pos hD] at h ⊢; exact h
            · rw [if_neg hD] at h ⊢; exact ih5 _ _ _ h

theorem readProfile_mono {n m : Nat} (hnm : n ≤ m) {Kind : Nat} {s : σ}
    {r : Except Error ((Option Nat × PGOCtxProfContext) × σ)}
    (h : readProfile C n Kind s = some r) : readProfile C m Kind s = some r := by
  induction hnm with
  | refl => exact h
  | step _ ih => exact (fuel_step C _).1 _ _ _ ih

theorem readFields_mono {n m : Nat} (hnm : n ≤ m) {Kind : Nat} {F : Fields} {s : σ}
    {r : Except Error (Fields × σ)}
    (h : readFields C n Kind F s = some r) : readFields C m Kind F s = some r := by
  induction hnm with
  | refl => exact h
  | step _ ih => exact (fuel_step C _).2.1 _ _ _ _ ih

theorem readField_mono {n m : Nat} (hnm : n ≤ m) {Kind : Nat} {F : Fields} {s : σ}
    {r : Except Error (Fields × σ)}
    (h : readField C n Kind F s = some r) : readField C m Kind F s = some r := by
  induction hnm with
  | refl => exact h
  | step _ ih => exact (fuel_step C _).2.2.1 _ _ _ _ ih

theorem readCallees_mono {n m : Nat} (hnm : n ≤ m) {I : Option Nat}
    {Ret : PGOCtxProfContext} {s : σ}
    {r : Except Error ((Option Nat × PGOCtxProfContext) × σ)}
    (h : readCallees C n I Ret s = some r) : readCallees C m I Ret s = some r := by
  induction hnm with
  | refl => exact h
  | step _ ih => exact (fuel_step C _).2.2.2.1 _ _ _ _ ih

theorem loadFlatProfileList_mono {n m : Nat} (hnm : n ≤ m) {P : CtxProfFlatProfile}
    {s : σ} {r : Except Error (CtxProfFlatProfile × σ)}
    (h : loadFlatProfileList C n P s = some r) :
    loadFlatProfileList C m P s = some r := by
  induction hnm with
  | refl => exact h
  | step _ ih => exact (fuel_step C _).2.2.2.2 _ _ _ ih

theorem loadContextRoots_mono {n m : Nat} (hnm : n ≤ m) {P : CtxProfContextualProfiles}
    {s : σ} {r : Except Error (CtxProfContextualProfiles × σ)}
    (h : loadContextRoots C n P s = some r) : loadContextRoots C m P s = some r := by
  induction n generalizing m P s with
  | zero => simp [loadContextRoots] at h
  | succ n ih =>
    obtain ⟨m, rfl⟩ : ∃ k, m = k + 1 := ⟨m - 1, by omega⟩
    rw [loadContextRoots] at h ⊢
    rcases hC : canEnterBlockWithID C PGOCtxProfileBlockIDs.ContextRootBlockID s
      with ⟨_ | _, s1⟩
    · rw [hC] at h; exact h
    · rw [hC] at h
      simp only at h ⊢
      cases hP : readProfile C n PGOCtxProfileBlockIDs.ContextRootBlockID s1 with
      | none => rw [hP] at h; cases h
      | some x =>
        rw [readProfile_mono C (by omega : n ≤ m) hP]
        rw [hP] at h
        cases x with
        | error e => exact h
        | ok v =>
          simp only at h ⊢
          by_cases hD : (!(mapInsert v.1.2.guid v.1.2 P).2) = true
          · rw [if_pos hD] at h ⊢; exact h
          · rw [if_neg hD] at h ⊢; exact ih (by omega) h

theorem loadContexts_mono {n m : Nat} (hnm : n ≤ m) {P : CtxProfContextualProfiles}
    {s : σ} {r : Except Error (CtxProfContextualProfiles × σ)}
    (h : loadContexts C n P s = some r) : loadContexts C m P s = some r := by
  unfold loadContexts at h ⊢
  rcases hE : enterBlockWithID C PGOCtxProfileBlockIDs.ContextsSectionBlockID s
    with ⟨_ | _, s1⟩
  · rw [hE] at h; exact h
  · rw [hE] at h; exact loadContextRoots_mono C hnm h

theorem loadFlatProfiles_mono {n m : Nat} (hnm : n ≤ m) {P : CtxProfFlatProfile}
    {s : σ} {r : Except Error (CtxProfFlatProfile × σ)}
    (h : loadFlatProfiles C n P s = some r) : loadFlatProfiles C m P s = some r := by
  unfold loadFlatProfiles at h ⊢
  rcases hE : enterBlockWithID C PGOCtxProfileBlockIDs.FlatProfilesSectionBlockID s
    with ⟨_ | _, s1⟩
  · rw [hE] at h; exact h
  · rw [hE] at h; exact loadFlatProfileList_mono C hnm h

theorem loadSections_mono {n m : Nat} (hnm : n ≤ m) {k : Nat} {Ret : PGOCtxProfile}
    {s : σ} {r : Except Error (PGOCtxProfile × σ)}
    (h : loadSections C n k Ret s = some r) : loadSections C m k Ret s = some r := by
  induction k generalizing Ret s with
  | zero => exact h
  | succ k ih =>
    rw [loadSections] at h ⊢
    rcases hT : tryGetNextKnownBlockID C s with ⟨_ | Test, s1⟩
    · rw [hT] at h; exact h
    · rw [hT] at h
      simp only at h ⊢
      by_cases h1 : Test = PGOCtxProfileBlockIDs.ContextsSectionBlockID
      · rw [if_pos h1] at h ⊢
        cases hL : loadContexts C n Ret.Contexts s1 with
        | none => rw [hL] at h; cases h
        | some x =>
          rw [loadContexts_mono C hnm hL]
          rw [hL] at h
          cases x with
          | error e => exact h
          | ok v => exact ih h
      · rw [if_neg h1] at h ⊢
        by_cases h2 : Test = PGOCtxProfileBlockIDs.FlatProfilesSectionBlockID
        · rw [if_pos h2] at h ⊢
          cases hL : loadFlatProfiles C n Ret.FlatProfiles s1 with
          | none => rw [hL] at h; cases h
          | some x =>
            rw [loadFlatProfiles_mono C hnm hL]
            rw [hL] at h
            cases x with
            | error e => exact h
            | ok v => exact ih h
        · rw [if_neg h2] at h ⊢; exact h

theorem loadProfiles_mono {n m : Nat} (hnm : n ≤ m) {W : PGOCtxProfileWriter}
    {Magic : List Nat} {s : σ} {r : Except Error (PGOCtxProfile × σ)}
    (h : loadProfiles C W Magic n s = some r) : loadProfiles C W Magic m s = some r := by
  unfold loadProfiles at h ⊢
  rcases hM : readMetadata C W Magic s with ⟨_ | _, s1⟩
  · rw [hM] at h; exact h
  · rw [hM] at h; exact loadSections_mono C hnm h
end Mono

/-! ## Positions in a call of `readProfile` -/

section PositionLemmas

variable {σ : Type} (C : BitstreamCursor σ)

theorem returns_unique {α : Type} {f : Nat → Option α} {r r' : α}
    (h : Returns f r) (h' : Returns f r') : r = r' := by
  obtain ⟨n, hn⟩ := h
  obtain ⟨n', hn'⟩ := h'
  have h1 := hn (max n n') (Nat.le_max_left _ _)
  have h2 := hn' (max n n') (Nat.le_max_right _ _)
  rw [h1] at h2
  exact Option.some.inj h2

theorem readProfile_returns {n Kind : Nat} {s : σ}
    {r : Except Error ((Option Nat × PGOCtxProfContext) × σ)}
    (h : readProfile C n Kind s = some r) :
    Returns (fun m => readProfile C m Kind s) r :=
  ⟨n, fun _ hm => readProfile_mono C hm h⟩

theorem readFields_returns {n Kind : Nat} {F : Fields} {s : σ}
    {r : Except Error (Fields × σ)} (h : readFields C n Kind F s = some r) :
    Returns (fun m => readFields C m Kind F s) r :=
  ⟨n, fun _ hm => readFields_mono C hm h⟩

theorem readCallees_returns {n : Nat} {I : Option Nat} {Ret : PGOCtxProfContext} {s : σ}
    {r : Except Error ((Option Nat × PGOCtxProfContext) × σ)}
    (h : readCallees C n I Ret s = some r) :
    Returns (fun m => readCallees C m I Ret s) r :=
  ⟨n, fun _ hm => readCallees_mono C hm h⟩

/-- An iteration of the field loop that succeeds costs one unit of fuel. -/
theorem readFields_step {Kind n : Nat} {F F1 : Fields} {s s1 : σ}
    (hG : GotAllWeNeed Kind F = false)
    (hstep : readField C n Kind F s = some (Except.ok (F1, s1))) (m : Nat) (hm : n ≤ m) :
    readFields C (m + 1) Kind F s = readFields C m Kind F1 s1 := by
  rw [readFields, hG, readField_mono C hm hstep]
  simp

/-- An iteration of the field loop that fails ends the loop with its error. -/
theorem readFields_fail {Kind n : Nat} {F : Fields} {s : σ} {e : Error}
    (hG : GotAllWeNeed Kind F = false)
    (hstep : readField C n Kind F s = some (Except.error e)) :
    Returns (fun m => readFields C m Kind F s) (Except.error e) := by
  refine ⟨n + 1, fun m hm => ?_⟩
  dsimp only
  obtain ⟨k, rfl⟩ : ∃ k, m = k + 1 := ⟨m - 1, by omega⟩
  rw [readFields, hG, readField_mono C (by omega : n ≤ k) hstep]
  simp

/-- The field loop returns the fields it has when nothing is missing. -/
theorem readFields_done {Kind : Nat} {F : Fields} {s : σ}
    (hG : GotAllWeNeed Kind F = true) :
    Returns (fun m => readFields C m Kind F s) (Except.ok (F, s)) := by
  refine ⟨1, fun m hm => ?_⟩
  dsimp only
  obtain ⟨k, rfl⟩ : ∃ k, m = k + 1 := ⟨m - 1, by omega⟩
  rw [readFields, hG]
  simp

/-- From a position the field loop reaches, the loop returns what it returns
from the start. -/
theorem fieldsReach_returns_iff {Kind : Nat} {F F1 : Fields} {s s1 : σ}
    {recs : List (Nat × List Nat)} (h : FieldsReach C Kind F s recs F1 s1)
    (r : Except Error (Fields × σ)) :
    Returns (fun m => readFields C m Kind F s) r ↔
      Returns (fun m => readFields C m Kind F1 s1) r := by
  induction h with
  | refl => exact Iff.rfl
  | step n _ hG hstep ih =>
    refine ih.trans ⟨?_, ?_⟩
    · rintro ⟨N, hN⟩
      dsimp only at hN
      refine ⟨max N n, fun m hm => ?_⟩
      dsimp only
      have h1 := hN (m + 1) (by omega)
      rw [readFields_step C hG hstep m (by omega)] at h1
      exact h1
    · rintro ⟨N, hN⟩
      dsimp only at hN
      refine ⟨max N n + 1, fun m hm => ?_⟩
      dsimp only
      obtain ⟨k, rfl⟩ : ∃ k, m = k + 1 := ⟨m - 1, by omega⟩
      rw [readFields_step C hG hstep k (by omega)]
      exact hN k (by omega)

/-- What `readProfile` returns when the block is entered and the field loop
fails. -/
theorem readProfile_of_fields_error {Kind : Nat} {s0 s1 : σ} {e : Error}
    (hE : enterBlockWithID C Kind s0 = (Except.ok (), s1))
    (hF : Returns (fun m => readFields C m Kind {} s1) (Except.error e)) :
    Returns (fun m => readProfile C m Kind s0) (Except.error e) := by
  obtain ⟨N, hN⟩ := hF
  dsimp only at hN
  refine ⟨N + 1, fun m hm => ?_⟩
  dsimp only
  obtain ⟨k, rfl⟩ : ∃ k, m = k + 1 := ⟨m - 1, by omega⟩
  rw [readProfile, hE]
  simp only
  rw [hN k (by omega)]

/-- What `readProfile` returns when the block is entered and the field loop
returns the fields `F`: what the callee loop returns. -/
theorem readProfile_of_fields_ok {Kind : Nat} {s0 s1 s2 : σ} {F : Fields}
    (hE : enterBlockWithID C Kind s0 = (Except.ok (), s1))
    (hF : Returns (fun m => readFields C m Kind {} s1) (Except.ok (F, s2)))
    (r : Except Error ((Option Nat × PGOCtxProfContext) × σ)) :
    Returns (fun m => readProfile C m Kind s0) r ↔
      Returns (fun m => readCallees C m F.CallsiteIndex
        (PGOCtxProfContext.create (F.Guid.getD 0) (F.Counters.getD [])
          F.TotalEntryCount F.Unhandled) s2) r := by
  obtain ⟨N, hN⟩ := hF
  dsimp only at hN
  constructor
  · rintro ⟨M, hM⟩
    dsimp only at hM
    refine ⟨max N M, fun m hm => ?_⟩
    dsimp only
    have h1 := hM (m + 1) (by omega)
    rw [readProfile, hE] at h1
    simp only at h1
    rw [hN m (by omega)] at h1
    exact h1
  · rintro ⟨M, hM⟩
    dsimp only at hM
    refine ⟨max N M + 1, fun m hm => ?_⟩
    dsimp only
    obtain ⟨k, rfl⟩ : ∃ k, m = k + 1 := ⟨m - 1, by omega⟩
    rw [readProfile, hE]
    simp only
    rw [hN k (by omega)]
    exact hM k (by omega)

/-- A failing iteration of the field loop makes the call of `readProfile`
fail with the error of the iteration. -/
theorem inFields_fail {Kind n : Nat} {s0 s : σ} {recs : List (Nat × List Nat)}
    {F : Fields} {e : Error} (h : InFields C Kind s0 recs F s)
    (hG : GotAllWeNeed Kind F = false)
    (hstep : readField C n Kind F s = some (Except.error e)) :
    Returns (fun m => readProfile C m Kind s0) (Except.error e) := by
  obtain ⟨s1, hE, hR⟩ := h
  exact readProfile_of_fields_error C hE
    ((fieldsReach_returns_iff C hR _).mpr (readFields_fail C hG hstep))

/-- An iteration of the callee loop that succeeds costs one unit of fuel. -/
theorem readCallees_step {n : Nat} {I : Option Nat} {Ret Ret1 : PGOCtxProfContext}
    {s s1 s2 : σ} {SC : Option Nat × PGOCtxProfContext}
    (hC : canEnterBlockWithID C PGOCtxProfileBlockIDs.ContextNodeBlockID s = (true, s1))
    (hP : readProfile C n PGOCtxProfileBlockIDs.ContextNodeBlockID s1 =
      some (Except.ok (SC, s2)))
    (hI : insertCallee Ret (SC.1.getD 0) SC.2 = Except.ok Ret1) (m : Nat) (hm : n ≤ m) :
    readCallees C (m + 1) I Ret s = readCallees C m I Ret1 s2 := by
  rw [readCallees, hC]
  simp only
  rw [readProfile_mono C hm hP]
  simp only
  rw [hI]

/-- From a position the callee loop reaches, the loop returns what it returns
from the start. -/
theorem calleesReach_returns_iff {I : Option Nat} {Ret Ret1 : PGOCtxProfContext}
    {s s1 : σ} {seen : List (Nat × PGOCtxProfContext)}
    (h : CalleesReach C Ret s seen Ret1 s1)
    (r : Except Error ((Option Nat × PGOCtxProfContext) × σ)) :
    Returns (fun m => readCallees C m I Ret s) r ↔
      Returns (fun m => readCallees C m I Ret1 s1) r := by
  induction h with
  | refl => exact Iff.rfl
  | step n _ hC hP hI ih =>
    refine ih.trans ⟨?_, ?_⟩
    · rintro ⟨N, hN⟩
      dsimp only at hN
      refine ⟨max N n, fun m hm => ?_⟩
      dsimp only
      have h1 := hN (m + 1) (by omega)
      rw [readCallees_step C hC hP hI m (by omega)] at h1
      exact h1
    · rintro ⟨N, hN⟩
      dsimp only at hN
      refine ⟨max N n + 1, fun m hm => ?_⟩
      dsimp only
      obtain ⟨k, rfl⟩ : ∃ k, m = k + 1 := ⟨m - 1, by omega⟩
      rw [readCallees_step C hC hP hI k (by omega)]
      exact hN k (by omega)

/-- At a position in the callee loop, the call of `readProfile` returns what
the rest of the loop returns, for the index the field loop has read. -/
theorem inCallees_returns_iff {Kind : Nat} {s0 s : σ}
    {seen : List (Nat × PGOCtxProfContext)} {Ret : PGOCtxProfContext}
    (h : InCallees C Kind s0 seen Ret s) :
    ∃ I : Option Nat, ∀ r, Returns (fun m => readProfile C m Kind s0) r ↔
      Returns (fun m => readCallees C m I Ret s) r := by
  obtain ⟨recs, F, s1, ⟨s', hE, hR⟩, hG, hCR⟩ := h
  refine ⟨F.CallsiteIndex, fun r => ?_⟩
  have hF : Returns (fun m => readFields C m Kind {} s') (Except.ok (F, s1)) :=
    (fieldsReach_returns_iff C hR _).mpr (readFields_done C hG)
  exact (readProfile_of_fields_ok C hE hF r).trans (calleesReach_returns_iff C hCR r)

end PositionLemmas

open PGOCtxProfileBlockIDs PGOCtxProfileRecords

/-! ## C1: a root context and its Unhandled sub-block -/

/-- C1 (counterexample).  The root block of the claim, with the records
Guid 7, Counters [100] and TotalRootEntryCount 100 and then the end of the
block, is not decoded: without an Unhandled sub-block `GotAllWeNeed` stays
false, the end of the block is met with a field missing and `readProfile`
fails with `invalid_prof`; no amount of fuel gives a node.  The container of
the spec's scenario, which holds this root, is rejected by `loadProfiles`
with the same error. -/
theorem readProfile_root_without_unhandled_fails :
    readProfile tokCursor 6 ContextRootBlockID
        (TokState.inBlock ContextRootBlockID
          [Tok.record Guid [7], Tok.record Counters [100],
            Tok.record TotalRootEntryCount [100], Tok.endBlock]) =
      some (Except.error
        (wrongValue "Expected records before encountering more subcontexts")) ∧
    (¬ ∃ fuel r, readProfile tokCursor fuel ContextRootBlockID
        (TokState.inBlock ContextRootBlockID
          [Tok.record Guid [7], Tok.record Counters [100],
            Tok.record TotalRootEntryCount [100], Tok.endBlock]) = some (Except.ok r)) ∧
    loadProfiles tokCursor sampleWriter [67, 84, 88, 80] 7
        (TokState.start scenarioContainer) =
      some (Except.error
        (wrongValue "Expected records before encountering more subcontexts")) := by
  have h6 : readProfile tokCursor 6 ContextRootBlockID
        (TokState.inBlock ContextRootBlockID
          [Tok.record Guid [7], Tok.record Counters [100],
            Tok.record TotalRootEntryCount [100], Tok.endBlock]) =
      some (Except.error
        (wrongValue "Expected records before encountering more subcontexts")) := by rfl
  refine ⟨h6, ?_, rfl⟩
  rintro ⟨fuel, r, h⟩
  have h1 := readProfile_mono tokCursor (Nat.le_max_left fuel 6) h
  have h2 := readProfile_mono tokCursor (Nat.le_max_right fuel 6) h6
  rw [h1] at h2
  cases h2

/-- C1 (amended).  The Unhandled sub-block is required for a root context.
A root block whose body is the three records Guid (one value), Counters (at
least one value) and TotalRootEntryCount (one value) in any order, followed by
the end of the block, is rejected with `invalid_prof`.  When the body holds in
addition, at any place among the records, an Unhandled sub-block without
entries, `readProfile` succeeds and returns no index and the node with that
guid, those counters, that total root entry count, an empty unhandled profile
and an empty call-site map, the cursor being left after the end of the block. -/
theorem readProfile_root_unhandled_required (g c t : Nat) (cs : List Nat) (rest : List Tok)
    (records body : List (List Tok))
    (hrecords : records.Perm [[Tok.record Guid [g]], [Tok.record Counters (c :: cs)],
      [Tok.record TotalRootEntryCount [t]]])
    (hbody : body.Perm [[Tok.record Guid [g]], [Tok.record Counters (c :: cs)],
      [Tok.record TotalRootEntryCount [t]], [Tok.subBlock UnhandledBlockID true, Tok.endBlock]])
    (fuel : Nat) (hfuel : 8 ≤ fuel) :
    readProfile tokCursor fuel ContextRootBlockID
        (TokState.inBlock ContextRootBlockID (records.flatten ++ Tok.endBlock :: rest)) =
      some (Except.error
        (wrongValue "Expected records before encountering more subcontexts")) ∧
    readProfile tokCursor fuel ContextRootBlockID
        (TokState.inBlock ContextRootBlockID (body.flatten ++ Tok.endBlock :: rest)) =
      some (Except.ok ((none, PGOCtxProfContext.mk g (c :: cs) (some t) (some []) []),
        TokState.start rest)) := by
  constructor
  · have h := List.mem_permutations'.mpr hrecords
    simp [List.permutations', List.permutations'Aux] at h
    rcases h with rfl | rfl | rfl | rfl | rfl | rfl <;>
      exact readProfile_mono tokCursor hfuel (n := 8) rfl
  · have h := List.mem_permutations'.mpr hbody
    simp [List.permutations', List.permutations'Aux] at h
    rcases h with rfl | rfl | rfl | rfl | rfl | rfl | rfl | rfl | rfl | rfl | rfl | rfl |
      rfl | rfl | rfl | rfl | rfl | rfl | rfl | rfl | rfl | rfl | rfl | rfl <;>
      exact readProfile_mono tokCursor hfuel (n := 8) rfl

/-- C1 (witness): the records in the order Counters, Guid, TotalRootEntryCount
and, for the second part, the Unhandled sub-block after the Guid record. -/
theorem readProfile_root_unhandled_required_witness :
    readProfile tokCursor 8 ContextRootBlockID
        (TokState.inBlock ContextRootBlockID
          [Tok.record Counters [100], Tok.record Guid [7],
            Tok.record TotalRootEntryCount [100], Tok.endBlock]) =
      some (Except.error
        (wrongValue "Expected records before encountering more subcontexts")) ∧
    readProfile tokCursor 8 ContextRootBlockID
        (TokState.inBlock ContextRootBlockID
          [Tok.record Guid [7], Tok.subBlock UnhandledBlockID true, Tok.endBlock,
            Tok.record Counters [100], Tok.record TotalRootEntryCount [100], Tok.endBlock]) =
      some (Except.ok ((none, PGOCtxProfContext.mk 7 [100] (some 100) (some []) []),
        TokState.start [])) :=
  readProfile_root_unhandled_required 7 100 100 [] []
    [[Tok.record Counters [100]], [Tok.record Guid [7]], [Tok.record TotalRootEntryCount [100]]]
    [[Tok.record Guid [7]], [Tok.subBlock UnhandledBlockID true, Tok.endBlock],
      [Tok.record Counters [100]], [Tok.record TotalRootEntryCount [100]]]
    (by decide) (by decide) 8 (by decide)

/-! ## C2: unknown record kinds -/

/-- Two calls of `readProfile` whose field loops return the same return the
same. -/
theorem readProfile_congr_fields {σ : Type} (C : BitstreamCursor σ) {Kind : Nat}
    {sA sB sA1 sB1 : σ}
    (hA : enterBlockWithID C Kind sA = (Except.ok (), sA1))
    (hB : enterBlockWithID C Kind sB = (Except.ok (), sB1))
    (h : ∀ x, Returns (fun m => readFields C m Kind {} sA1) x →
      Returns (fun m => readFields C m Kind {} sB1) x)
    (r : Except Error ((Option Nat × PGOCtxProfContext) × σ))
    (hr : Returns (fun m => readProfile C m Kind sA) r) :
    Returns (fun m => readProfile C m Kind sB) r := by
  obtain ⟨M, hM⟩ := hr
  have h1 := hM (M + 1) (by omega)
  dsimp only at h1
  rw [readProfile, hA] at h1
  simp only at h1
  cases hF : readFields C M Kind {} sA1 with
  | none => rw [hF] at h1; cases h1
  | some x =>
    have hx := h x (readFields_returns C hF)
    rw [hF] at h1
    cases x with
    | error e =>
      simp only at h1
      cases h1
      exact readProfile_of_fields_error C hB hx
    | ok v =>
      obtain ⟨F, s2⟩ := v
      simp only at h1
      exact (readProfile_of_fields_ok C hB hx r).mpr
        ((readProfile_of_fields_ok C hA (readFields_returns C hF) r).mp ⟨M, hM⟩)

/-- Entering the block `readProfile` is called for succeeds on the cursor over
entries. -/
theorem tok_enter (Kind : Nat) (toks : List Tok) :
    enterBlockWithID tokCursor Kind (TokState.inBlock Kind toks) =
      (Except.ok (), TokState.start toks) := by
  simp [enterBlockWithID, tokCursor, TokState.inBlock, TokState.start]

/-- The field loop passes over a record of a kind it does not know. -/
theorem readField_unknown_record (Kind : Nat) (F : Fields) (Code : Nat) (Vals : List Nat)
    (post : List Tok)
    (hCode : Code ≠ Guid ∧ Code ≠ Counters ∧ Code ≠ CallsiteIndex ∧
      Code ≠ TotalRootEntryCount) :
    readField tokCursor 1 Kind F (TokState.start (Tok.record Code Vals :: post)) =
      some (Except.ok (F, TokState.start post)) := by
  obtain ⟨h1, h2, h3, h4⟩ := hCode
  simp [readField, advance, tokCursor, TokState.start, applyRecord, h1, h2, h3, h4]

/-- C2.  Unknown record kinds are ignored.  Let `pre` be entries of the body of
a context block that the field loop of `readProfile(Kind)` consumes, whatever
follows them, arriving at the fields `F` with a mandatory field still missing.
Inserting after `pre` a record whose code is none of Guid, Counters,
CallsiteIndex and TotalRootEntryCount, with any values, does not change what
`readProfile` returns: the decode of the stream with the record returns `r`
(the error, or the index, the node and the cursor state) exactly when the
decode of the stream without it returns `r`. -/
theorem readProfile_unknown_record_ignored (Kind : Nat) (pre post : List Tok) (F : Fields)
    (Code : Nat) (Vals : List Nat)
    (hpre : ∀ X, ∃ recs, FieldsReach tokCursor Kind {} (TokState.start (pre ++ X)) recs F
      (TokState.start X))
    (hmissing : GotAllWeNeed Kind F = false)
    (hCode : Code ≠ Guid ∧ Code ≠ Counters ∧ Code ≠ CallsiteIndex ∧
      Code ≠ TotalRootEntryCount)
    (r : Except Error ((Option Nat × PGOCtxProfContext) × TokState)) :
    Returns (fun fuel => readProfile tokCursor fuel Kind
        (TokState.inBlock Kind (pre ++ Tok.record Code Vals :: post))) r ↔
      Returns (fun fuel => readProfile tokCursor fuel Kind
        (TokState.inBlock Kind (pre ++ post))) r := by
  obtain ⟨recs1, h1⟩ := hpre (Tok.record Code Vals :: post)
  obtain ⟨recs2, h2⟩ := hpre post
  have hskip := FieldsReach.step 1 (@FieldsReach.refl _ tokCursor Kind F
    (TokState.start (Tok.record Code Vals :: post))) hmissing
    (readField_unknown_record Kind F Code Vals post hCode)
  have key : ∀ x, Returns (fun m => readFields tokCursor m Kind {}
        (TokState.start (pre ++ Tok.record Code Vals :: post))) x ↔
      Returns (fun m => readFields tokCursor m Kind {} (TokState.start (pre ++ post))) x :=
    fun x => ((fieldsReach_returns_iff tokCursor h1 x).trans
      (fieldsReach_returns_iff tokCursor hskip x)).trans
      (fieldsReach_returns_iff tokCursor h2 x).symm
  exact ⟨readProfile_congr_fields tokCursor (tok_enter _ _) (tok_enter _ _)
      (fun x => (key x).mp) r,
    readProfile_congr_fields tokCursor (tok_enter _ _) (tok_enter _ _)
      (fun x => (key x).mpr) r⟩


/-- A prefix for the witness of C2: a Guid record and an Unhandled sub-block
with one flat entry, whatever follows them. -/
theorem fieldsReach_sample (X : List Tok) :
    ∃ recs, FieldsReach tokCursor ContextRootBlockID {}
      (TokState.start ([Tok.record Guid [7], Tok.subBlock UnhandledBlockID true,
        Tok.subBlock FlatProfileBlockID true, Tok.record Counters [3], Tok.record Guid [1],
        Tok.endBlock, Tok.endBlock] ++ X)) recs
      { Guid := some 7, Unhandled := some [(1, [3])] } (TokState.start X) := by
  have h1 : readField tokCursor 1 ContextRootBlockID {}
      (TokState.start ([Tok.record Guid [7], Tok.subBlock UnhandledBlockID true,
        Tok.subBlock FlatProfileBlockID true, Tok.record Counters [3], Tok.record Guid [1],
        Tok.endBlock, Tok.endBlock] ++ X)) =
      some (Except.ok ({ Guid := some 7 },
        TokState.start ([Tok.subBlock UnhandledBlockID true,
          Tok.subBlock FlatProfileBlockID true, Tok.record Counters [3], Tok.record Guid [1],
          Tok.endBlock, Tok.endBlock] ++ X))) := rfl
  have h2 : readField tokCursor 6 ContextRootBlockID { Guid := some 7 }
      (TokState.start ([Tok.subBlock UnhandledBlockID true,
          Tok.subBlock FlatProfileBlockID true, Tok.record Counters [3], Tok.record Guid [1],
          Tok.endBlock, Tok.endBlock] ++ X)) =
      some (Except.ok ({ Guid := some 7, Unhandled := some [(1, [3])] },
        TokState.start X)) := rfl
  exact ⟨_, FieldsReach.step 6 (FieldsReach.step 1 (FieldsReach.refl _ _) rfl h1) rfl h2⟩

/-- C2 (witness): a root whose body has the unknown record 77 after the Guid
record and the Unhandled sub-block; it decodes to the node the stream without
the record decodes to. -/
theorem readProfile_unknown_record_ignored_witness :
    Returns (fun fuel => readProfile tokCursor fuel ContextRootBlockID
        (TokState.inBlock ContextRootBlockID
          ([Tok.record Guid [7], Tok.subBlock UnhandledBlockID true,
            Tok.subBlock FlatProfileBlockID true, Tok.record Counters [3],
            Tok.record Guid [1], Tok.endBlock, Tok.endBlock] ++
            Tok.record 77 [1, 2] ::
              [Tok.record Counters [100], Tok.record TotalRootEntryCount [100],
                Tok.subBlock ContextNodeBlockID true, Tok.record Guid [9],
                Tok.record CallsiteIndex [2], Tok.record Counters [5], Tok.endBlock,
                Tok.endBlock])))
      (Except.ok ((none, PGOCtxProfContext.mk 7 [100] (some 100) (some [(1, [3])])
        [(2, [(9, PGOCtxProfContext.mk 9 [5] none none [])])]), TokState.start [])) :=
  (readProfile_unknown_record_ignored ContextRootBlockID _ _
    { Guid := some 7, Unhandled := some [(1, [3])] } 77 [1, 2] fieldsReach_sample rfl
    (by decide) _).mpr
    (readProfile_returns tokCursor (n := 12) rfl)

/-- C2 (counterexample).  A record of the unknown kind 99 inside the Unhandled
sub-block of a root, between its two flat entries, while the Counters and
TotalRootEntryCount records of the root are still to come.  Without the
record the root decodes; with it the decode fails: the record ends the list of
flat entries (`tryGetNextKnownBlockID` returns false on an entry that is no
sub-block), and the field loop of the root then meets the second flat entry. -/
theorem readProfile_unknown_record_in_unhandled :
    (99 ≠ Guid ∧ 99 ≠ Counters ∧ 99 ≠ CallsiteIndex ∧ 99 ≠ TotalRootEntryCount) ∧
    Returns (fun fuel => readProfile tokCursor fuel ContextRootBlockID
        (TokState.inBlock ContextRootBlockID (rootWithUnhandled [])))
      (Except.ok ((none, PGOCtxProfContext.mk 7 [100] (some 100)
        (some [(1, [3]), (2, [4])]) []), TokState.start [])) ∧
    Returns (fun fuel => readProfile tokCursor fuel ContextRootBlockID
        (TokState.inBlock ContextRootBlockID (rootWithUnhandled [Tok.record 99 [0]])))
      (Except.error
        (wrongValue "Expected records before encountering more subcontexts")) :=
  ⟨by decide, readProfile_returns tokCursor (n := 12) rfl,
    readProfile_returns tokCursor (n := 12) rfl⟩

/-! ## C3: counters are never empty -/

theorem mem_mapPut {V : Type} (k : Nat) (v : V) (m : MapTy V) (e : Nat × V)
    (h : e ∈ mapPut k v m) : e = (k, v) ∨ e ∈ m := by
  induction m with
  | nil => simpa [mapPut] using h
  | cons a m ih =>
    obtain ⟨k', v'⟩ := a
    rw [mapPut] at h
    by_cases h1 : k < k'
    · simp only [h1, if_true] at h
      simpa using h
    · by_cases h2 : k = k'
      · subst h2
        simp only [Nat.lt_irrefl, if_true, if_false] at h
        rcases List.mem_cons.mp h with h | h
        · exact Or.inl h
        · exact Or.inr (List.mem_cons_of_mem _ h)
      · simp only [h1, h2, if_false] at h
        rcases List.mem_cons.mp h with h | h
        · exact Or.inr (by simp [h])
        · rcases ih h with h | h
          · exact Or.inl h
          · exact Or.inr (List.mem_cons_of_mem _ h)

theorem mem_mapInsert {V : Type} (k : Nat) (v : V) (m : MapTy V) (e : Nat × V)
    (h : e ∈ (mapInsert k v m).1) : e = (k, v) ∨ e ∈ m := by
  unfold mapInsert at h
  cases hf : mapFind k m with
  | none => rw [hf] at h; exact mem_mapPut k v m e h
  | some x => rw [hf] at h; exact Or.inr h

theorem mem_of_mapFind {V : Type} (k : Nat) (v : V) (m : MapTy V)
    (h : mapFind k m = some v) : (k, v) ∈ m := by
  induction m with
  | nil => simp [mapFind] at h
  | cons a m ih =>
    obtain ⟨k', v'⟩ := a
    rw [mapFind] at h
    by_cases h1 : k = k'
    · simp only [h1, if_true] at h
      cases h
      simp [h1]
    · simp only [h1, if_false] at h
      exact List.mem_cons_of_mem _ (ih h)

theorem targetsCountersNonEmpty_iff (m : List (Nat × PGOCtxProfContext)) :
    targetsCountersNonEmpty m = true ↔ ∀ e ∈ m, e.2.countersNonEmpty = true := by
  induction m with
  | nil => simp [targetsCountersNonEmpty]
  | cons a m ih =>
    obtain ⟨k, c⟩ := a
    simp [targetsCountersNonEmpty, ih]

theorem callsitesCountersNonEmpty_iff (cs : List (Nat × List (Nat × PGOCtxProfContext))) :
    callsitesCountersNonEmpty cs = true ↔ ∀ e ∈ cs, targetsCountersNonEmpty e.2 = true := by
  induction cs with
  | nil => simp [callsitesCountersNonEmpty]
  | cons a m ih =>
    obtain ⟨k, c⟩ := a
    simp [callsitesCountersNonEmpty, ih]

theorem flatCountersNonEmpty_iff (P : CtxProfFlatProfile) :
    flatCountersNonEmpty P = true ↔ ∀ e ∈ P, e.2.isEmpty = false := by
  simp [flatCountersNonEmpty]

theorem countersNonEmpty_counters (Ctx : PGOCtxProfContext)
    (h : Ctx.countersNonEmpty = true) : Ctx.counters.isEmpty = false := by
  obtain ⟨g, c, t, u, cs⟩ := Ctx
  simp [PGOCtxProfContext.countersNonEmpty] at h
  simpa [PGOCtxProfContext.counters] using h.1.1

theorem flatCountersNonEmpty_mapInsert (g : Nat) (c : List Nat) (P : CtxProfFlatProfile)
    (hc : c.isEmpty = false) (hP : flatCountersNonEmpty P = true) :
    flatCountersNonEmpty (mapInsert g c P).1 = true := by
  rw [flatCountersNonEmpty_iff] at hP ⊢
  intro e he
  rcases mem_mapInsert g c P e he with h | h
  · rw [h]; exact hc
  · exact hP e h

theorem targetsCountersNonEmpty_mapInsert (g : Nat) (c : PGOCtxProfContext)
    (m : List (Nat × PGOCtxProfContext))
    (hc : c.countersNonEmpty = true) (hm : targetsCountersNonEmpty m = true) :
    targetsCountersNonEmpty (mapInsert g c m).1 = true := by
  rw [targetsCountersNonEmpty_iff] at hm ⊢
  intro e he
  rcases mem_mapInsert g c m e he with h | h
  · rw [h]; exact hc
  · exact hm e h

theorem insertCallee_countersNonEmpty (Ret Ret1 SC : PGOCtxProfContext) (Index : Nat)
    (h : insertCallee Ret Index SC = Except.ok Ret1)
    (hRet : Ret.countersNonEmpty = true) (hSC : SC.countersNonEmpty = true) :
    Ret1.countersNonEmpty = true := by
  obtain ⟨g, c, t, u, cs⟩ := Ret
  unfold insertCallee at h
  simp only at h
  split at h
  · cases h
  · cases h
    simp only [PGOCtxProfContext.countersNonEmpty, PGOCtxProfContext.setCallsites,
      PGOCtxProfContext.callsites, Bool.and_eq_true] at hRet ⊢
    refine ⟨hRet.1, ?_⟩
    have hcs := (callsitesCountersNonEmpty_iff cs).mp hRet.2
    rw [callsitesCountersNonEmpty_iff]
    intro e he
    rcases mem_mapPut _ _ _ e he with h | h
    · rw [h]
      apply targetsCountersNonEmpty_mapInsert _ _ _ hSC
      cases hf : mapFind Index cs with
      | none => simp [targetsCountersNonEmpty]
      | some m => exact hcs _ (mem_of_mapFind _ _ _ hf)
    · exact hcs e h

theorem applyRecord_countersNonEmpty (Kind : Nat) (F F1 : Fields) (Code : Nat)
    (Vals : List Nat) (h : applyRecord Kind F Code Vals = Except.ok F1)
    (hF : F.countersNonEmpty) : F1.countersNonEmpty := by
  unfold applyRecord at h
  simp only at h
  split_ifs at h <;> cases h
  · exact hF
  · refine ⟨?_, hF.2⟩
    intro c hc
    cases hc
    simpa using ‹¬ Vals.isEmpty = true›
  · exact hF
  · exact hF
  · exact hF


section CountersInvariant

variable {σ : Type} (C : BitstreamCursor σ)

theorem gotAllWeNeed_counters {Kind : Nat} {F : Fields} (h : GotAllWeNeed Kind F = true) :
    ∃ c, F.Counters = some c := by
  unfold GotAllWeNeed at h
  simp only [Bool.and_eq_true] at h
  exact Option.isSome_iff_exists.mp h.1.1.1.2

theorem create_countersNonEmpty {Kind : Nat} {F : Fields} (hG : GotAllWeNeed Kind F = true)
    (hF : F.countersNonEmpty) :
    (PGOCtxProfContext.create (F.Guid.getD 0) (F.Counters.getD []) F.TotalEntryCount
      F.Unhandled).countersNonEmpty = true := by
  obtain ⟨c, hc⟩ := gotAllWeNeed_counters hG
  have h1 := hF.1 c hc
  simp only [PGOCtxProfContext.create, PGOCtxProfContext.countersNonEmpty, hc,
    Option.getD_some, h1, Bool.not_false, Bool.true_and, callsitesCountersNonEmpty,
    Bool.and_true]
  cases hU : F.Unhandled with
  | none => rfl
  | some P => exact hF.2 P hU

theorem countersNonEmpty_step (n : Nat) :
    (∀ Kind s r s', readProfile C n Kind s = some (Except.ok (r, s')) →
      r.2.countersNonEmpty = true) ∧
    (∀ Kind F s F' s', readFields C n Kind F s = some (Except.ok (F', s')) →
      F.countersNonEmpty → F'.countersNonEmpty ∧ GotAllWeNeed Kind F' = true) ∧
    (∀ Kind F s F' s', readField C n Kind F s = some (Except.ok (F', s')) →
      F.countersNonEmpty → F'.countersNonEmpty) ∧
    (∀ I Ret s r s', readCallees C n I Ret s = some (Except.ok (r, s')) →
      Ret.countersNonEmpty = true → r.2.countersNonEmpty = true) ∧
    (∀ P s P' s', loadFlatProfileList C n P s = some (Except.ok (P', s')) →
      flatCountersNonEmpty P = true → flatCountersNonEmpty P' = true) := by
  induction n with
  | zero =>
    refine ⟨?_, ?_, ?_, ?_, ?_⟩ <;> intros <;>
      simp_all [readProfile, readFields, readField, readCallees, loadFlatProfileList]
  | succ n ih =>
    obtain ⟨ih1, ih2, ih3, ih4, ih5⟩ := ih
    refine ⟨?_, ?_, ?_, ?_, ?_⟩
    · intro Kind s r s' h
      rw [readProfile] at h
      rcases hE : enterBlockWithID C Kind s with ⟨_ | _, s1⟩
      · rw [hE] at h; cases h
      · rw [hE] at h
        simp only at h
        cases hF : readFields C n Kind {} s1 with
        | none => rw [hF] at h; cases h
        | some x =>
          rw [hF] at h
          cases x with
          | error e => cases h
          | ok v =>
            obtain ⟨F, s2⟩ := v
            simp only at h
            have hF' := ih2 _ _ _ _ _ hF
              (by constructor <;> intro _ hc <;> cases hc)
            exact ih4 _ _ _ _ _ h (create_countersNonEmpty hF'.2 hF'.1)
    · intro Kind F s F' s' h hF
      rw [readFields] at h
      by_cases hG : GotAllWeNeed Kind F = true
      · rw [if_pos hG] at h
        cases h
        exact ⟨hF, hG⟩
      · rw [if_neg hG] at h
        cases hR : readField C n Kind F s with
        | none => rw [hR] at h; cases h
        | some x =>
          rw [hR] at h
          cases x with
          | error e => cases h
          | ok v =>
            obtain ⟨F1, s1⟩ := v
            exact ih2 _ _ _ _ _ h (ih3 _ _ _ _ _ hR hF)
    · intro Kind F s F' s' h hF
      rw [readField] at h
      rcases hA : advance C s with ⟨_ | Entry, s1⟩
      · rw [hA] at h; cases h
      · rw [hA] at h
        simp only at h
        by_cases hK : Entry.Kind ≠ EntryKind.Record
        · rw [if_pos hK] at h
          by_cases hU : Kind = PGOCtxProfileBlockIDs.ContextRootBlockID ∧
              Entry.Kind = EntryKind.SubBlock ∧
              Entry.ID = PGOCtxProfileBlockIDs.UnhandledBlockID
          · rw [if_pos hU] at h
            rcases hE : enterBlockWithID C PGOCtxProfileBlockIDs.UnhandledBlockID s1
              with ⟨_ | _, s2⟩
            · rw [hE] at h; cases h
            · rw [hE] at h
              simp only at h
              cases hL : loadFlatProfileList C n [] s2 with
              | none => rw [hL] at h; cases h
              | some x =>
                rw [hL] at h
                cases x with
                | error e => cases h
                | ok v =>
                  obtain ⟨P, s3⟩ := v
                  cases h
                  refine ⟨hF.1, ?_⟩
                  intro P' hP'
                  cases hP'
                  exact ih5 _ _ _ _ hL rfl
          · rw [if_neg hU] at h; cases h
        · rw [if_neg hK] at h
          rcases hR : C.readRecord bitc.UNABBREV_RECORD s1 with ⟨_ | ⟨Code, Vals⟩, s2⟩
          · rw [hR] at h; cases h
          · rw [hR] at h
            simp only at h
            cases hA' : applyRecord Kind F Code Vals with
            | error e => rw [hA'] at h; cases h
            | ok F1 =>
              rw [hA'] at h
              cases h
              exact applyRecord_countersNonEmpty _ _ _ _ _ hA' hF
    · intro I Ret s r s' h hRet
      rw [readCallees] at h
      rcases hC : canEnterBlockWithID C PGOCtxProfileBlockIDs.ContextNodeBlockID s
        with ⟨_ | _, s1⟩
      · rw [hC] at h; cases h; exact hRet
      · rw [hC] at h
        simp only at h
        cases hP : readProfile C n PGOCtxProfileBlockIDs.ContextNodeBlockID s1 with
        | none => rw [hP] at h; cases h
        | some x =>
          rw [hP] at h
          cases x with
          | error e => cases h
          | ok v =>
            obtain ⟨SC, s2⟩ := v
            simp only at h
            cases hI : insertCallee Ret (SC.1.getD 0) SC.2 with
            | error e => rw [hI] at h; cases h
            | ok Ret1 =>
              rw [hI] at h
              exact ih4 _ _ _ _ _ h
                (insertCallee_countersNonEmpty _ _ _ _ hI hRet (ih1 _ _ _ _ hP))
    · intro P s P' s' h hP
      rw [loadFlatProfileList] at h
      rcases hC : canEnterBlockWithID C PGOCtxProfileBlockIDs.FlatProfileBlockID s
        with ⟨_ | _, s1⟩
      · rw [hC] at h; cases h; exact hP
      · rw [hC] at h
        simp only at h
        cases hR : readProfile C n PGOCtxProfileBlockIDs.FlatProfileBlockID s1 with
        | none => rw [hR] at h; cases h
        | some x =>
          rw [hR] at h
          cases x with
          | error e => cases h
          | ok v =>
            obtain ⟨E, s2⟩ := v
            simp only at h
            by_cases hD : (!(mapInsert E.2.guid E.2.counters P).2) = true
            · rw [if_pos hD] at h; cases h
            · rw [if_neg hD] at h
              exact ih5 _ _ _ _ h (flatCountersNonEmpty_mapInsert _ _ _
                (countersNonEmpty_counters _ (ih1 _ _ _ _ hR)) hP)

theorem loadContextRoots_countersNonEmpty (n : Nat) (P P' : CtxProfContextualProfiles)
    (s s' : σ) (h : loadContextRoots C n P s = some (Except.ok (P', s')))
    (hP : targetsCountersNonEmpty P = true) : targetsCountersNonEmpty P' = true := by
  induction n generalizing P s with
  | zero => simp [loadContextRoots] at h
  | succ n ih =>
    rw [loadContextRoots] at h
    rcases hC : canEnterBlockWithID C PGOCtxProfileBlockIDs.ContextRootBlockID s
      with ⟨_ | _, s1⟩
    · rw [hC] at h; cases h; exact hP
    · rw [hC] at h
      simp only at h
      cases hR : readProfile C n PGOCtxProfileBlockIDs.ContextRootBlockID s1 with
      | none => rw [hR] at h; cases h
      | some x =>
        rw [hR] at h
        cases x with
        | error e => cases h
        | ok v =>
          obtain ⟨E, s2⟩ := v
          simp only at h
          by_cases hD : (!(mapInsert E.2.guid E.2 P).2) = true
          · rw [if_pos hD] at h; cases h
          · rw [if_neg hD] at h
            exact ih _ _ h (targetsCountersNonEmpty_mapInsert _ _ _
              ((countersNonEmpty_step C n).1 _ _ _ _ hR) hP)

theorem loadSections_countersNonEmpty (n k : Nat) (Ret Ret' : PGOCtxProfile)
    (s s' : σ) (h : loadSections C n k Ret s = some (Except.ok (Ret', s')))
    (hRet : Ret.countersNonEmpty = true) : Ret'.countersNonEmpty = true := by
  induction k generalizing Ret s with
  | zero => simp [loadSections] at h; rw [← h.1]; exact hRet
  | succ k ih =>
    rw [loadSections] at h
    simp only [PGOCtxProfile.countersNonEmpty, Bool.and_eq_true] at hRet
    rcases hT : tryGetNextKnownBlockID C s with ⟨_ | Test, s1⟩
    · rw [hT] at h
      cases h
      simp only [PGOCtxProfile.countersNonEmpty, Bool.and_eq_true]
      exact hRet
    · rw [hT] at h
      simp only at h
      by_cases h1 : Test = PGOCtxProfileBlockIDs.ContextsSectionBlockID
      · rw [if_pos h1] at h
        cases hL : loadContexts C n Ret.Contexts s1 with
        | none => rw [hL] at h; cases h
        | some x =>
          rw [hL] at h
          cases x with
          | error e => cases h
          | ok v =>
            obtain ⟨P, s2⟩ := v
            simp only at h
            refine ih _ _ h ?_
            simp only [PGOCtxProfile.countersNonEmpty, Bool.and_eq_true]
            refine ⟨?_, hRet.2⟩
            unfold loadContexts at hL
            rcases hE : enterBlockWithID C PGOCtxProfileBlockIDs.ContextsSectionBlockID s1
              with ⟨_ | _, s3⟩
            · rw [hE] at hL; cases hL
            · rw [hE] at hL
              exact loadContextRoots_countersNonEmpty C _ _ _ _ _ hL hRet.1
      · rw [if_neg h1] at h
        by_cases h2 : Test = PGOCtxProfileBlockIDs.FlatProfilesSectionBlockID
        · rw [if_pos h2] at h
          cases hL : loadFlatProfiles C n Ret.FlatProfiles s1 with
          | none => rw [hL] at h; cases h
          | some x =>
            rw [hL] at h
            cases x with
            | error e => cases h
            | ok v =>
              obtain ⟨P, s2⟩ := v
              simp only at h
              refine ih _ _ h ?_
              simp only [PGOCtxProfile.countersNonEmpty, Bool.and_eq_true]
              refine ⟨hRet.1, ?_⟩
              unfold loadFlatProfiles at hL
              rcases hE : enterBlockWithID C
                PGOCtxProfileBlockIDs.FlatProfilesSectionBlockID s1 with ⟨_ | _, s3⟩
              · rw [hE] at hL; cases hL
              · rw [hE] at hL
                exact (countersNonEmpty_step C n).2.2.2.2 _ _ _ _ hL hRet.2
        · rw [if_neg h2] at h; cases h

end CountersInvariant

/-- C3.  In every profile that `loadProfiles` returns, whatever the cursor,
counters are never empty: every root context, every nested child context at
every depth, every entry of a root's unhandled flat profile and every entry
of the top-level flat profiles has at least one counter value. -/
theorem loadProfiles_counters_nonempty {σ : Type} (C : BitstreamCursor σ)
    (W : PGOCtxProfileWriter)
    (Magic : List Nat) (fuel : Nat) (s s' : σ) (P : PGOCtxProfile)
    (h : loadProfiles C W Magic fuel s = some (Except.ok (P, s'))) :
    P.countersNonEmpty = true := by
  unfold loadProfiles at h
  rcases hM : readMetadata C W Magic s with ⟨_ | _, s1⟩
  · rw [hM] at h; cases h
  · rw [hM] at h
    exact loadSections_countersNonEmpty C _ _ _ _ _ _ h rfl

/-- C3 (witness): the sample container is decoded, and the profile it decodes
to (a root with an unhandled entry and a child, and one flat profile) has no
empty counters. -/
theorem loadProfiles_counters_nonempty_witness :
    loadProfiles tokCursor sampleWriter [67, 84, 88, 80] 12 (TokState.start sampleContainer) =
        some (Except.ok (sampleProfile, TokState.start [Tok.endBlock])) ∧
      sampleProfile.countersNonEmpty = true :=
  ⟨rfl, loadProfiles_counters_nonempty tokCursor sampleWriter [67, 84, 88, 80] 12
    (TokState.start sampleContainer) (TokState.start [Tok.endBlock]) sampleProfile rfl⟩


/-! ## C4: duplicate callees -/

theorem mapFind_mapPut {V : Type} (k k' : Nat) (v : V) (m : MapTy V) :
    mapFind k' (mapPut k v m) = if k' = k then some v else mapFind k' m := by
  induction m with
  | nil => simp [mapPut, mapFind]
  | cons a m ih =>
    obtain ⟨k1, v1⟩ := a
    rw [mapPut]
    by_cases h1 : k < k1
    · simp only [h1, if_true]
      rw [mapFind]
    · by_cases h2 : k = k1
      · subst h2
        simp only [Nat.lt_irrefl, if_true, if_false]
        rw [mapFind, mapFind]
        by_cases h3 : k' = k <;> simp [h3]
      · simp only [h1, h2, if_false]
        rw [mapFind, ih, mapFind]
        by_cases h3 : k' = k1
        · subst h3
          have : k' ≠ k := fun h => h2 h.symm
          simp [this]
        · simp [h3]

theorem mapInsert_inserted {V : Type} (k : Nat) (v : V) (m : MapTy V) :
    (mapInsert k v m).2 = (mapFind k m).isNone := by
  unfold mapInsert
  cases mapFind k m <;> rfl

theorem mapFind_mapInsert {V : Type} (k k' : Nat) (v : V) (m : MapTy V)
    (h : mapFind k m = none) :
    mapFind k' (mapInsert k v m).1 = if k' = k then some v else mapFind k' m := by
  unfold mapInsert
  rw [h]
  exact mapFind_mapPut k k' v m

/-- `insertCallee` fails exactly when the slot is taken. -/
theorem insertCallee_taken (Ret SC : PGOCtxProfContext) (Index : Nat)
    (h : Ret.callee Index SC.guid ≠ none) :
    insertCallee Ret Index SC = Except.error
      (wrongValue "Unexpected duplicate target (callee) at the same callsite.") := by
  unfold PGOCtxProfContext.callee at h
  unfold insertCallee
  simp only [mapInsert_inserted]
  cases hf : mapFind Index Ret.callsites with
  | none => rw [hf] at h; exact absurd rfl h
  | some m =>
    rw [hf] at h
    change mapFind SC.guid m ≠ none at h
    simp only [Option.getD_some]
    cases hg : mapFind SC.guid m with
    | none => exact absurd hg h
    | some c => rfl

/-- `insertCallee` stores the callee in a free slot and keeps the others. -/
theorem insertCallee_free (Ret SC : PGOCtxProfContext) (Index : Nat)
    (h : Ret.callee Index SC.guid = none) :
    ∃ Ret1, insertCallee Ret Index SC = Except.ok Ret1 ∧
      ∀ i g, Ret1.callee i g =
        if i = Index ∧ g = SC.guid then some SC else Ret.callee i g := by
  obtain ⟨g0, c0, t0, u0, cs⟩ := Ret
  unfold PGOCtxProfContext.callee at h
  simp only [PGOCtxProfContext.callsites] at h
  have hfree : mapFind SC.guid ((mapFind Index cs).getD []) = none := by
    cases hf : mapFind Index cs with
    | none => rfl
    | some m => rw [hf] at h; simpa using h
  refine ⟨(PGOCtxProfContext.mk g0 c0 t0 u0 cs).setCallsites
    (mapPut Index (mapInsert SC.guid SC ((mapFind Index cs).getD [])).1 cs), ?_, ?_⟩
  · unfold insertCallee
    simp only [mapInsert_inserted, PGOCtxProfContext.callsites, hfree]
    rfl
  · intro i g
    simp only [PGOCtxProfContext.callee, PGOCtxProfContext.setCallsites,
      PGOCtxProfContext.callsites, mapFind_mapPut]
    by_cases hi : i = Index
    · subst hi
      simp only [if_true, true_and]
      change mapFind g (mapInsert SC.guid SC ((mapFind i cs).getD [])).1 = _
      rw [mapFind_mapInsert _ _ _ _ hfree]
      by_cases hg : g = SC.guid
      · simp [hg]
      · simp only [hg, if_false]
        cases hf : mapFind i cs with
        | none => rfl
        | some m => rfl
    · simp [hi]

section CalleeInvariant

variable {σ : Type} (C : BitstreamCursor σ)

/-- The callees the loop has decoded are the callees the context holds. -/
theorem calleesReach_callee {Ret Ret1 : PGOCtxProfContext} {s s1 : σ}
    {seen : List (Nat × PGOCtxProfContext)} (h : CalleesReach C Ret s seen Ret1 s1)
    (h0 : ∀ i g, Ret.callee i g = none) :
    (∀ e ∈ seen, Ret1.callee e.1 e.2.guid = some e.2) ∧
      (∀ i g, Ret1.callee i g ≠ none → ∃ e ∈ seen, e.1 = i ∧ e.2.guid = g) := by
  induction h with
  | refl =>
    constructor
    · intro e he
      cases he
    · intro i g hne
      exact absurd (h0 i g) hne
  | @step Ret1 Ret2 s s1 s2 s3 seen SC n _ hC hP hI ih =>
    obtain ⟨ih1, ih2⟩ := ih
    have hfree : Ret1.callee (SC.1.getD 0) SC.2.guid = none := by
      by_contra hne
      rw [insertCallee_taken _ _ _ hne] at hI
      cases hI
    obtain ⟨Ret2', hI', hcal⟩ := insertCallee_free _ _ _ hfree
    rw [hI] at hI'
    cases hI'
    constructor
    · intro e he
      rcases List.mem_cons.mp he with he | he
      · subst he
        simp [hcal]
      · rw [hcal]
        by_cases hk : e.1 = SC.1.getD 0 ∧ e.2.guid = SC.2.guid
        · have := ih1 e he
          rw [hk.1, hk.2, hfree] at this
          cases this
        · rw [if_neg hk]
          exact ih1 e he
    · intro i g hne
      rw [hcal] at hne
      by_cases hk : i = SC.1.getD 0 ∧ g = SC.2.guid
      · exact ⟨_, List.mem_cons_self _ _, hk.1.symm, hk.2.symm⟩
      · rw [if_neg hk] at hne
        obtain ⟨e, he, h1, h2⟩ := ih2 i g hne
        exact ⟨e, List.mem_cons_of_mem _ he, h1, h2⟩

/-- An iteration of the callee loop whose insertion fails ends the loop with
the error. -/
theorem readCallees_fail {n : Nat} {I : Option Nat} {Ret : PGOCtxProfContext}
    {s s1 s2 : σ} {SC : Option Nat × PGOCtxProfContext} {e : Error}
    (hC : canEnterBlockWithID C PGOCtxProfileBlockIDs.ContextNodeBlockID s = (true, s1))
    (hP : readProfile C n PGOCtxProfileBlockIDs.ContextNodeBlockID s1 =
      some (Except.ok (SC, s2)))
    (hI : insertCallee Ret (SC.1.getD 0) SC.2 = Except.error e) :
    Returns (fun m => readCallees C m I Ret s) (Except.error e) := by
  refine ⟨n + 1, fun m hm => ?_⟩
  obtain ⟨k, rfl⟩ : ∃ k, m = k + 1 := ⟨m - 1, by omega⟩
  dsimp only
  rw [readCallees, hC]
  simp only
  rw [readProfile_mono C (by omega : n ≤ k) hP]
  simp only
  rw [hI]

/-- C4.  A duplicate (call-site index, guid) pair among the children of one
context is a hard failure.  Take any call `readProfile(Kind)`, at any depth
and on any cursor, whose callee loop has decoded the callees `seen` and now
decodes a further InnerNode block to the index and context `SC`.

* If a callee decoded before has the same index and the same guid,
  `readProfile` fails with the `invalid_prof` error of a duplicate target.
* Otherwise the callee is accepted and stored under
  `callsites[index][guid]`, every callee decoded before stays stored, and the
  loop goes on; so callees with the same guid at different indices, or with
  different guids at the same index, are all kept.
* `getOrEmplace` fails with `invalid_prof` exactly when `callsites[Index]`
  already holds `G`, and otherwise stores a fresh context for `G` there. -/
theorem readProfile_duplicate_callee (Kind : Nat) (s0 s s1 s2 : σ)
    (seen : List (Nat × PGOCtxProfContext))
    (Ret : PGOCtxProfContext) (n : Nat) (SC : Option Nat × PGOCtxProfContext)
    (hpos : InCallees C Kind s0 seen Ret s)
    (hcan : canEnterBlockWithID C ContextNodeBlockID s = (true, s1))
    (hchild : readProfile C n ContextNodeBlockID s1 = some (Except.ok (SC, s2))) :
    ((∃ e ∈ seen, e.1 = SC.1.getD 0 ∧ e.2.guid = SC.2.guid) →
      Returns (fun fuel => readProfile C fuel Kind s0)
        (Except.error (Error.instr instrprof_error.invalid_prof
          "Unexpected duplicate target (callee) at the same callsite."))) ∧
    ((∀ e ∈ seen, ¬ (e.1 = SC.1.getD 0 ∧ e.2.guid = SC.2.guid)) →
      ∃ Ret1, InCallees C Kind s0 ((SC.1.getD 0, SC.2) :: seen) Ret1 s2 ∧
        Ret1.callee (SC.1.getD 0) SC.2.guid = some SC.2 ∧
        ∀ e ∈ seen, Ret1.callee e.1 e.2.guid = some e.2) ∧
    (∀ (Ctx : PGOCtxProfContext) (Index G : Nat) (Counters : List Nat),
      (Ctx.callee Index G ≠ none →
        Ctx.getOrEmplace Index G Counters = Except.error
          (Error.instr instrprof_error.invalid_prof "Duplicate GUID for same callsite.")) ∧
      (Ctx.callee Index G = none →
        ∃ Ctx1, Ctx.getOrEmplace Index G Counters = Except.ok Ctx1 ∧
          Ctx1.callee Index G = some (PGOCtxProfContext.create G Counters none none))) := by
  obtain ⟨recs, F, sf, hIn, hG, hCR⟩ := hpos
  have hinv := calleesReach_callee C hCR (fun i g => rfl)
  refine ⟨?_, ?_, ?_⟩
  · rintro ⟨e, he, h1, h2⟩
    have hne : Ret.callee (SC.1.getD 0) SC.2.guid ≠ none := by
      rw [← h1, ← h2, hinv.1 e he]
      exact Option.some_ne_none _
    obtain ⟨I, hI⟩ := inCallees_returns_iff C ⟨recs, F, sf, hIn, hG, hCR⟩
    exact (hI _).mpr (readCallees_fail C hcan hchild (insertCallee_taken _ _ _ hne))
  · intro hnew
    have hfree : Ret.callee (SC.1.getD 0) SC.2.guid = none := by
      by_contra hne
      obtain ⟨e, he, h1, h2⟩ := hinv.2 _ _ hne
      exact hnew e he ⟨h1, h2⟩
    obtain ⟨Ret1, hI, hcal⟩ := insertCallee_free _ _ _ hfree
    have hCR1 := CalleesReach.step n hCR hcan hchild hI
    refine ⟨Ret1, ⟨recs, F, sf, hIn, hG, hCR1⟩, ?_, ?_⟩
    · simp [hcal]
    · intro e he
      exact (calleesReach_callee C hCR1 (fun i g => rfl)).1 e (List.mem_cons_of_mem _ he)
  · intro Ctx Index G Counters
    have hg : (PGOCtxProfContext.create G Counters none none).guid = G := rfl
    constructor
    · intro hne
      have := insertCallee_taken Ctx (PGOCtxProfContext.create G Counters none none) Index
        (by rw [hg]; exact hne)
      unfold insertCallee at this
      unfold PGOCtxProfContext.getOrEmplace
      simp only [hg] at this
      simp only
      split
      · rfl
      · rename_i hc
        rw [if_neg hc] at this
        cases this
    · intro hfree
      obtain ⟨Ctx1, hI, hcal⟩ :=
        insertCallee_free Ctx (PGOCtxProfContext.create G Counters none none) Index
          (by rw [hg]; exact hfree)
      refine ⟨Ctx1, ?_, ?_⟩
      · unfold insertCallee at hI
        unfold PGOCtxProfContext.getOrEmplace
        simp only [hg] at hI
        simp only
        split
        · rename_i hc
          rw [if_pos hc] at hI
          cases hI
        · rename_i hc
          rw [if_neg hc] at hI
          exact hI
      · rw [hcal, hg]
        simp

end CalleeInvariant


/-- The position of the witness of C4: the root has read its fields and
decoded its first child. -/
theorem duplicateCallee_position :
    InCallees tokCursor ContextRootBlockID (TokState.inBlock ContextRootBlockID duplicateCalleeBody)
      [(2, PGOCtxProfContext.mk 9 [5] none none [])]
      (PGOCtxProfContext.mk 7 [100] (some 100) (some [])
        [(2, [(9, PGOCtxProfContext.mk 9 [5] none none [])])])
      (TokState.start (duplicateCalleeBody.drop 10)) := by
  have h0 := @FieldsReach.refl _ tokCursor ContextRootBlockID {}
    (TokState.start duplicateCalleeBody)
  have h1 := FieldsReach.step 1 h0 rfl rfl
  have h2 := FieldsReach.step 1 h1 rfl rfl
  have h3 := FieldsReach.step 1 h2 rfl rfl
  have h4 := FieldsReach.step 2 h3 rfl rfl
  have c0 := CalleesReach.refl (C := tokCursor)
    (PGOCtxProfContext.create 7 [100] (some 100) (some []))
    (TokState.start (duplicateCalleeBody.drop 5))
  have c1 := CalleesReach.step 6 c0 rfl rfl rfl
  exact ⟨_, _, _, ⟨_, tok_enter _ _, h4⟩, rfl, c1⟩

/-- C4 (witness): a root whose two children both have guid 9 and call-site
index 2 is rejected. -/
theorem readProfile_duplicate_callee_witness :
    Returns (fun fuel => readProfile tokCursor fuel ContextRootBlockID
        (TokState.inBlock ContextRootBlockID duplicateCalleeBody))
      (Except.error (Error.instr instrprof_error.invalid_prof
        "Unexpected duplicate target (callee) at the same callsite.")) :=
  (readProfile_duplicate_callee tokCursor ContextRootBlockID _ _
    (TokState.inBlock ContextNodeBlockID (duplicateCalleeBody.drop 11))
    (TokState.start [Tok.endBlock]) _ _ 6
    (some 2, PGOCtxProfContext.mk 9 [6] none none []) duplicateCallee_position rfl rfl).1
    ⟨_, List.mem_cons_self _ _, rfl, rfl⟩

/-! ## C5: errors of the cursor -/

section Propagation

variable {σ : Type} (C : BitstreamCursor σ)

/-- A computation that, given one more unit of fuel, does what another does
returns what the other returns. -/
theorem returns_shift {α : Type} {f g : Nat → Option α} (N : Nat)
    (h : ∀ m, N ≤ m → f (m + 1) = g m) (r : α) : Returns f r ↔ Returns g r := by
  constructor
  · rintro ⟨M, hM⟩
    refine ⟨max N M, fun m hm => ?_⟩
    rw [← h m (by omega)]
    exact hM (m + 1) (by omega)
  · rintro ⟨M, hM⟩
    refine ⟨max N M + 1, fun m hm => ?_⟩
    obtain ⟨k, rfl⟩ : ∃ k, m = k + 1 := ⟨m - 1, by omega⟩
    rw [h k (by omega)]
    exact hM k (by omega)

theorem returns_congr {α : Type} {f g : Nat → Option α} (N : Nat)
    (h : ∀ m, N ≤ m → f m = g m) (r : α) : Returns f r ↔ Returns g r := by
  constructor
  · rintro ⟨M, hM⟩
    refine ⟨max N M, fun m hm => ?_⟩
    rw [← h m (by omega)]
    exact hM m (by omega)
  · rintro ⟨M, hM⟩
    refine ⟨max N M, fun m hm => ?_⟩
    rw [h m (by omega)]
    exact hM m (by omega)

theorem flatListReach_returns_iff {P P1 : CtxProfFlatProfile} {s s1 : σ}
    (h : FlatListReach C P s P1 s1) (r : Except Error (CtxProfFlatProfile × σ)) :
    Returns (fun m => loadFlatProfileList C m P s) r ↔
      Returns (fun m => loadFlatProfileList C m P1 s1) r := by
  induction h with
  | refl => exact Iff.rfl
  | step n _ hC hP hI ih =>
    refine ih.trans (returns_shift n (fun m hm => ?_) r)
    dsimp only
    rw [loadFlatProfileList, hC]
    simp only
    rw [readProfile_mono C hm hP]
    simp [hI]

theorem rootsReach_returns_iff {P P1 : CtxProfContextualProfiles} {s s1 : σ}
    (h : RootsReach C P s P1 s1) (r : Except Error (CtxProfContextualProfiles × σ)) :
    Returns (fun m => loadContextRoots C m P s) r ↔
      Returns (fun m => loadContextRoots C m P1 s1) r := by
  induction h with
  | refl => exact Iff.rfl
  | step n _ hC hP hI ih =>
    refine ih.trans (returns_shift n (fun m hm => ?_) r)
    dsimp only
    rw [loadContextRoots, hC]
    simp only
    rw [readProfile_mono C hm hP]
    simp [hI]

theorem sectionsReach_returns_iff {k k1 : Nat} {Ret Ret1 : PGOCtxProfile} {s s1 : σ}
    (h : SectionsReach C k Ret s k1 Ret1 s1) (r : Except Error (PGOCtxProfile × σ)) :
    Returns (fun m => loadSections C m k Ret s) r ↔
      Returns (fun m => loadSections C m k1 Ret1 s1) r := by
  induction h with
  | refl => exact Iff.rfl
  | contexts n _ hT hL ih =>
    refine ih.trans (returns_congr n (fun m hm => ?_) r)
    dsimp only
    rw [loadSections, hT]
    simp only [if_true]
    rw [loadContexts_mono C hm hL]
  | flat n _ hT hL ih =>
    refine ih.trans (returns_congr n (fun m hm => ?_) r)
    dsimp only
    rw [loadSections, hT]
    have hne : PGOCtxProfileBlockIDs.FlatProfilesSectionBlockID ≠
        PGOCtxProfileBlockIDs.ContextsSectionBlockID := by decide
    simp only [if_neg hne, if_true]
    rw [loadFlatProfiles_mono C hm hL]

/-- At a position of the loop of `loadProfiles`, `loadProfiles` returns what
the rest of the loop returns. -/
theorem inSections_returns_iff {W : PGOCtxProfileWriter} {Magic : List Nat} {s0 s : σ}
    {k : Nat} {Ret : PGOCtxProfile} (h : InSections C W Magic s0 k Ret s)
    (r : Except Error (PGOCtxProfile × σ)) :
    Returns (fun m => loadProfiles C W Magic m s0) r ↔
      Returns (fun m => loadSections C m k Ret s) r := by
  obtain ⟨s1, hM, hR⟩ := h
  refine Iff.trans (returns_congr 0 (fun m _ => ?_) r) (sectionsReach_returns_iff C hR r)
  dsimp only
  rw [loadProfiles, hM]

/-- A failing call of `readProfile` makes the callee loop that issued it
fail with the same error. -/
theorem readCallees_of_callee_error {I : Option Nat} {Ret : PGOCtxProfContext}
    {s s1 : σ} {e : Error}
    (hC : canEnterBlockWithID C PGOCtxProfileBlockIDs.ContextNodeBlockID s = (true, s1))
    (hP : Returns (fun m => readProfile C m PGOCtxProfileBlockIDs.ContextNodeBlockID s1)
      (Except.error e)) :
    Returns (fun m => readCallees C m I Ret s) (Except.error e) := by
  obtain ⟨N, hN⟩ := hP
  dsimp only at hN
  refine ⟨N + 1, fun m hm => ?_⟩
  obtain ⟨k, rfl⟩ : ∃ k, m = k + 1 := ⟨m - 1, by omega⟩
  dsimp only
  rw [readCallees, hC]
  simp only
  rw [hN k (by omega)]

/-- A failing call of `readProfile` makes the loop of `loadFlatProfileList`
that issued it fail with the same error. -/
theorem loadFlatProfileList_of_entry_error {P : CtxProfFlatProfile} {s s1 : σ} {e : Error}
    (hC : canEnterBlockWithID C PGOCtxProfileBlockIDs.FlatProfileBlockID s = (true, s1))
    (hP : Returns (fun m => readProfile C m PGOCtxProfileBlockIDs.FlatProfileBlockID s1)
      (Except.error e)) :
    Returns (fun m => loadFlatProfileList C m P s) (Except.error e) := by
  obtain ⟨N, hN⟩ := hP
  dsimp only at hN
  refine ⟨N + 1, fun m hm => ?_⟩
  obtain ⟨k, rfl⟩ : ∃ k, m = k + 1 := ⟨m - 1, by omega⟩
  dsimp only
  rw [loadFlatProfileList, hC]
  simp only
  rw [hN k (by omega)]

/-- A failing call of `readProfile` makes the loop of `loadContexts` that
issued it fail with the same error. -/
theorem loadContextRoots_of_root_error {P : CtxProfContextualProfiles} {s s1 : σ}
    {e : Error}
    (hC : canEnterBlockWithID C PGOCtxProfileBlockIDs.ContextRootBlockID s = (true, s1))
    (hP : Returns (fun m => readProfile C m PGOCtxProfileBlockIDs.ContextRootBlockID s1)
      (Except.error e)) :
    Returns (fun m => loadContextRoots C m P s) (Except.error e) := by
  obtain ⟨N, hN⟩ := hP
  dsimp only at hN
  refine ⟨N + 1, fun m hm => ?_⟩
  obtain ⟨k, rfl⟩ : ∃ k, m = k + 1 := ⟨m - 1, by omega⟩
  dsimp only
  rw [loadContextRoots, hC]
  simp only
  rw [hN k (by omega)]

/-- A failing `loadFlatProfileList` makes the iteration of the field loop
that reads the Unhandled sub-block fail with the same error. -/
theorem readField_of_unhandled_error {F : Fields} {s s1 s2 : σ} {Entry : BitstreamEntry}
    {e : Error}
    (hA : advance C s = (Except.ok Entry, s1)) (hK : Entry.Kind = EntryKind.SubBlock)
    (hID : Entry.ID = PGOCtxProfileBlockIDs.UnhandledBlockID)
    (hE : enterBlockWithID C PGOCtxProfileBlockIDs.UnhandledBlockID s1 = (Except.ok (), s2))
    (hL : Returns (fun m => loadFlatProfileList C m [] s2) (Except.error e)) :
    ∃ n, readField C n PGOCtxProfileBlockIDs.ContextRootBlockID F s =
      some (Except.error e) := by
  obtain ⟨N, hN⟩ := hL
  dsimp only at hN
  refine ⟨N + 1, ?_⟩
  rw [readField, hA]
  simp only [hK, hID, ne_eq, reduceCtorEq, not_false_eq_true, if_true, and_self]
  rw [hE]
  simp only
  rw [hN N (le_refl _)]

/-- The error of a call of `readProfile` that `loadProfiles` comes to is the
error `loadProfiles` returns. -/
theorem calls_error {W : PGOCtxProfileWriter} {Magic : List Nat} {s0 s : σ} {Kind : Nat}
    {e : Error} (h : Calls C W Magic s0 Kind s)
    (he : Returns (fun m => readProfile C m Kind s) (Except.error e)) :
    Returns (fun m => loadProfiles C W Magic m s0) (Except.error e) := by
  induction h with
  | root hS hT hE hR hC =>
    have h1 := (rootsReach_returns_iff C hR _).mpr (loadContextRoots_of_root_error C hC he)
    refine (inSections_returns_iff C hS _).mpr ?_
    obtain ⟨N, hN⟩ := h1
    dsimp only at hN
    refine ⟨N, fun m hm => ?_⟩
    dsimp only
    rw [loadSections, hT]
    simp only [if_true]
    rw [loadContexts, hE]
    simp only
    rw [hN m hm]
  | flat hS hT hE hR hC =>
    have h1 := (flatListReach_returns_iff C hR _).mpr
      (loadFlatProfileList_of_entry_error C hC he)
    refine (inSections_returns_iff C hS _).mpr ?_
    obtain ⟨N, hN⟩ := h1
    dsimp only at hN
    refine ⟨N, fun m hm => ?_⟩
    dsimp only
    rw [loadSections, hT]
    have hne : PGOCtxProfileBlockIDs.FlatProfilesSectionBlockID ≠
        PGOCtxProfileBlockIDs.ContextsSectionBlockID := by decide
    simp only [if_neg hne, if_true]
    rw [loadFlatProfiles, hE]
    simp only
    rw [hN m hm]
  | callee _ hIn hC ih =>
    obtain ⟨I, hI⟩ := inCallees_returns_iff C hIn
    exact ih ((hI _).mpr (readCallees_of_callee_error C hC he))
  | unhandled _ hIn hG hA hK hID hE hR hC ih =>
    have h1 := (flatListReach_returns_iff C hR _).mpr
      (loadFlatProfileList_of_entry_error C hC he)
    obtain ⟨n, hn⟩ := readField_of_unhandled_error C (F := _) hA hK hID hE h1
    exact ih (inFields_fail C hIn hG hn)

end Propagation


/-- C5 (counterexample).  In this container `readMetadata` succeeds and the
next `advance`, by which `loadProfiles` looks for the first top-level
section, reports an error.  `tryGetNextKnownBlockID` consumes the error and
`loadProfiles` returns a profile, the empty one, leaving the contexts section
that follows unread. -/
theorem loadProfiles_swallows_advance_error :
    readMetadata tokCursor sampleWriter [67, 84, 88, 80]
        (TokState.start swallowedErrorContainer) =
      (Except.ok (), TokState.start (swallowedErrorContainer.drop 4)) ∧
    (advance tokCursor (TokState.start (swallowedErrorContainer.drop 4))).1 =
      Except.error (Error.cursor 0) ∧
    loadProfiles tokCursor sampleWriter [67, 84, 88, 80] 1
        (TokState.start swallowedErrorContainer) =
      some (Except.ok ({ Contexts := [], FlatProfiles := [] },
        TokState.start (swallowedErrorContainer.drop 5))) :=
  ⟨rfl, rfl, rfl⟩

section CursorErrors

variable {σ : Type} (C : BitstreamCursor σ)

theorem readProfile_enter_error {Kind : Nat} {s : σ} {e : Error}
    (h : (enterBlockWithID C Kind s).1 = Except.error e) :
    Returns (fun m => readProfile C m Kind s) (Except.error e) := by
  refine ⟨1, fun m hm => ?_⟩
  obtain ⟨k, rfl⟩ : ∃ k, m = k + 1 := ⟨m - 1, by omega⟩
  dsimp only
  rw [readProfile]
  rcases hE : enterBlockWithID C Kind s with ⟨_ | _, s1⟩
  · rw [hE] at h
    cases h
    rfl
  · rw [hE] at h
    cases h

/-- C5 (amended).  For every cursor, every call of `loadProfiles` and every
error `e`:

* an error of the `advance` step of `tryGetNextKnownBlockID`, the step that
  looks for the next root, callee, flat entry or top-level section, is
  consumed: the function answers that no known block follows;
* in every call of `readProfile` that `loadProfiles` comes to, at any depth,
  an error `e` reported by `EnterSubBlock` on entry, by the `advance` of the
  field loop, by `readRecord`, or by `EnterSubBlock` for the Unhandled
  sub-block makes `loadProfiles` fail with `e`;
* an error `e` of `EnterSubBlock` for a top-level section makes `loadProfiles`
  fail with `e`;
* when the magic bytes are right, an error `e` of any of the six cursor steps
  of `readMetadata` (advance, skip, advance, enter, advance, read record)
  makes `loadProfiles` fail with `e`. -/
theorem loadProfiles_cursor_errors_surface (W : PGOCtxProfileWriter) (Magic : List Nat)
    (s0 : σ) (e : Error) :
    (∀ s, (advance C s).1 = Except.error e →
      tryGetNextKnownBlockID C s = (none, (advance C s).2)) ∧
    (∀ Kind s, Calls C W Magic s0 Kind s →
      ((enterBlockWithID C Kind s).1 = Except.error e → LoadProfilesFails C W Magic s0 e) ∧
      (∀ recs F s1, InFields C Kind s recs F s1 → GotAllWeNeed Kind F = false →
        ((advance C s1).1 = Except.error e → LoadProfilesFails C W Magic s0 e) ∧
        (∀ Entry s2, advance C s1 = (Except.ok Entry, s2) →
          (Entry.Kind = EntryKind.Record →
            (C.readRecord bitc.UNABBREV_RECORD s2).1 = Except.error e →
            LoadProfilesFails C W Magic s0 e) ∧
          (Kind = ContextRootBlockID → Entry.Kind = EntryKind.SubBlock →
            Entry.ID = UnhandledBlockID →
            (enterBlockWithID C UnhandledBlockID s2).1 = Except.error e →
            LoadProfilesFails C W Magic s0 e)))) ∧
    (∀ k Ret s Test s1, InSections C W Magic s0 (k + 1) Ret s →
      tryGetNextKnownBlockID C s = (some Test, s1) →
      Test = ContextsSectionBlockID ∨ Test = FlatProfilesSectionBlockID →
      (enterBlockWithID C Test s1).1 = Except.error e →
      LoadProfilesFails C W Magic s0 e) ∧
    (Magic = W.ContainerMagic →
      ((C.advance 0 s0).1 = Except.error e → LoadProfilesFails C W Magic s0 e) ∧
      (∀ E1 s1, C.advance 0 s0 = (Except.ok E1, s1) → E1.Kind = EntryKind.SubBlock →
        E1.ID = bitc.BLOCKINFO_BLOCK_ID →
        ((C.SkipBlock s1).1 = Except.error e → LoadProfilesFails C W Magic s0 e) ∧
        (∀ s2, C.SkipBlock s1 = (Except.ok (), s2) →
          ((advance C s2).1 = Except.error e → LoadProfilesFails C W Magic s0 e) ∧
          (∀ E2 s3, advance C s2 = (Except.ok E2, s3) → E2.Kind = EntryKind.SubBlock →
            ((C.EnterSubBlock ProfileMetadataBlockID s3).1 = Except.error e →
              LoadProfilesFails C W Magic s0 e) ∧
            (∀ s4, C.EnterSubBlock ProfileMetadataBlockID s3 = (Except.ok (), s4) →
              ((advance C s4).1 = Except.error e → LoadProfilesFails C W Magic s0 e) ∧
              (∀ E3 s5, advance C s4 = (Except.ok E3, s5) →
                E3.Kind = EntryKind.Record →
                (C.readRecord bitc.UNABBREV_RECORD s5).1 = Except.error e →
                LoadProfilesFails C W Magic s0 e)))))) := by
  have meta_fail : ∀ s1, readMetadata C W Magic s0 = (Except.error e, s1) →
      LoadProfilesFails C W Magic s0 e := by
    intro s1 h
    refine ⟨0, fun m _ => ?_⟩
    dsimp only
    rw [loadProfiles, h]
  refine ⟨?_, ?_, ?_, ?_⟩
  · intro s h
    unfold tryGetNextKnownBlockID
    rcases hA : advance C s with ⟨_ | _, s1⟩
    · rfl
    · rw [hA] at h; cases h
  · intro Kind s hcall
    refine ⟨fun h => calls_error C hcall (readProfile_enter_error C h), ?_⟩
    intro recs F s1 hIn hG
    refine ⟨?_, ?_⟩
    · intro h
      refine calls_error C hcall (inFields_fail C hIn hG (n := 1) ?_)
      rw [readField]
      rcases hA : advance C s1 with ⟨_ | _, s2⟩
      · rw [hA] at h; cases h; rfl
      · rw [hA] at h; cases h
    · intro Entry s2 hA
      refine ⟨?_, ?_⟩
      · intro hK h
        refine calls_error C hcall (inFields_fail C hIn hG (n := 1) ?_)
        rw [readField, hA]
        simp only [hK, ne_eq, not_true_eq_false, if_false]
        rcases hR : C.readRecord bitc.UNABBREV_RECORD s2 with ⟨_ | _, s3⟩
        · rw [hR] at h; cases h; rfl
        · rw [hR] at h; cases h
      · intro hKind hK hID h
        refine calls_error C hcall (inFields_fail C hIn hG (n := 1) ?_)
        rw [readField, hA]
        simp only [hK, hID, hKind, ne_eq, reduceCtorEq, not_false_eq_true, if_true, and_self]
        rcases hE : enterBlockWithID C UnhandledBlockID s2 with ⟨_ | _, s3⟩
        · rw [hE] at h; cases h; rfl
        · rw [hE] at h; cases h
  · intro k Ret s Test s1 hS hT hTest h
    refine (inSections_returns_iff C hS _).mpr ⟨0, fun m _ => ?_⟩
    dsimp only
    rw [loadSections, hT]
    rcases hTest with rfl | rfl
    · simp only [if_true]
      rw [loadContexts]
      rcases hE : enterBlockWithID C ContextsSectionBlockID s1 with ⟨_ | _, s3⟩
      · rw [hE] at h; cases h; rfl
      · rw [hE] at h; cases h
    · have hne : FlatProfilesSectionBlockID ≠ ContextsSectionBlockID := by decide
      simp only [if_neg hne, if_true]
      rw [loadFlatProfiles]
      rcases hE : enterBlockWithID C FlatProfilesSectionBlockID s1 with ⟨_ | _, s3⟩
      · rw [hE] at h; cases h; rfl
      · rw [hE] at h; cases h
  · intro hMagic
    have hm : ¬ (Magic.length < W.ContainerMagic.length ∨ Magic ≠ W.ContainerMagic) := by
      rw [hMagic]; simp
    refine ⟨?_, ?_⟩
    · intro h
      rcases hA : C.advance 0 s0 with ⟨_ | _, s1⟩
      · rw [hA] at h; cases h
        exact meta_fail s1 (by rw [readMetadata, if_neg hm, hA])
      · rw [hA] at h; cases h
    intro E1 s1 hA1 hK1 hID1
    have hb : ¬ (E1.Kind ≠ EntryKind.SubBlock ∨ E1.ID ≠ bitc.BLOCKINFO_BLOCK_ID) := by
      simp [hK1, hID1]
    refine ⟨?_, ?_⟩
    · intro h
      rcases hS : C.SkipBlock s1 with ⟨_ | _, s2⟩
      · rw [hS] at h; cases h
        exact meta_fail s2 (by rw [readMetadata, if_neg hm, hA1]; simp only [if_neg hb, hS])
      · rw [hS] at h; cases h
    intro s2 hS
    refine ⟨?_, ?_⟩
    · intro h
      rcases hA : advance C s2 with ⟨_ | _, s3⟩
      · rw [hA] at h; cases h
        exact meta_fail s3 (by
          rw [readMetadata, if_neg hm, hA1]; simp only [if_neg hb, hS, hA])
      · rw [hA] at h; cases h
    intro E2 s3 hA2 hK2
    have hb2 : ¬ (E2.Kind ≠ EntryKind.SubBlock) := by simp [hK2]
    refine ⟨?_, ?_⟩
    · intro h
      rcases hE : C.EnterSubBlock ProfileMetadataBlockID s3 with ⟨_ | _, s4⟩
      · rw [hE] at h; cases h
        exact meta_fail s4 (by
          rw [readMetadata, if_neg hm, hA1]; simp only [if_neg hb, hS, hA2, if_neg hb2, hE])
      · rw [hE] at h; cases h
    intro s4 hE
    refine ⟨?_, ?_⟩
    · intro h
      rcases hA : advance C s4 with ⟨_ | _, s5⟩
      · rw [hA] at h; cases h
        exact meta_fail s5 (by
          rw [readMetadata, if_neg hm, hA1]
          simp only [if_neg hb, hS, hA2, if_neg hb2, hE, hA])
      · rw [hA] at h; cases h
    intro E3 s5 hA3 hK3 h
    have hb3 : ¬ (E3.Kind ≠ EntryKind.Record) := by simp [hK3]
    rcases hR : C.readRecord bitc.UNABBREV_RECORD s5 with ⟨_ | _, s6⟩
    · rw [hR] at h; cases h
      exact meta_fail s6 (by
        rw [readMetadata, if_neg hm, hA1]
        simp only [if_neg hb, hS, hA2, if_neg hb2, hE, hA3, if_neg hb3, hR])
    · rw [hR] at h; cases h

end CursorErrors


/-- The call of `readProfile` for the root of `badRecordContainer`. -/
theorem badRecord_calls :
    Calls tokCursor sampleWriter [67, 84, 88, 80] (TokState.start badRecordContainer)
      ContextRootBlockID (TokState.inBlock ContextRootBlockID (badRecordContainer.drop 6)) :=
  Calls.root (k := 1) ⟨_, rfl, SectionsReach.refl _ _ _⟩
    (rfl : tryGetNextKnownBlockID tokCursor (TokState.start (badRecordContainer.drop 4)) =
      (some ContextsSectionBlockID,
        TokState.inBlock ContextsSectionBlockID (badRecordContainer.drop 5)))
    rfl (RootsReach.refl _ _) rfl

/-- C5 (witness): the record of the root that cannot be read makes
`loadProfiles` fail with the error of `readRecord`. -/
theorem loadProfiles_cursor_errors_surface_witness :
    LoadProfilesFails tokCursor sampleWriter [67, 84, 88, 80]
      (TokState.start badRecordContainer) (Error.cursor 3) :=
  ((((loadProfiles_cursor_errors_surface tokCursor sampleWriter [67, 84, 88, 80]
    (TokState.start badRecordContainer)
    (Error.cursor 3)).2.1 _ _ badRecord_calls).2 _ { Guid := some 7 }
      (TokState.start (badRecordContainer.drop 7))
      ⟨_, tok_enter _ _, FieldsReach.step 1 (FieldsReach.refl _ _) rfl rfl⟩ rfl).2
      _ _ rfl).1 rfl rfl

/-! ## C6: the container header -/

/-- With magic bytes other than the expected ones `readMetadata` fails with
`invalid_prof` on every cursor, and leaves the cursor where it was. -/
theorem readMetadata_bad_magic {τ : Type} (C : BitstreamCursor τ) (W : PGOCtxProfileWriter)
    (Magic : List Nat) (s : τ) (h : Magic ≠ W.ContainerMagic) :
    readMetadata C W Magic s =
      (Except.error (Error.instr instrprof_error.invalid_prof "Invalid magic"), s) := by
  rw [readMetadata, if_pos (Or.inr h)]

/-- C6.  `readMetadata` accepts exactly the supported headers.  On a stream
that starts with a block-info sub-block, which can be skipped, followed by a
metadata sub-block, which can be entered, whose first entry is a Version
record with the one value `v`:

* `readMetadata` succeeds if and only if the magic bytes are the container
  magic and `v ≤ CurrentVersion`;
* when the magic differs it fails with `invalid_prof` ("Invalid magic") and
  the cursor state is the one it was called in; this holds on every cursor and
  in every state, so nothing is read from the cursor before the check;
* when the magic is right and `v > CurrentVersion` it fails with
  `unsupported_version`. -/
theorem readMetadata_accepts_iff {σ : Type} (C : BitstreamCursor σ)
    (W : PGOCtxProfileWriter) (Magic : List Nat)
    (s s1 s2 s3 s4 s5 s6 : σ) (Abbrev v : Nat)
    (h1 : C.advance 0 s = (Except.ok ⟨EntryKind.SubBlock, bitc.BLOCKINFO_BLOCK_ID⟩, s1))
    (h2 : C.SkipBlock s1 = (Except.ok (), s2))
    (h3 : advance C s2 = (Except.ok ⟨EntryKind.SubBlock, ProfileMetadataBlockID⟩, s3))
    (h4 : C.EnterSubBlock ProfileMetadataBlockID s3 = (Except.ok (), s4))
    (h5 : advance C s4 = (Except.ok ⟨EntryKind.Record, Abbrev⟩, s5))
    (h6 : C.readRecord bitc.UNABBREV_RECORD s5 = (Except.ok (Version, [v]), s6)) :
    ((readMetadata C W Magic s).1 = Except.ok () ↔
      Magic = W.ContainerMagic ∧ v ≤ W.CurrentVersion) ∧
    (Magic ≠ W.ContainerMagic →
      readMetadata C W Magic s =
        (Except.error (Error.instr instrprof_error.invalid_prof "Invalid magic"), s)) ∧
    (Magic = W.ContainerMagic → W.CurrentVersion < v →
      ∃ msg, (readMetadata C W Magic s).1 =
        Except.error (Error.instr instrprof_error.unsupported_version msg)) ∧
    (∀ (τ : Type) (C1 : BitstreamCursor τ) (t : τ), Magic ≠ W.ContainerMagic →
      readMetadata C1 W Magic t =
        (Except.error (Error.instr instrprof_error.invalid_prof "Invalid magic"), t)) := by
  have hgood : Magic = W.ContainerMagic →
      readMetadata C W Magic s =
        if v > W.CurrentVersion then
          (Except.error (unsupported ("Version " ++ toString Version ++
            " is higher than supported version " ++ toString W.CurrentVersion)), s6)
        else (Except.ok (), s6) := by
    intro hM
    have hm : ¬ (Magic.length < W.ContainerMagic.length ∨ Magic ≠ W.ContainerMagic) := by
      rw [hM]; simp
    rw [readMetadata, if_neg hm, h1]
    simp only [ne_eq, not_true_eq_false, or_self, if_false, h2, h3, h4, h5, h6,
      List.length_singleton, List.getD_cons_zero, false_or]
  refine ⟨?_, readMetadata_bad_magic C W Magic s, ?_,
    fun τ C1 t h => readMetadata_bad_magic C1 W Magic t h⟩
  · constructor
    · intro h
      by_cases hM : Magic = W.ContainerMagic
      · refine ⟨hM, ?_⟩
        rw [hgood hM] at h
        by_contra hv
        rw [if_pos (by omega)] at h
        cases h
      · rw [readMetadata_bad_magic C W Magic s hM] at h
        cases h
    · rintro ⟨hM, hv⟩
      rw [hgood hM, if_neg (by omega)]
  · intro hM hv
    rw [hgood hM, if_pos hv]
    exact ⟨_, rfl⟩

/-- C6 (witness): the header of the sample container, version 1 with the
writer's magic, is accepted. -/
theorem readMetadata_accepts_iff_witness :
    ((readMetadata tokCursor sampleWriter [67, 84, 88, 80]
        (TokState.start sampleContainer)).1 = Except.ok () ↔
      [67, 84, 88, 80] = sampleWriter.ContainerMagic ∧ 1 ≤ sampleWriter.CurrentVersion) ∧
    (readMetadata tokCursor sampleWriter [67, 84, 88, 80]
        (TokState.start sampleContainer)).1 = Except.ok () :=
  ⟨(readMetadata_accepts_iff tokCursor sampleWriter [67, 84, 88, 80]
      (TokState.start sampleContainer)
      _ _ _ _ _ _ _ 1 rfl rfl rfl rfl rfl rfl).1,
    rfl⟩

/-! ## C7, C8, C9: what the field loop rejects -/

section FieldErrors

variable {σ : Type} (C : BitstreamCursor σ)

/-- The iteration of the field loop that reads a record does to the fields
what `applyRecord` does. -/
theorem readField_record {Kind : Nat} {F : Fields} {s s1 s2 : σ} {Entry : BitstreamEntry}
    {Code : Nat} {Vals : List Nat}
    (hadv : advance C s = (Except.ok Entry, s1)) (hrec : Entry.Kind = EntryKind.Record)
    (hread : C.readRecord bitc.UNABBREV_RECORD s1 = (Except.ok (Code, Vals), s2)) :
    readField C 1 Kind F s =
      match applyRecord Kind F Code Vals with
      | Except.error e => some (Except.error e)
      | Except.ok F1 => some (Except.ok (F1, s2)) := by
  rw [readField, hadv]
  simp only [hrec, ne_eq, not_true_eq_false, if_false]
  rw [hread]

/-- A call of `readProfile` that fails returns no node, whatever the fuel. -/
theorem no_node_of_fails {Kind : Nat} {s0 : σ} {e : Error}
    (h : Returns (fun fuel => readProfile C fuel Kind s0) (Except.error e))
    (fuel : Nat) (r : (Option Nat × PGOCtxProfContext) × σ) :
    readProfile C fuel Kind s0 ≠ some (Except.ok r) := by
  intro hr
  have := returns_unique h (readProfile_returns C hr)
  cases this

/-- C7.  Wrong record arity is a hard failure.  Take any call
`readProfile(Kind)`, on any cursor, whose field loop is at the head of an
iteration with a mandatory field still missing, and let the next entry be a
record that `readRecord` reads with code `Code` and values `Vals`.  If it is
a Guid record whose value count is not 1, a Counters record with 0 values, a
CallsiteIndex record in an InnerNode whose value count is not 1, or a
TotalRootEntryCount record in a RootContext whose value count is not 1, then
`readProfile` fails with the `invalid_prof` error of that case and returns no
node, whatever the fuel. -/
theorem readProfile_wrong_arity_fails (Kind : Nat) (s0 s s1 s2 : σ)
    (recs : List (Nat × List Nat)) (F : Fields)
    (Entry : BitstreamEntry) (Code : Nat) (Vals : List Nat)
    (hpos : InFields C Kind s0 recs F s) (hmissing : GotAllWeNeed Kind F = false)
    (hadv : advance C s = (Except.ok Entry, s1)) (hrec : Entry.Kind = EntryKind.Record)
    (hread : C.readRecord bitc.UNABBREV_RECORD s1 = (Except.ok (Code, Vals), s2))
    (hbad : (Code = Guid ∧ Vals.length ≠ 1) ∨ (Code = Counters ∧ Vals.length = 0) ∨
      (Code = CallsiteIndex ∧ Kind = ContextNodeBlockID ∧ Vals.length ≠ 1) ∨
      (Code = TotalRootEntryCount ∧ Kind = ContextRootBlockID ∧ Vals.length ≠ 1)) :
    Returns (fun fuel => readProfile C fuel Kind s0)
        (Except.error (Error.instr instrprof_error.invalid_prof
          (if Code = Guid then "The GUID record should have exactly one value"
          else if Code = Counters then
            "Empty counters. At least the entry counter (one value) was expected"
          else if Code = CallsiteIndex then "The callee index should have exactly one value"
          else "The root total entry count record should have exactly one value"))) ∧
      ∀ fuel r, readProfile C fuel Kind s0 ≠ some (Except.ok r) := by
  have key : Returns (fun fuel => readProfile C fuel Kind s0)
        (Except.error (Error.instr instrprof_error.invalid_prof
          (if Code = Guid then "The GUID record should have exactly one value"
          else if Code = Counters then
            "Empty counters. At least the entry counter (one value) was expected"
          else if Code = CallsiteIndex then "The callee index should have exactly one value"
          else "The root total entry count record should have exactly one value"))) := by
    refine inFields_fail C hpos hmissing (n := 1) ?_
    rw [readField_record C hadv hrec hread]
    rcases hbad with ⟨rfl, hv⟩ | ⟨rfl, hv⟩ | ⟨rfl, rfl, hv⟩ | ⟨rfl, rfl, hv⟩
    · simp [applyRecord, hv, wrongValue]
    · have : Vals = [] := List.length_eq_zero.mp hv
      subst this
      simp [applyRecord, wrongValue, PGOCtxProfileRecords.Counters,
        PGOCtxProfileRecords.Guid]
    · simp [applyRecord, hv, wrongValue, PGOCtxProfileRecords.Counters,
        PGOCtxProfileRecords.Guid, PGOCtxProfileRecords.CallsiteIndex]
    · simp [applyRecord, hv, wrongValue, PGOCtxProfileRecords.Counters,
        PGOCtxProfileRecords.Guid, PGOCtxProfileRecords.CallsiteIndex,
        PGOCtxProfileRecords.TotalRootEntryCount]
  exact ⟨key, no_node_of_fails C key⟩

/-- C8.  A record where the field table forbids it is a hard failure, whatever
its values.  Take any call `readProfile(Kind)`, on any cursor, whose field loop
is at the head of an iteration with a mandatory field still missing, and let
the next entry be a record with code `Code` and any values `Vals`.  If it is a
CallsiteIndex record and a RootContext or a FlatEntry is decoded, or a
TotalRootEntryCount record and an InnerNode or a FlatEntry is decoded, then
`readProfile` fails with `invalid_prof` and returns no node. -/
theorem readProfile_forbidden_record_fails (Kind : Nat) (s0 s s1 s2 : σ)
    (recs : List (Nat × List Nat)) (F : Fields)
    (Entry : BitstreamEntry) (Code : Nat) (Vals : List Nat)
    (hpos : InFields C Kind s0 recs F s) (hmissing : GotAllWeNeed Kind F = false)
    (hadv : advance C s = (Except.ok Entry, s1)) (hrec : Entry.Kind = EntryKind.Record)
    (hread : C.readRecord bitc.UNABBREV_RECORD s1 = (Except.ok (Code, Vals), s2))
    (hforbidden :
      (Code = CallsiteIndex ∧ (Kind = ContextRootBlockID ∨ Kind = FlatProfileBlockID)) ∨
      (Code = TotalRootEntryCount ∧
        (Kind = ContextNodeBlockID ∨ Kind = FlatProfileBlockID))) :
    Returns (fun fuel => readProfile C fuel Kind s0)
        (Except.error (Error.instr instrprof_error.invalid_prof
          (if Code = CallsiteIndex then "The root context should not have a callee index"
          else "Non-root has a total entry count record"))) ∧
      ∀ fuel r, readProfile C fuel Kind s0 ≠ some (Except.ok r) := by
  have key : Returns (fun fuel => readProfile C fuel Kind s0)
        (Except.error (Error.instr instrprof_error.invalid_prof
          (if Code = CallsiteIndex then "The root context should not have a callee index"
          else "Non-root has a total entry count record"))) := by
    refine inFields_fail C hpos hmissing (n := 1) ?_
    rw [readField_record C hadv hrec hread]
    rcases hforbidden with ⟨rfl, rfl | rfl⟩ | ⟨rfl, rfl | rfl⟩ <;>
      simp [applyRecord, wrongValue, PGOCtxProfileRecords.Counters,
        PGOCtxProfileRecords.Guid, PGOCtxProfileRecords.CallsiteIndex,
        PGOCtxProfileRecords.TotalRootEntryCount, ContextRootBlockID, ContextNodeBlockID,
        FlatProfileBlockID, FlatProfilesSectionBlockID, ContextsSectionBlockID,
        ProfileMetadataBlockID, FIRST_VALID, bitc.FIRST_APPLICATION_BLOCKID]
  exact ⟨key, no_node_of_fails C key⟩

/-- C9.  `readProfile` does not succeed with a mandatory field missing.  Take
any call `readProfile(Kind)`, on any cursor, whose field loop is at the head
of an iteration with a mandatory field still missing.  If the next entry is
an EndBlock or a sub-block (or the entry of kind Error that ends a stream),
and it is not an Unhandled sub-block met while a RootContext is decoded, then
`readProfile` fails with the `invalid_prof` error that records were expected
before nested contexts, and returns no node.  An Unhandled sub-block met while
an InnerNode or a FlatEntry is decoded is such an entry. -/
theorem readProfile_missing_field_fails (Kind : Nat) (s0 s s1 : σ)
    (recs : List (Nat × List Nat)) (F : Fields)
    (Entry : BitstreamEntry)
    (hpos : InFields C Kind s0 recs F s) (hmissing : GotAllWeNeed Kind F = false)
    (hadv : advance C s = (Except.ok Entry, s1))
    (hentry : Entry.Kind = EntryKind.EndBlock ∨ Entry.Kind = EntryKind.SubBlock ∨
      Entry.Kind = EntryKind.Error)
    (hnot : ¬ (Kind = ContextRootBlockID ∧ Entry.Kind = EntryKind.SubBlock ∧
      Entry.ID = UnhandledBlockID)) :
    Returns (fun fuel => readProfile C fuel Kind s0)
        (Except.error (Error.instr instrprof_error.invalid_prof
          "Expected records before encountering more subcontexts")) ∧
      ∀ fuel r, readProfile C fuel Kind s0 ≠ some (Except.ok r) := by
  have key : Returns (fun fuel => readProfile C fuel Kind s0)
        (Except.error (Error.instr instrprof_error.invalid_prof
          "Expected records before encountering more subcontexts")) := by
    refine inFields_fail C hpos hmissing (n := 1) ?_
    rw [readField, hadv]
    have hK : Entry.Kind ≠ EntryKind.Record := by
      rcases hentry with h | h | h <;> rw [h] <;> decide
    simp only [if_pos hK, if_neg hnot]
    rfl
  exact ⟨key, no_node_of_fails C key⟩

end FieldErrors


/-- C7 (witness): an inner node whose Counters record is empty. -/
theorem readProfile_wrong_arity_fails_witness :
    Returns (fun fuel => readProfile tokCursor fuel ContextNodeBlockID
        (TokState.inBlock ContextNodeBlockID
          [Tok.record Guid [9], Tok.record Counters [], Tok.record CallsiteIndex [2],
            Tok.endBlock]))
      (Except.error (Error.instr instrprof_error.invalid_prof
        "Empty counters. At least the entry counter (one value) was expected")) :=
  (readProfile_wrong_arity_fails tokCursor ContextNodeBlockID
    (TokState.inBlock ContextNodeBlockID
      [Tok.record Guid [9], Tok.record Counters [], Tok.record CallsiteIndex [2],
        Tok.endBlock])
    (TokState.start [Tok.record Counters [], Tok.record CallsiteIndex [2], Tok.endBlock])
    _ _ _ { Guid := some 9 } _ Counters []
    ⟨_, tok_enter _ _, FieldsReach.step 1 (FieldsReach.refl _ _) rfl rfl⟩ rfl rfl rfl rfl
    (Or.inr (Or.inl ⟨rfl, rfl⟩))).1

/-- C8 (witness): a flat entry with a TotalRootEntryCount record. -/
theorem readProfile_forbidden_record_fails_witness :
    Returns (fun fuel => readProfile tokCursor fuel FlatProfileBlockID
        (TokState.inBlock FlatProfileBlockID
          [Tok.record Guid [1], Tok.record TotalRootEntryCount [5], Tok.record Counters [3],
            Tok.endBlock]))
      (Except.error (Error.instr instrprof_error.invalid_prof
        "Non-root has a total entry count record")) :=
  (readProfile_forbidden_record_fails tokCursor FlatProfileBlockID
    (TokState.inBlock FlatProfileBlockID
      [Tok.record Guid [1], Tok.record TotalRootEntryCount [5], Tok.record Counters [3],
        Tok.endBlock])
    (TokState.start [Tok.record TotalRootEntryCount [5], Tok.record Counters [3],
      Tok.endBlock])
    _ _ _ { Guid := some 1 } _ TotalRootEntryCount [5]
    ⟨_, tok_enter _ _, FieldsReach.step 1 (FieldsReach.refl _ _) rfl rfl⟩ rfl rfl rfl rfl
    (Or.inr ⟨rfl, Or.inr rfl⟩)).1

/-- C9 (witness): an inner node with an Unhandled sub-block after its Guid
record. -/
theorem readProfile_missing_field_fails_witness :
    Returns (fun fuel => readProfile tokCursor fuel ContextNodeBlockID
        (TokState.inBlock ContextNodeBlockID
          [Tok.record Guid [9], Tok.subBlock UnhandledBlockID true, Tok.endBlock,
            Tok.record Counters [5], Tok.record CallsiteIndex [2], Tok.endBlock]))
      (Except.error (Error.instr instrprof_error.invalid_prof
        "Expected records before encountering more subcontexts")) :=
  (readProfile_missing_field_fails tokCursor ContextNodeBlockID
    (TokState.inBlock ContextNodeBlockID
      [Tok.record Guid [9], Tok.subBlock UnhandledBlockID true, Tok.endBlock,
        Tok.record Counters [5], Tok.record CallsiteIndex [2], Tok.endBlock])
    (TokState.start [Tok.subBlock UnhandledBlockID true, Tok.endBlock,
      Tok.record Counters [5], Tok.record CallsiteIndex [2], Tok.endBlock])
    _ _ { Guid := some 9 } _
    ⟨_, tok_enter _ _, FieldsReach.step 1 (FieldsReach.refl _ _) rfl rfl⟩ rfl rfl
    (Or.inr (Or.inl rfl)) (by decide)).1

/-! ## C10: the call-site index `readProfile` returns -/

section CallsiteIndexReturned

variable {σ : Type} (C : BitstreamCursor σ)

/-- A first iteration before a run of the field loop. -/
theorem fieldsReach_cons {Kind n : Nat} {F F1 F2 : Fields} {s s1 s2 : σ}
    {recs : List (Nat × List Nat)} (hG : GotAllWeNeed Kind F = false)
    (hstep : readField C n Kind F s = some (Except.ok (F1, s1)))
    (h : FieldsReach C Kind F1 s1 recs F2 s2) :
    FieldsReach C Kind F s (recs ++ (recordAt C s).toList) F2 s2 := by
  induction h with
  | refl =>
    have := FieldsReach.step n (@FieldsReach.refl _ C Kind F s) hG hstep
    simpa using this
  | step m _ hG' hstep' ih =>
    have := FieldsReach.step m (ih hstep) hG' hstep'
    simpa [List.append_assoc] using this

/-- A field loop that returns has come to the fields it returns, and nothing
is missing in them. -/
theorem readFields_reach {Kind : Nat} (n : Nat) {F F1 : Fields} {s s1 : σ}
    (h : readFields C n Kind F s = some (Except.ok (F1, s1))) :
    ∃ recs, FieldsReach C Kind F s recs F1 s1 ∧ GotAllWeNeed Kind F1 = true := by
  induction n generalizing F s with
  | zero => simp [readFields] at h
  | succ n ih =>
    rw [readFields] at h
    by_cases hG : GotAllWeNeed Kind F = true
    · rw [if_pos hG] at h
      cases h
      exact ⟨[], FieldsReach.refl _ _, hG⟩
    · rw [if_neg hG] at h
      cases hR : readField C n Kind F s with
      | none => rw [hR] at h; cases h
      | some x =>
        rw [hR] at h
        cases x with
        | error e => cases h
        | ok v =>
          obtain ⟨Fa, sa⟩ := v
          obtain ⟨recs, hreach, hgot⟩ := ih h
          exact ⟨_, fieldsReach_cons C (by simpa using hG) hR hreach, hgot⟩

/-- The callee loop returns the index it was given. -/
theorem readCallees_index (n : Nat) {I I1 : Option Nat} {Ret Ctx : PGOCtxProfContext}
    {s s1 : σ} (h : readCallees C n I Ret s = some (Except.ok ((I1, Ctx), s1))) :
    I1 = I := by
  induction n generalizing Ret s with
  | zero => simp [readCallees] at h
  | succ n ih =>
    rw [readCallees] at h
    rcases hC : canEnterBlockWithID C ContextNodeBlockID s with ⟨_ | _, sa⟩
    · rw [hC] at h
      cases h
      rfl
    · rw [hC] at h
      simp only at h
      cases hP : readProfile C n ContextNodeBlockID sa with
      | none => rw [hP] at h; cases h
      | some x =>
        rw [hP] at h
        cases x with
        | error e => cases h
        | ok v =>
          simp only at h
          cases hI : insertCallee Ret (v.1.1.getD 0) v.1.2 with
          | error e => rw [hI] at h; cases h
          | ok Ret1 => rw [hI] at h; exact ih h

/-- What a record does to the call-site index among the fields. -/
theorem applyRecord_index {Kind : Nat} {F F1 : Fields} {Code : Nat} {Vals : List Nat}
    (h : applyRecord Kind F Code Vals = Except.ok F1) :
    (Code = CallsiteIndex ∧ Kind = ContextNodeBlockID ∧
        ∃ v, Vals = [v] ∧ F1.CallsiteIndex = some (v % 2 ^ 32)) ∨
      (Code ≠ CallsiteIndex ∧ F1.CallsiteIndex = F.CallsiteIndex) := by
  unfold applyRecord at h
  simp only at h
  split_ifs at h with h1 h2 h3 h4 h5 h6 h7 h8 h9 h10 <;> cases h
  · exact Or.inr ⟨by rw [h1]; decide, rfl⟩
  · exact Or.inr ⟨by rw [h3]; decide, rfl⟩
  · refine Or.inl ⟨h5, by simpa using h6, ?_⟩
    have hlen : Vals.length = 1 := by simpa using h7
    obtain ⟨v, rfl⟩ := List.length_eq_one.mp hlen
    exact ⟨v, rfl, rfl⟩
  · exact Or.inr ⟨h5, rfl⟩
  · exact Or.inr ⟨h5, rfl⟩

/-- What a successful iteration of the field loop does: either it reads no
record and leaves the call-site index alone, or it applies the record it
reads. -/
theorem readField_cases {Kind n : Nat} {F F1 : Fields} {s s1 : σ}
    (h : readField C n Kind F s = some (Except.ok (F1, s1))) :
    (recordAt C s = none ∧ F1.CallsiteIndex = F.CallsiteIndex) ∨
      ∃ Code Vals, recordAt C s = some (Code, Vals) ∧
        applyRecord Kind F Code Vals = Except.ok F1 := by
  cases n with
  | zero => simp [readField] at h
  | succ n =>
    rw [readField] at h
    unfold recordAt
    rcases hA : advance C s with ⟨_ | Entry, sa⟩
    · rw [hA] at h; cases h
    · rw [hA] at h
      simp only at h ⊢
      by_cases hK : Entry.Kind ≠ EntryKind.Record
      · rw [if_pos hK] at h
        rw [if_neg hK]
        refine Or.inl ⟨rfl, ?_⟩
        split_ifs at h
        · rcases hE : enterBlockWithID C UnhandledBlockID sa with ⟨_ | _, sb⟩
          · rw [hE] at h; cases h
          · rw [hE] at h
            simp only at h
            cases hL : loadFlatProfileList C n [] sb with
            | none => rw [hL] at h; cases h
            | some x =>
              rw [hL] at h
              cases x with
              | error e => cases h
              | ok v => cases h; rfl
        · cases h
      · rw [if_neg hK] at h
        have hK' : Entry.Kind = EntryKind.Record := by simpa using hK
        rw [if_pos hK']
        rcases hR : C.readRecord bitc.UNABBREV_RECORD sa with ⟨_ | ⟨Code, Vals⟩, sb⟩
        · rw [hR] at h; cases h
        · rw [hR] at h
          simp only at h ⊢
          refine Or.inr ⟨Code, Vals, rfl, ?_⟩
          cases hA' : applyRecord Kind F Code Vals with
          | error e => rw [hA'] at h; cases h
          | ok F2 => rw [hA'] at h; cases h; rfl

/-- The call-site index among the fields is the value, reduced modulo
`2 ^ 32`, of the latest CallsiteIndex record the field loop has read. -/
theorem fieldsReach_index {Kind : Nat} {F F1 : Fields} {s s1 : σ}
    {recs : List (Nat × List Nat)} (h : FieldsReach C Kind F s recs F1 s1)
    (h0 : F.CallsiteIndex = none) :
    (F1.CallsiteIndex = none ∧
        recs.find? (fun r => decide (r.1 = CallsiteIndex)) = none) ∨
      ∃ v, recs.find? (fun r => decide (r.1 = CallsiteIndex)) = some (CallsiteIndex, [v]) ∧
        F1.CallsiteIndex = some (v % 2 ^ 32) ∧ Kind = ContextNodeBlockID := by
  induction h with
  | refl => exact Or.inl ⟨h0, rfl⟩
  | step n _ hG hstep ih =>
    rcases readField_cases C hstep with ⟨hnone, hsame⟩ | ⟨Code, Vals, hsome, hApp⟩
    · rw [hnone, hsame]
      simpa using ih
    · rw [hsome]
      rcases applyRecord_index hApp with ⟨rfl, hKind, v, rfl, hv⟩ | ⟨hne, hsame⟩
      · exact Or.inr ⟨v, by simp, hv, hKind⟩
      · rw [hsame]
        simpa [List.find?, hne] using ih

/-- C10 (amended).  `readProfile` returns a call-site index for InnerNode
decodes only.  Whenever `readProfile(Kind)` returns the index `I` with a node,
on any cursor:

* if an InnerNode was decoded, the field loop has come, with nothing missing,
  to fields whose latest CallsiteIndex record among the records read carries
  one value `v`, and `I` is present and equal to `v` reduced modulo `2 ^ 32`
  (the index is a 32-bit integer, the record value a 64-bit one); so the
  dereference `*SC->first` in the callee loop is applied to a present value;
* if a RootContext or a FlatEntry was decoded, `I` is absent. -/
theorem readProfile_index_returned (Kind : Nat) (s0 s1 : σ) (fuel : Nat) (I : Option Nat)
    (Ctx : PGOCtxProfContext)
    (h : readProfile C fuel Kind s0 = some (Except.ok ((I, Ctx), s1))) :
    (Kind = ContextNodeBlockID →
      ∃ recs F s v, InFields C Kind s0 recs F s ∧ GotAllWeNeed Kind F = true ∧
        recs.find? (fun r => decide (r.1 = CallsiteIndex)) = some (CallsiteIndex, [v]) ∧
        I = some (v % 2 ^ 32)) ∧
    (Kind = ContextRootBlockID ∨ Kind = FlatProfileBlockID → I = none) := by
  cases fuel with
  | zero => simp [readProfile] at h
  | succ n =>
    rw [readProfile] at h
    rcases hE : enterBlockWithID C Kind s0 with ⟨_ | _, sa⟩
    · rw [hE] at h; cases h
    · rw [hE] at h
      simp only at h
      cases hF : readFields C n Kind {} sa with
      | none => rw [hF] at h; cases h
      | some x =>
        rw [hF] at h
        cases x with
        | error e => cases h
        | ok v =>
          obtain ⟨F, sb⟩ := v
          simp only at h
          have hI := readCallees_index C n h
          obtain ⟨recs, hreach, hgot⟩ := readFields_reach C n hF
          have hinv := fieldsReach_index C hreach rfl
          constructor
          · intro hKind
            rcases hinv with ⟨hnone, _⟩ | ⟨v, hfind, hv, _⟩
            · subst hKind
              simp [GotAllWeNeed, hnone] at hgot
            · exact ⟨recs, F, sb, v, ⟨sa, hE, hreach⟩, hgot, hfind, by rw [hI, hv]⟩
          · intro hKind
            rcases hinv with ⟨hnone, _⟩ | ⟨v, _, _, hNode⟩
            · rw [hI, hnone]
            · rcases hKind with hk | hk <;> rw [hk] at hNode <;> exact absurd hNode (by decide)

end CallsiteIndexReturned

/-- C10 (counterexample).  An inner node whose CallsiteIndex record carries
the 64-bit value `2 ^ 32 + 2 = 4294967298` is decoded, and the index returned
is 2, not the record value. -/
theorem readProfile_index_truncated :
    readProfile tokCursor 5 ContextNodeBlockID
        (TokState.inBlock ContextNodeBlockID
          [Tok.record Guid [9], Tok.record Counters [5],
            Tok.record CallsiteIndex [4294967298], Tok.endBlock]) =
      some (Except.ok ((some 2, PGOCtxProfContext.mk 9 [5] none none []),
        TokState.start [])) := by
  rfl

/-- C10 (witness): an inner node with two CallsiteIndex records; the index
returned, 2, is the value of the later record modulo `2 ^ 32`. -/
theorem readProfile_index_returned_witness :
    ∃ recs F s v,
      InFields tokCursor ContextNodeBlockID
        (TokState.inBlock ContextNodeBlockID
          [Tok.record CallsiteIndex [7], Tok.record Guid [9],
            Tok.record CallsiteIndex [4294967298], Tok.record Counters [5], Tok.endBlock])
        recs F s ∧
      GotAllWeNeed ContextNodeBlockID F = true ∧
      recs.find? (fun r => decide (r.1 = CallsiteIndex)) = some (CallsiteIndex, [v]) ∧
      some 2 = some (v % 2 ^ 32) :=
  (readProfile_index_returned tokCursor ContextNodeBlockID
    (TokState.inBlock ContextNodeBlockID
      [Tok.record CallsiteIndex [7], Tok.record Guid [9],
        Tok.record CallsiteIndex [4294967298], Tok.record Counters [5], Tok.endBlock])
    (TokState.start []) 6 (some 2) (PGOCtxProfContext.mk 9 [5] none none []) rfl).1 rfl

/-! ## C11: top-level blocks -/

/-- C11 (counterexample).  In this container a sub-block with the id 100
follows the metadata.  The id is outside `FIRST_VALID .. LAST_VALID`, so
`tryGetNextKnownBlockID` answers that no known block follows, the loop of
`loadProfiles` ends, and `loadProfiles` returns the empty profile instead of
failing with "Unexpected section"; the contexts section behind the block is
not read. -/
theorem loadProfiles_unknown_block_accepted :
    (advance tokCursor (TokState.start (unknownBlockContainer.drop 4))).1 =
      Except.ok ⟨EntryKind.SubBlock, 100⟩ ∧
    loadProfiles tokCursor sampleWriter [67, 84, 88, 80] 1
        (TokState.start unknownBlockContainer) =
      some (Except.ok ({ Contexts := [], FlatProfiles := [] },
        TokState.inBlock 100 (unknownBlockContainer.drop 5))) :=
  ⟨rfl, rfl⟩

section TopLevel

variable {σ : Type} (C : BitstreamCursor σ)

/-- C11 (amended).  Let the loop of `loadProfiles`, on any cursor, be at the
head of one of its two iterations with the profile `Ret` read so far.

* If the next entry is a sub-block whose id lies in `FIRST_VALID ..
  LAST_VALID` and is neither ContextsSection nor FlatProfilesSection,
  `loadProfiles` fails with the `invalid_prof` error "Unexpected section".
* If the next entry is a sub-block whose id lies outside `FIRST_VALID ..
  LAST_VALID`, the loop ends and `loadProfiles` succeeds with `Ret`.
* If the next entry is no sub-block, or `advance` reports an error, the loop
  ends and `loadProfiles` succeeds with `Ret`; at the first iteration `Ret`
  has no contexts and no flat profiles. -/
theorem loadProfiles_top_level_block (W : PGOCtxProfileWriter) (Magic : List Nat)
    (s0 s : σ) (k : Nat) (Ret : PGOCtxProfile)
    (hpos : InSections C W Magic s0 (k + 1) Ret s) :
    (∀ Entry s1, advance C s = (Except.ok Entry, s1) → Entry.Kind = EntryKind.SubBlock →
      (FIRST_VALID ≤ Entry.ID → Entry.ID ≤ LAST_VALID →
        Entry.ID ≠ ContextsSectionBlockID → Entry.ID ≠ FlatProfilesSectionBlockID →
        Returns (fun fuel => loadProfiles C W Magic fuel s0)
          (Except.error (Error.instr instrprof_error.invalid_prof "Unexpected section"))) ∧
      (Entry.ID < FIRST_VALID ∨ LAST_VALID < Entry.ID →
        Returns (fun fuel => loadProfiles C W Magic fuel s0) (Except.ok (Ret, s1)))) ∧
    (∀ Entry s1, advance C s = (Except.ok Entry, s1) → Entry.Kind ≠ EntryKind.SubBlock →
      Returns (fun fuel => loadProfiles C W Magic fuel s0) (Except.ok (Ret, s1))) ∧
    (∀ e s1, advance C s = (Except.error e, s1) →
      Returns (fun fuel => loadProfiles C W Magic fuel s0) (Except.ok (Ret, s1))) ∧
    (k + 1 = 2 → Ret = { Contexts := [], FlatProfiles := [] }) := by
  have stop : ∀ s1, tryGetNextKnownBlockID C s = (none, s1) →
      Returns (fun fuel => loadProfiles C W Magic fuel s0) (Except.ok (Ret, s1)) := by
    intro s1 h
    refine (inSections_returns_iff C hpos _).mpr ⟨0, fun m _ => ?_⟩
    dsimp only
    rw [loadSections, h]
  refine ⟨?_, ?_, ?_, ?_⟩
  · intro Entry s1 hA hK
    constructor
    · intro h1 h2 h3 h4
      refine (inSections_returns_iff C hpos _).mpr ⟨0, fun m _ => ?_⟩
      dsimp only
      have hT : tryGetNextKnownBlockID C s = (some Entry.ID, s1) := by
        unfold tryGetNextKnownBlockID
        rw [hA]
        have : ¬ (FIRST_VALID > Entry.ID ∨ LAST_VALID < Entry.ID) := by omega
        simp only [hK, ne_eq, not_true_eq_false, if_false, this]
      rw [loadSections, hT]
      simp only [if_neg h3, if_neg h4]
      rfl
    · intro h
      apply stop
      unfold tryGetNextKnownBlockID
      rw [hA]
      have : FIRST_VALID > Entry.ID ∨ LAST_VALID < Entry.ID := by omega
      simp only [hK, ne_eq, not_true_eq_false, if_false, this, if_true]
  · intro Entry s1 hA hK
    apply stop
    unfold tryGetNextKnownBlockID
    rw [hA]
    simp only [ne_eq, hK, not_false_eq_true, if_true]
  · intro e s1 hA
    apply stop
    unfold tryGetNextKnownBlockID
    rw [hA]
  · intro hk
    obtain ⟨s1, _, hR⟩ := hpos
    have : ∀ {k0 k1 : Nat} {R0 R1 : PGOCtxProfile} {t0 t1 : σ},
        SectionsReach C k0 R0 t0 k1 R1 t1 → k1 ≤ k0 ∧ (k1 = k0 → R1 = R0) := by
      intro k0 k1 R0 R1 t0 t1 h
      induction h with
      | refl => exact ⟨le_refl _, fun _ => rfl⟩
      | contexts n _ _ _ ih => exact ⟨by omega, fun h => by omega⟩
      | flat n _ _ _ ih => exact ⟨by omega, fun h => by omega⟩
    exact (this hR).2 hk

end TopLevel

/-- C11 (witness): a root block that follows the metadata directly, outside a
contexts section, is an unexpected section. -/
theorem loadProfiles_top_level_block_witness :
    Returns (fun fuel => loadProfiles tokCursor sampleWriter [67, 84, 88, 80] fuel
        (TokState.start misplacedRootContainer))
      (Except.error (Error.instr instrprof_error.invalid_prof "Unexpected section")) :=
  ((loadProfiles_top_level_block tokCursor sampleWriter [67, 84, 88, 80]
    (TokState.start misplacedRootContainer)
    (TokState.start (misplacedRootContainer.drop 4)) 1
    { Contexts := [], FlatProfiles := [] }
    ⟨_, rfl, SectionsReach.refl _ _ _⟩).1 _ _ rfl rfl).1
    (by decide) (by decide) (by decide) (by decide)

/-! ## C12: duplicate roots and duplicate flat entries -/

section Duplicates

variable {σ : Type} (C : BitstreamCursor σ)

theorem rootsSeen_reach {P P1 : CtxProfContextualProfiles} {s s1 : σ}
    {seen : List PGOCtxProfContext} (h : RootsSeen C P s seen P1 s1) :
    RootsReach C P s P1 s1 ∧ ∀ e ∈ seen, mapFind e.guid P1 ≠ none := by
  induction h with
  | refl => exact ⟨RootsReach.refl _ _, fun e he => by cases he⟩
  | step n _ hC hP hI ih =>
    refine ⟨RootsReach.step n ih.1 hC hP hI, fun e he => ?_⟩
    rw [mapInsert_inserted, Option.isNone_iff_eq_none] at hI
    rw [mapFind_mapInsert _ _ _ _ hI]
    split
    · simp
    · rcases List.mem_cons.mp he with h | h
      · subst h
        contradiction
      · exact ih.2 e h

theorem flatListSeen_reach {P P1 : CtxProfFlatProfile} {s s1 : σ}
    {seen : List PGOCtxProfContext} (h : FlatListSeen C P s seen P1 s1) :
    FlatListReach C P s P1 s1 ∧ ∀ e ∈ seen, mapFind e.guid P1 ≠ none := by
  induction h with
  | refl => exact ⟨FlatListReach.refl _ _, fun e he => by cases he⟩
  | step n _ hC hP hI ih =>
    refine ⟨FlatListReach.step n ih.1 hC hP hI, fun e he => ?_⟩
    rw [mapInsert_inserted, Option.isNone_iff_eq_none] at hI
    rw [mapFind_mapInsert _ _ _ _ hI]
    split
    · simp
    · rcases List.mem_cons.mp he with h | h
      · subst h
        contradiction
      · exact ih.2 e h

/-- C12.  Guids are unique per top-level collection, on any cursor.

Roots: let `loadContexts` have entered the contexts section and let its loop,
having decoded the roots `seen`, decode one more root block whose guid is the
guid of a root in `seen`.  Then `loadContexts` fails with the `invalid_prof`
error "Duplicate roots" and returns no roots, whatever the fuel.

Flat entries: let the loop of a call of `loadFlatProfileList` (the call for
the flat-profiles section, or the call for the Unhandled block of a root),
having decoded the entries `seenF`, decode one more FlatEntry block whose guid
is the guid of an entry in `seenF`.  Then `loadFlatProfileList` fails with the
`invalid_prof` error "Duplicate flat profile entries" and returns no flat
profile, whatever the fuel; so does `loadFlatProfiles` when the list is that
of a flat-profiles section. -/
theorem loadContexts_duplicate_guid :
    (∀ (s0 s s1 s2 s3 : σ) (P P1 : CtxProfContextualProfiles)
      (seen : List PGOCtxProfContext) (E : Option Nat × PGOCtxProfContext) (n : Nat),
      enterBlockWithID C ContextsSectionBlockID s0 = (Except.ok (), s) →
      RootsSeen C P s seen P1 s1 →
      canEnterBlockWithID C ContextRootBlockID s1 = (true, s2) →
      readProfile C n ContextRootBlockID s2 = some (Except.ok (E, s3)) →
      (∃ e ∈ seen, e.guid = E.2.guid) →
      Returns (fun fuel => loadContexts C fuel P s0)
          (Except.error (Error.instr instrprof_error.invalid_prof "Duplicate roots")) ∧
        ∀ fuel r, loadContexts C fuel P s0 ≠ some (Except.ok r)) ∧
    (∀ (t t1 t2 t3 : σ) (Q Q1 : CtxProfFlatProfile)
      (seenF : List PGOCtxProfContext) (EF : Option Nat × PGOCtxProfContext) (nF : Nat),
      FlatListSeen C Q t seenF Q1 t1 →
      canEnterBlockWithID C FlatProfileBlockID t1 = (true, t2) →
      readProfile C nF FlatProfileBlockID t2 = some (Except.ok (EF, t3)) →
      (∃ e ∈ seenF, e.guid = EF.2.guid) →
      (Returns (fun fuel => loadFlatProfileList C fuel Q t)
          (Except.error (Error.instr instrprof_error.invalid_prof
            "Duplicate flat profile entries")) ∧
        ∀ fuel r, loadFlatProfileList C fuel Q t ≠ some (Except.ok r)) ∧
      (∀ t0, enterBlockWithID C FlatProfilesSectionBlockID t0 = (Except.ok (), t) →
        Returns (fun fuel => loadFlatProfiles C fuel Q t0)
          (Except.error (Error.instr instrprof_error.invalid_prof
            "Duplicate flat profile entries")) ∧
        ∀ fuel r, loadFlatProfiles C fuel Q t0 ≠ some (Except.ok r))) := by
  constructor
  · intro s0 s s1 s2 s3 P P1 seen E n henter hpos hcan hroot hdup
    have hR : Returns (fun fuel => loadContextRoots C fuel P s)
        (Except.error (Error.instr instrprof_error.invalid_prof "Duplicate roots")) := by
      obtain ⟨hreach, hinv⟩ := rootsSeen_reach C hpos
      refine (rootsReach_returns_iff C hreach _).mpr ⟨n + 1, fun m hm => ?_⟩
      obtain ⟨k, rfl⟩ : ∃ k, m = k + 1 := ⟨m - 1, by omega⟩
      dsimp only
      rw [loadContextRoots, hcan]
      simp only
      rw [readProfile_mono C (by omega) hroot]
      simp only
      obtain ⟨e, he, hg⟩ := hdup
      have h1 := hinv e he
      rw [hg] at h1
      have h2 : (mapInsert E.2.guid E.2 P1).2 = false := by
        rw [mapInsert_inserted]
        cases h : mapFind E.2.guid P1
        · exact absurd h h1
        · rfl
      rw [h2]
      rfl
    have hC : Returns (fun fuel => loadContexts C fuel P s0)
        (Except.error (Error.instr instrprof_error.invalid_prof "Duplicate roots")) := by
      obtain ⟨N, hN⟩ := hR
      refine ⟨N, fun m hm => ?_⟩
      dsimp only at hN ⊢
      rw [loadContexts, henter]
      exact hN m hm
    refine ⟨hC, fun fuel r hr => ?_⟩
    have := returns_unique hC ⟨fuel, fun m hm => loadContexts_mono C hm hr⟩
    cases this
  · intro t t1 t2 t3 Q Q1 seenF EF nF hposF hcanF hentry hdupF
    have hF : Returns (fun fuel => loadFlatProfileList C fuel Q t)
        (Except.error (Error.instr instrprof_error.invalid_prof
          "Duplicate flat profile entries")) := by
      obtain ⟨hreach, hinv⟩ := flatListSeen_reach C hposF
      refine (flatListReach_returns_iff C hreach _).mpr ⟨nF + 1, fun m hm => ?_⟩
      obtain ⟨k, rfl⟩ : ∃ k, m = k + 1 := ⟨m - 1, by omega⟩
      dsimp only
      rw [loadFlatProfileList, hcanF]
      simp only
      rw [readProfile_mono C (by omega) hentry]
      simp only
      obtain ⟨e, he, hg⟩ := hdupF
      have h1 := hinv e he
      rw [hg] at h1
      have h2 : (mapInsert EF.2.guid EF.2.counters Q1).2 = false := by
        rw [mapInsert_inserted]
        cases h : mapFind EF.2.guid Q1
        · exact absurd h h1
        · rfl
      rw [h2]
      rfl
    refine ⟨⟨hF, fun fuel r hr => ?_⟩, fun t0 ht0 => ?_⟩
    · have := returns_unique hF ⟨fuel, fun m hm => loadFlatProfileList_mono C hm hr⟩
      cases this
    · have hS : Returns (fun fuel => loadFlatProfiles C fuel Q t0)
          (Except.error (Error.instr instrprof_error.invalid_prof
            "Duplicate flat profile entries")) := by
        obtain ⟨N, hN⟩ := hF
        refine ⟨N, fun m hm => ?_⟩
        dsimp only at hN ⊢
        rw [loadFlatProfiles, ht0]
        exact hN m hm
      refine ⟨hS, fun fuel r hr => ?_⟩
      have := returns_unique hS ⟨fuel, fun m hm => loadFlatProfiles_mono C hm hr⟩
      cases this

end Duplicates

/-- C12 (witness): a contexts section with two roots of guid 7, and a list of
flat entries with two entries of guid 4. -/
theorem loadContexts_duplicate_guid_witness :
    Returns (fun fuel => loadContexts tokCursor fuel []
        (TokState.inBlock ContextsSectionBlockID (duplicateRootsSection.drop 1)))
      (Except.error (Error.instr instrprof_error.invalid_prof "Duplicate roots")) ∧
    Returns (fun fuel => loadFlatProfileList tokCursor fuel []
        (TokState.start duplicateFlatEntries))
      (Except.error (Error.instr instrprof_error.invalid_prof
        "Duplicate flat profile entries")) := by
  have h1 : RootsSeen tokCursor [] (TokState.start (duplicateRootsSection.drop 1))
      [PGOCtxProfContext.mk 7 [100] (some 100) (some []) []]
      [(7, PGOCtxProfContext.mk 7 [100] (some 100) (some []) [])]
      (TokState.start (duplicateRootsSection.drop 8)) :=
    @RootsSeen.step _ tokCursor [] [] _ _
      (TokState.inBlock ContextRootBlockID (duplicateRootsSection.drop 2))
      (TokState.start (duplicateRootsSection.drop 8)) []
      (none, PGOCtxProfContext.mk 7 [100] (some 100) (some []) []) 8
      (RootsSeen.refl _ _) rfl rfl rfl
  have h2 : FlatListSeen tokCursor [] (TokState.start duplicateFlatEntries)
      [PGOCtxProfContext.mk 4 [8] none none []] [(4, [8])]
      (TokState.start (duplicateFlatEntries.drop 4)) :=
    @FlatListSeen.step _ tokCursor [] [] _ _
      (TokState.inBlock FlatProfileBlockID (duplicateFlatEntries.drop 1))
      (TokState.start (duplicateFlatEntries.drop 4)) []
      (none, PGOCtxProfContext.mk 4 [8] none none []) 8
      (FlatListSeen.refl _ _) rfl rfl rfl
  exact ⟨((loadContexts_duplicate_guid tokCursor).1
      (TokState.inBlock ContextsSectionBlockID (duplicateRootsSection.drop 1))
      _ _ _ _ [] _ _ _ 8 rfl h1 rfl rfl ⟨_, List.mem_singleton.mpr rfl, rfl⟩).1,
    ((loadContexts_duplicate_guid tokCursor).2
      _ _ _ _ [] _ _ _ 8 h2 rfl rfl ⟨_, List.mem_singleton.mpr rfl, rfl⟩).1.1⟩

/-! ## C13: the order of the records -/

/-- On the cursor over a sequence of entries, an iteration of the field loop
at a record does to the fields what `applyRecord` does. -/
theorem tok_readField_record (f Kind : Nat) (F : Fields) (Code : Nat) (Vals : List Nat)
    (r : List Tok) :
    readField tokCursor (f + 1) Kind F ⟨none, Tok.record Code Vals :: r⟩ =
      match applyRecord Kind F Code Vals with
      | Except.error e => some (Except.error e)
      | Except.ok F1 => some (Except.ok (F1, ⟨none, r⟩)) := by
  rw [readField]
  rfl

/-- The field loop reads records that it reads without error one by one. -/
theorem readFields_records (Kind : Nat) (recs : List (Nat × List Nat)) :
    ∀ (F F1 : Fields), applyRecords Kind F recs = some F1 →
      ∀ (f : Nat) (rest : List Tok),
        readFields tokCursor (f + recs.length) Kind F ⟨none, recordToks recs ++ rest⟩ =
          readFields tokCursor f Kind F1 ⟨none, rest⟩ := by
  induction recs with
  | nil =>
    intro F F1 h f rest
    simp only [applyRecords, Option.some.injEq] at h
    subst h
    rfl
  | cons r recs ih =>
    intro F F1 h f rest
    rw [applyRecords] at h
    cases hG : GotAllWeNeed Kind F with
    | true => simp [hG] at h
    | false =>
      simp only [hG, Bool.false_eq_true, if_false] at h
      cases hA : applyRecord Kind F r.1 r.2 with
      | error e => simp [hA] at h
      | ok F2 =>
        simp only [hA] at h
        have hlen : f + (r :: recs).length = (f + recs.length) + 1 := by
          simp only [List.length_cons]
          omega
        rw [hlen, readFields]
        simp only [hG, Bool.false_eq_true, if_false]
        cases hfn : f + recs.length with
        | zero =>
          have hf : f = 0 := by omega
          have hr : recs = [] := List.length_eq_zero.mp (by omega)
          subst hf hr
          simp only [applyRecords, Option.some.injEq] at h
          rw [readField, readFields]
        | succ j =>
          have : recordToks (r :: recs) ++ rest =
              Tok.record r.1 r.2 :: (recordToks recs ++ rest) := rfl
          rw [this, tok_readField_record, hA]
          simp only
          rw [← hfn]
          exact ih F2 F1 h f rest

/-- With no more fuel than records to read, the field loop gives no result. -/
theorem readFields_records_none (Kind : Nat) (recs : List (Nat × List Nat))
    (F F1 : Fields) (h : applyRecords Kind F recs = some F1) (m : Nat)
    (hm : m ≤ recs.length) (rest : List Tok) :
    readFields tokCursor m Kind F ⟨none, recordToks recs ++ rest⟩ = none := by
  cases hr : readFields tokCursor m Kind F ⟨none, recordToks recs ++ rest⟩ with
  | none => rfl
  | some r =>
    have h1 := readFields_mono tokCursor hm hr
    have h2 := readFields_records Kind recs F F1 h 0 rest
    rw [Nat.zero_add] at h2
    rw [h2, readFields] at h1
    cases h1

/-- Any ordering of the mandatory records is read to the same fields. -/
theorem applyRecords_mandatory (Kind g c : Nat) (cs : List Nat) (i t : Nat)
    (l : List (Nat × List Nat)) (h : l.Perm (mandatoryRecords Kind g c cs i t)) :
    applyRecords Kind {} l = some
      { Guid := some g, Counters := some (c :: cs),
        CallsiteIndex := if Kind = ContextNodeBlockID then some (i % 2 ^ 32) else none,
        TotalEntryCount := if Kind = ContextRootBlockID then some t else none,
        Unhandled := none } := by
  rw [← List.mem_permutations'] at h
  by_cases hN : Kind = ContextNodeBlockID
  · subst hN
    simp [mandatoryRecords, List.permutations', List.permutations'Aux,
      ContextNodeBlockID, ContextRootBlockID] at h
    rcases h with h | h | h | h | h | h <;> subst h <;> rfl
  · by_cases hR : Kind = ContextRootBlockID
    · subst hR
      simp [mandatoryRecords, List.permutations', List.permutations'Aux,
        ContextNodeBlockID, ContextRootBlockID] at h
      rcases h with h | h | h | h | h | h <;> subst h <;> rfl
    · simp [mandatoryRecords, List.permutations', List.permutations'Aux, hN, hR] at h
      rcases h with h | h <;> subst h <;>
        simp [applyRecords, applyRecord, GotAllWeNeed, hN, hR, PGOCtxProfileRecords.Guid,
          PGOCtxProfileRecords.Counters, PGOCtxProfileRecords.CallsiteIndex,
          PGOCtxProfileRecords.TotalRootEntryCount]

/-- C13.  Record order within a context block is not fixed.  On the cursor
over a sequence of entries, for every block kind `Kind`, let `recs1` and
`recs2` be two orderings of the mandatory records of that kind (the Guid
record with one value, the Counters record with at least one value, for an
inner node the CallsiteIndex record with one value, for a root the
TotalRootEntryCount record with one value), followed by the same entries
`rest`.  Then `readProfile(Kind)` gives the same result on both, with every
amount of fuel: the same error, or the same call-site index, node and cursor
state. -/
theorem readProfile_record_order (Kind g c : Nat) (cs : List Nat) (i t : Nat)
    (recs1 recs2 : List (Nat × List Nat)) (rest : List Tok) (fuel : Nat)
    (h1 : recs1.Perm (mandatoryRecords Kind g c cs i t))
    (h2 : recs2.Perm (mandatoryRecords Kind g c cs i t)) :
    readProfile tokCursor fuel Kind (TokState.inBlock Kind (recordToks recs1 ++ rest)) =
      readProfile tokCursor fuel Kind
        (TokState.inBlock Kind (recordToks recs2 ++ rest)) := by
  have hlen : recs1.length = recs2.length := (h1.trans h2.symm).length_eq
  have a1 := applyRecords_mandatory Kind g c cs i t recs1 h1
  have a2 := applyRecords_mandatory Kind g c cs i t recs2 h2
  cases fuel with
  | zero => rfl
  | succ m =>
    rw [readProfile, readProfile, tok_enter, tok_enter]
    simp only [TokState.start]
    by_cases hm : m ≤ recs1.length
    · rw [readFields_records_none Kind recs1 _ _ a1 m hm,
        readFields_records_none Kind recs2 _ _ a2 m (hlen ▸ hm)]
    · obtain ⟨f, rfl⟩ : ∃ f, m = f + recs1.length := ⟨m - recs1.length, by omega⟩
      rw [readFields_records Kind recs1 _ _ a1 f rest]
      rw [hlen, readFields_records Kind recs2 _ _ a2 f rest]

/-- C13 (witness): the three records of an inner node in two orders give the
same node with the same call-site index. -/
theorem readProfile_record_order_witness :
    readProfile tokCursor 5 ContextNodeBlockID
        (TokState.inBlock ContextNodeBlockID
          (recordToks [(CallsiteIndex, [2]), (Counters, [5]), (Guid, [9])] ++
            [Tok.endBlock])) =
      readProfile tokCursor 5 ContextNodeBlockID
        (TokState.inBlock ContextNodeBlockID
          (recordToks [(Counters, [5]), (Guid, [9]), (CallsiteIndex, [2])] ++
            [Tok.endBlock])) ∧
    readProfile tokCursor 5 ContextNodeBlockID
        (TokState.inBlock ContextNodeBlockID
          (recordToks [(CallsiteIndex, [2]), (Counters, [5]), (Guid, [9])] ++
            [Tok.endBlock])) =
      some (Except.ok ((some 2, PGOCtxProfContext.mk 9 [5] none none []),
        TokState.start [])) :=
  ⟨readProfile_record_order ContextNodeBlockID 9 5 [] 2 0 _ _ [Tok.endBlock] 5
    (by decide) (by decide), rfl⟩

/-! ## The text emitter: fuel -/

theorem callTargetsLoop_mono {r1 r2 : PGOCtxProfContext → Option (List YamlEvent)}
    (h : ∀ x o, r1 x = some o → r2 x = some o) :
    ∀ (l : List (Nat × PGOCtxProfContext)) (I : Nat) (o : List YamlEvent),
      callTargetsLoop r1 I l = some o → callTargetsLoop r2 I l = some o := by
  intro l
  induction l with
  | nil => intro I o ho; exact ho
  | cons a l ih =>
    intro I o ho
    obtain ⟨g, c⟩ := a
    rw [callTargetsLoop] at ho ⊢
    cases h1 : r1 c with
    | none => rw [h1] at ho; cases ho
    | some o1 =>
      rw [h1] at ho
      rw [h _ _ h1]
      cases h2 : callTargetsLoop r1 (I + 1) l with
      | none => rw [h2] at ho; cases ho
      | some o2 =>
        rw [h2] at ho
        rw [ih _ _ h2]
        exact ho

theorem flatLoop_mono {r1 r2 : Nat → List Nat → Option (List YamlEvent)}
    (h : ∀ g c o, r1 g c = some o → r2 g c = some o) :
    ∀ (l : List (Nat × List Nat)) (I : Nat) (o : List YamlEvent),
      flatLoop r1 I l = some o → flatLoop r2 I l = some o := by
  intro l
  induction l with
  | nil => intro I o ho; exact ho
  | cons a l ih =>
    intro I o ho
    obtain ⟨g, c⟩ := a
    rw [flatLoop] at ho ⊢
    cases h1 : r1 g c with
    | none => rw [h1] at ho; cases ho
    | some o1 =>
      rw [h1] at ho
      rw [h _ _ _ h1]
      cases h2 : flatLoop r1 (I + 1) l with
      | none => rw [h2] at ho; cases ho
      | some o2 =>
        rw [h2] at ho
        rw [ih _ _ h2]
        exact ho

theorem callsitesLoop_mono
    {r1 r2 : PGOCtxProfContext.CallTargetMapTy → Option (List YamlEvent)}
    (h : ∀ x o, r1 x = some o → r2 x = some o)
    (cs : PGOCtxProfContext.CallsiteMapTy) (m : Nat) :
    ∀ (f I : Nat) (o : List YamlEvent),
      callsitesLoop r1 cs m f I = some o → callsitesLoop r2 cs m (f + 1) I = some o := by
  intro f
  induction f with
  | zero => intro I o ho; rw [callsitesLoop] at ho; cases ho
  | succ f ih =>
    intro I o ho
    rw [callsitesLoop] at ho ⊢
    by_cases hI : I ≤ m
    · simp only [hI, if_true] at ho ⊢
      have hb : ∀ ob, (match mapFind I cs with
            | none => some [YamlEvent.beginFlowSequence, YamlEvent.endFlowSequence]
            | some Targets => r1 Targets) = some ob →
          (match mapFind I cs with
            | none => some [YamlEvent.beginFlowSequence, YamlEvent.endFlowSequence]
            | some Targets => r2 Targets) = some ob := by
        intro ob
        cases mapFind I cs with
        | none => exact id
        | some T => exact h _ _
      cases h1 : (match mapFind I cs with
          | none => some [YamlEvent.beginFlowSequence, YamlEvent.endFlowSequence]
          | some Targets => r1 Targets) with
      | none => rw [h1] at ho; cases ho
      | some o1 =>
        rw [h1] at ho
        rw [hb _ h1]
        cases h2 : callsitesLoop r1 cs m f ((I + 1) % 2 ^ 32) with
        | none => rw [h2] at ho; cases ho
        | some o2 =>
          rw [h2] at ho
          rw [ih _ _ h2]
          exact ho
    · simp only [hI, if_false] at ho ⊢
      exact ho

/-- One more unit of fuel does not change what the emitter functions return. -/
theorem toYaml_fuel_step (n : Nat) :
    (∀ Ctx o, toYamlCtx n Ctx = some o → toYamlCtx (n + 1) Ctx = some o) ∧
    (∀ T o, toYamlCallTargets n T = some o → toYamlCallTargets (n + 1) T = some o) ∧
    (∀ cs o, toYamlCallsites n cs = some o → toYamlCallsites (n + 1) cs = some o) ∧
    (∀ g c cs t u o, toYamlNode n g c cs t u = some o →
      toYamlNode (n + 1) g c cs t u = some o) ∧
    (∀ F o, toYamlFlat n F = some o → toYamlFlat (n + 1) F = some o) := by
  induction n with
  | zero =>
    refine ⟨?_, ?_, ?_, ?_, ?_⟩
    · intro Ctx o h
      have h0 : toYamlCtx 0 Ctx = none := rfl
      rw [h0] at h
      cases h
    · intro T o h
      have h0 : toYamlCallTargets 0 T = none := rfl
      rw [h0] at h
      cases h
    · intro cs o h
      have h0 : toYamlCallsites 0 cs = none := rfl
      rw [h0] at h
      cases h
    · intro g c cs t u o h
      have h0 : toYamlNode 0 g c cs t u = none := rfl
      rw [h0] at h
      cases h
    · intro F o h
      have h0 : toYamlFlat 0 F = none := rfl
      rw [h0] at h
      cases h
  | succ n ih =>
    obtain ⟨ihC, ihT, ihS, ihN, ihF⟩ := ih
    refine ⟨?_, ?_, ?_, ?_, ?_⟩
    · intro Ctx o h
      rw [toYamlCtx] at h ⊢
      split at h
      · rename_i hr
        rw [if_pos hr]
        exact ihN _ _ _ _ _ _ h
      · rename_i hr
        rw [if_neg hr]
        exact ihN _ _ _ _ _ _ h
    · intro T o h
      rw [toYamlCallTargets] at h ⊢
      cases h1 : callTargetsLoop (toYamlCtx n) 0 T with
      | none => rw [h1] at h; cases h
      | some o1 =>
        rw [h1] at h
        rw [callTargetsLoop_mono ihC _ _ _ h1]
        exact h
    · intro cs o h
      rw [toYamlCallsites] at h ⊢
      cases h1 : callsitesLoop (toYamlCallTargets n) cs (max_element cs) n 0 with
      | none => rw [h1] at h; cases h
      | some o1 =>
        rw [h1] at h
        rw [callsitesLoop_mono ihT _ _ _ _ _ h1]
        exact h
    · intro g c cs t u o h
      rw [toYamlNode] at h ⊢
      have hU : ∀ ou, (if (!u.isEmpty) = true then
            writeKey "Unhandled" false (toYamlFlat n u) else some []) = some ou →
          (if (!u.isEmpty) = true then
            writeKey "Unhandled" false (toYamlFlat (n + 1) u) else some []) = some ou := by
        intro ou hu
        split at hu
        · rename_i hc
          rw [if_pos hc]
          cases h1 : toYamlFlat n u with
          | none => rw [h1] at hu; cases hu
          | some o1 =>
            rw [h1] at hu
            rw [ihF _ _ h1]
            exact hu
        · rename_i hc
          rw [if_neg hc]
          exact hu
      have hS : ∀ oc, (if (!cs.isEmpty) = true then
            writeKey "Callsites" true (toYamlCallsites n cs) else some []) = some oc →
          (if (!cs.isEmpty) = true then
            writeKey "Callsites" true (toYamlCallsites (n + 1) cs) else some []) =
              some oc := by
        intro oc hc0
        split at hc0
        · rename_i hc
          rw [if_pos hc]
          cases h1 : toYamlCallsites n cs with
          | none => rw [h1] at hc0; cases hc0
          | some o1 =>
            rw [h1] at hc0
            rw [ihS _ _ h1]
            exact hc0
        · rename_i hc
          rw [if_neg hc]
          exact hc0
      revert h
      generalize (if (!u.isEmpty) = true then
            writeKey "Unhandled" false (toYamlFlat n u) else some []) = X at hU ⊢
      cases X with
      | none => intro h; cases h
      | some ou =>
        rw [hU ou rfl]
        generalize (if (!cs.isEmpty) = true then
            writeKey "Callsites" true (toYamlCallsites n cs) else some []) = Y at hS ⊢
        cases Y with
        | none => intro h; cases h
        | some oc =>
          rw [hS oc rfl]
          exact id
    · intro F o h
      rw [toYamlFlat] at h ⊢
      cases h1 : flatLoop (fun Guid Counters => toYamlNode n Guid Counters [] none []) 0 F with
      | none => rw [h1] at h; cases h
      | some o1 =>
        rw [h1] at h
        rw [flatLoop_mono (fun g c o ho => ihN g c [] none [] o ho) _ _ _ h1]
        exact h

theorem toYaml_fuel_mono {n m : Nat} (hnm : n ≤ m) :
    (∀ Ctx o, toYamlCtx n Ctx = some o → toYamlCtx m Ctx = some o) ∧
    (∀ T o, toYamlCallTargets n T = some o → toYamlCallTargets m T = some o) ∧
    (∀ cs o, toYamlCallsites n cs = some o → toYamlCallsites m cs = some o) ∧
    (∀ g c cs t u o, toYamlNode n g c cs t u = some o →
      toYamlNode m g c cs t u = some o) ∧
    (∀ F o, toYamlFlat n F = some o → toYamlFlat m F = some o) := by
  induction hnm with
  | refl => exact ⟨fun _ _ h => h, fun _ _ h => h, fun _ _ h => h,
      fun _ _ _ _ _ _ h => h, fun _ _ h => h⟩
  | step _ ih =>
    obtain ⟨a, b, c, d, e⟩ := ih
    obtain ⟨a1, b1, c1, d1, e1⟩ := toYaml_fuel_step _
    exact ⟨fun _ _ h => a1 _ _ (a _ _ h), fun _ _ h => b1 _ _ (b _ _ h),
      fun _ _ h => c1 _ _ (c _ _ h), fun _ _ _ _ _ _ h => d1 _ _ _ _ _ _ (d _ _ _ _ _ _ h),
      fun _ _ h => e1 _ _ (e _ _ h)⟩

theorem toYamlCtx_returns {n : Nat} {Ctx : PGOCtxProfContext} {o : List YamlEvent}
    (h : toYamlCtx n Ctx = some o) : Returns (fun fuel => toYamlCtx fuel Ctx) o :=
  ⟨n, fun _ hm => (toYaml_fuel_mono hm).1 _ _ h⟩

theorem toYamlCallTargets_returns {n : Nat} {T : PGOCtxProfContext.CallTargetMapTy}
    {o : List YamlEvent} (h : toYamlCallTargets n T = some o) :
    Returns (fun fuel => toYamlCallTargets fuel T) o :=
  ⟨n, fun _ hm => (toYaml_fuel_mono hm).2.1 _ _ h⟩

theorem toYamlCallsites_returns {n : Nat} {cs : PGOCtxProfContext.CallsiteMapTy}
    {o : List YamlEvent} (h : toYamlCallsites n cs = some o) :
    Returns (fun fuel => toYamlCallsites fuel cs) o :=
  ⟨n, fun _ hm => (toYaml_fuel_mono hm).2.2.1 _ _ h⟩

/-! ## C14 and C20: the call-site sequence -/

theorem foldl_max_spec (l : List Nat) :
    ∀ a, a ≤ l.foldl max a ∧ (∀ x ∈ l, x ≤ l.foldl max a) ∧
      (l.foldl max a = a ∨ l.foldl max a ∈ l) := by
  induction l with
  | nil => intro a; exact ⟨le_refl _, fun x hx => absurd hx (List.not_mem_nil x), Or.inl rfl⟩
  | cons b l ih =>
    intro a
    obtain ⟨h1, h2, h3⟩ := ih (max a b)
    rw [List.foldl_cons]
    refine ⟨le_trans (le_max_left a b) h1, ?_, ?_⟩
    · intro x hx
      rcases List.mem_cons.mp hx with rfl | hx
      · exact le_trans (le_max_right a x) h1
      · exact h2 x hx
    · rcases h3 with h3 | h3
      · rw [h3]
        rcases le_total a b with hab | hab
        · right; rw [max_eq_right hab]; exact List.mem_cons_self _ _
        · left; exact max_eq_left hab
      · right; exact List.mem_cons_of_mem _ h3

theorem mapFind_ne_none_iff {V : Type} (k : Nat) (m : MapTy V) :
    mapFind k m ≠ none ↔ k ∈ m.map Prod.fst := by
  induction m with
  | nil => simp [mapFind]
  | cons a m ih =>
    obtain ⟨k1, v1⟩ := a
    rw [mapFind]
    by_cases h : k = k1
    · simp [h]
    · simp only [h, if_false, List.map_cons, List.mem_cons, false_or]
      exact ih

/-- `max_element` of a call-site map is its maximum present index. -/
theorem max_element_eq (cs : PGOCtxProfContext.CallsiteMapTy) (m : Nat)
    (hpresent : mapFind m cs ≠ none) (hmax : ∀ i, mapFind i cs ≠ none → i ≤ m) :
    max_element cs = m := by
  obtain ⟨_, h2, h3⟩ := foldl_max_spec (cs.map Prod.fst) 0
  unfold max_element
  apply le_antisymm
  · rcases h3 with h3 | h3
    · rw [h3]; exact Nat.zero_le _
    · exact hmax _ ((mapFind_ne_none_iff _ _).mpr h3)
  · exact h2 m ((mapFind_ne_none_iff _ _).mp hpresent)

/-- With the maximum index `2 ^ 32 - 1` or more, the loop gives no result,
whatever the fuel. -/
theorem callsitesLoop_diverges
    (render : PGOCtxProfContext.CallTargetMapTy → Option (List YamlEvent))
    (cs : PGOCtxProfContext.CallsiteMapTy) (m : Nat) (hm : 2 ^ 32 - 1 ≤ m) :
    ∀ fuel I, I < 2 ^ 32 → callsitesLoop render cs m fuel I = none := by
  intro fuel
  induction fuel with
  | zero => intro I _; rfl
  | succ f ih =>
    intro I hI
    rw [callsitesLoop]
    have h1 : I ≤ m := by omega
    simp only [h1, if_true]
    rw [ih _ (Nat.mod_lt _ (by norm_num))]
    cases (match mapFind I cs with
      | none => some [YamlEvent.beginFlowSequence, YamlEvent.endFlowSequence]
      | some Targets => render Targets) <;> rfl

/-- The loop of `toYaml(Out, Callsites)` with the renderings of the children
that return. -/
theorem callsitesLoop_returns (cs : PGOCtxProfContext.CallsiteMapTy) (m : Nat)
    (R : Nat → List YamlEvent) (hm : m < 2 ^ 32 - 1)
    (hR : ∀ i T, mapFind i cs = some T →
      Returns (fun fuel => toYamlCallTargets fuel T) (R i)) :
    ∀ k I, I + k = m + 1 → ∃ N, ∀ g f, N ≤ g → N ≤ f →
      callsitesLoop (toYamlCallTargets g) cs m f I =
        some (sequenceFrom I ((List.range' I k).map (fun i =>
          match mapFind i cs with
          | none => emptyFlowSequence
          | some _ => R i))) := by
  intro k
  induction k with
  | zero =>
    intro I hI
    refine ⟨1, fun g f _ hf => ?_⟩
    obtain ⟨f, rfl⟩ : ∃ f', f = f' + 1 := ⟨f - 1, by omega⟩
    rw [callsitesLoop]
    have : ¬ I ≤ m := by omega
    simp only [this, if_false]
    rfl
  | succ k ih =>
    intro I hI
    obtain ⟨N, hN⟩ := ih (I + 1) (by omega)
    have h1 : I ≤ m := by omega
    have h2 : (I + 1) % 2 ^ 32 = I + 1 := Nat.mod_eq_of_lt (by omega)
    cases hF : mapFind I cs with
    | none =>
      refine ⟨N + 1, fun g f hg hf => ?_⟩
      obtain ⟨f, rfl⟩ : ∃ f', f = f' + 1 := ⟨f - 1, by omega⟩
      rw [callsitesLoop]
      simp only [h1, if_true, hF]
      rw [h2, hN g f (by omega) (by omega)]
      simp only [List.range'_succ, List.map_cons, sequenceFrom, hF]
      rfl
    | some T =>
      obtain ⟨M, hM⟩ := hR I T hF
      dsimp only at hM
      refine ⟨max N M + 1, fun g f hg hf => ?_⟩
      obtain ⟨f, rfl⟩ : ∃ f', f = f' + 1 := ⟨f - 1, by omega⟩
      rw [callsitesLoop]
      simp only [h1, if_true, hF]
      rw [hM g (by omega), h2, hN g f (by omega) (by omega)]
      simp only [List.range'_succ, List.map_cons, sequenceFrom, hF]

/-! ## The emitter on a call-site index of `2 ^ 32 - 1` -/

/-- With the maximum present index `2 ^ 32 - 1` or more, `toYaml(Out,
Callsites)` gives no result, whatever the fuel. -/
theorem toYamlCallsites_never (cs : PGOCtxProfContext.CallsiteMapTy)
    (h : 2 ^ 32 - 1 ≤ max_element cs) : ∀ fuel, toYamlCallsites fuel cs = none := by
  intro fuel
  cases fuel with
  | zero => rfl
  | succ f =>
    rw [toYamlCallsites, callsitesLoop_diverges _ cs _ h f 0 (by norm_num)]

/-- The mapping of a context is not written when its call-site map, which is
not empty, is not. -/
theorem toYamlNode_never (g : Nat) (c : List Nat) (cs : PGOCtxProfContext.CallsiteMapTy)
    (t : Option Nat) (u : CtxProfFlatProfile) (hne : cs.isEmpty = false)
    (h : ∀ fuel, toYamlCallsites fuel cs = none) :
    ∀ fuel, toYamlNode fuel g c cs t u = none := by
  intro fuel
  cases fuel with
  | zero => rfl
  | succ f =>
    rw [toYamlNode, hne, h f]
    cases (if (!u.isEmpty) = true then writeKey "Unhandled" false (toYamlFlat f u)
      else some []) <;> rfl

theorem toYamlCtx_never (Ctx : PGOCtxProfContext) (hne : Ctx.callsites.isEmpty = false)
    (h : ∀ fuel, toYamlCallsites fuel Ctx.callsites = none) :
    ∀ fuel, toYamlCtx fuel Ctx = none := by
  intro fuel
  cases fuel with
  | zero => rfl
  | succ f =>
    rw [toYamlCtx, toYamlNode_never _ _ _ _ _ hne h f, toYamlNode_never _ _ _ _ _ hne h f]
    simp

/-- A map of call targets is not written when its first context is not. -/
theorem toYamlCallTargets_never (g : Nat) (Ctx : PGOCtxProfContext)
    (rest : List (Nat × PGOCtxProfContext)) (h : ∀ fuel, toYamlCtx fuel Ctx = none) :
    ∀ fuel, toYamlCallTargets fuel ((g, Ctx) :: rest) = none := by
  intro fuel
  cases fuel with
  | zero => rfl
  | succ f =>
    rw [toYamlCallTargets, callTargetsLoop, h f]

theorem max_element_empty_ne (cs : PGOCtxProfContext.CallsiteMapTy)
    (h : max_element cs = 2 ^ 32 - 1) : cs.isEmpty = false := by
  cases cs with
  | nil =>
    have : max_element ([] : PGOCtxProfContext.CallsiteMapTy) = 0 := rfl
    rw [this] at h
    norm_num at h
  | cons a cs => rfl

/-- C14.  The text emitter fills call-site gaps, unless the largest index is
`2 ^ 32 - 1`.  Let `m` be the maximum present index of a call-site map, and
let the children stored at every present index `i` have the rendering `R i`.

* If `m < 2 ^ 32 - 1`, `toYaml(Out, Callsites)` writes the block sequence of
  exactly `m + 1` elements whose element `i`, for every `i` in `0 .. m`, is
  `R i` when index `i` is present and the empty flow sequence otherwise.
* If `m = 2 ^ 32 - 1`, `toYaml(Out, Callsites)` does not return: the 32-bit
  loop counter wraps to 0 after `m` and the loop starts over. -/
theorem toYamlCallsites_fills_gaps (cs : PGOCtxProfContext.CallsiteMapTy) (m : Nat)
    (R : Nat → List YamlEvent)
    (hpresent : mapFind m cs ≠ none) (hmax : ∀ i, mapFind i cs ≠ none → i ≤ m)
    (hR : ∀ i T, mapFind i cs = some T →
      Returns (fun fuel => toYamlCallTargets fuel T) (R i)) :
    (m < 2 ^ 32 - 1 →
      Returns (fun fuel => toYamlCallsites fuel cs)
        (blockSequence ((List.range (m + 1)).map (fun i =>
          match mapFind i cs with
          | none => emptyFlowSequence
          | some _ => R i))) ∧
      ((List.range (m + 1)).map (fun i =>
          match mapFind i cs with
          | none => emptyFlowSequence
          | some _ => R i)).length = m + 1) ∧
    (m = 2 ^ 32 - 1 → ∀ fuel, toYamlCallsites fuel cs = none) := by
  have hmx := max_element_eq cs m hpresent hmax
  constructor
  · intro hm
    refine ⟨?_, by simp⟩
    obtain ⟨N, hN⟩ := callsitesLoop_returns cs m R hm hR (m + 1) 0 (by omega)
    refine ⟨N + 1, fun fuel hf => ?_⟩
    obtain ⟨f, rfl⟩ : ∃ f', fuel = f' + 1 := ⟨fuel - 1, by omega⟩
    dsimp only
    rw [toYamlCallsites, hmx, hN f f (by omega) (by omega), List.range_eq_range']
    rfl
  · intro hm fuel
    cases fuel with
    | zero => rfl
    | succ f =>
      rw [toYamlCallsites, hmx,
        callsitesLoop_diverges _ cs m (by omega) f 0 (by norm_num)]

/-- C14 (witness): the spec's two examples and the failing input.  Children
only at the indices 0 and 3 render 4 elements, the elements 1 and 2 empty; one
child at index 2 renders 3 elements, two empty ones, then the child; a child
at index 4294967295 is never rendered. -/
theorem toYamlCallsites_fills_gaps_witness :
    Returns (fun fuel => toYamlCallsites fuel sparseCallsites)
      (blockSequence [leafTargetEvents 1 10, emptyFlowSequence, emptyFlowSequence,
        leafTargetEvents 2 20]) ∧
    Returns (fun fuel => toYamlCallsites fuel scenarioCallsites)
      (blockSequence [emptyFlowSequence, emptyFlowSequence, leafTargetEvents 9 5]) ∧
    (∀ fuel, toYamlCallsites fuel maxIndexCallsites = none) := by
  refine ⟨?_, ?_, ?_⟩
  · exact ((toYamlCallsites_fills_gaps sparseCallsites 3
      (fun i => if i = 0 then leafTargetEvents 1 10 else leafTargetEvents 2 20)
      (by simp [sparseCallsites, mapFind])
      (fun i hi => by
        simp only [sparseCallsites, mapFind] at hi
        by_cases h0 : i = 0
        · omega
        · by_cases h3 : i = 3
          · omega
          · simp [h0, h3] at hi)
      (fun i T hT => by
        simp only [sparseCallsites, mapFind] at hT
        by_cases h0 : i = 0
        · simp only [h0, if_true, Option.some.injEq] at hT
          subst hT
          simp only [h0, if_true]
          exact toYamlCallTargets_returns (n := 4) rfl
        · by_cases h3 : i = 3
          · subst h3
            simp only [OfNat.ofNat_ne_zero, if_true, if_false, Option.some.injEq] at hT
            subst hT
            simp only [h0, if_false]
            exact toYamlCallTargets_returns (n := 4) rfl
          · simp [h0, h3] at hT)).1 (by norm_num)).1
  · exact ((toYamlCallsites_fills_gaps scenarioCallsites 2
      (fun _ => leafTargetEvents 9 5)
      (by simp [scenarioCallsites, mapFind])
      (fun i hi => by
        simp only [scenarioCallsites, mapFind] at hi
        by_cases h2 : i = 2
        · omega
        · simp [h2] at hi)
      (fun i T hT => by
        simp only [scenarioCallsites, mapFind] at hT
        by_cases h2 : i = 2
        · simp only [h2, if_true, Option.some.injEq] at hT
          subst hT
          exact toYamlCallTargets_returns (n := 4) rfl
        · simp [h2] at hT)).1 (by norm_num)).1
  · exact (toYamlCallsites_fills_gaps maxIndexCallsites 4294967295
      (fun _ => leafTargetEvents 9 5)
      (by simp [maxIndexCallsites, mapFind])
      (fun i hi => by
        simp only [maxIndexCallsites, mapFind] at hi
        by_cases h2 : i = 4294967295
        · omega
        · simp [h2] at hi)
      (fun i T hT => by
        simp only [maxIndexCallsites, mapFind] at hT
        by_cases h2 : i = 4294967295
        · simp only [h2, if_true, Option.some.injEq] at hT
          subst hT
          exact toYamlCallTargets_returns (n := 4) rfl
        · simp [h2] at hT)).2 (by norm_num)

theorem mappingKeys_cons (d : Nat) (e : YamlEvent) (r : List YamlEvent) :
    mappingKeys d (e :: r) = e.keyAt d ++ mappingKeys (e.depthAfter d) r :=
  rfl

theorem mappingKeys_nil (d : Nat) : mappingKeys d [] = [] :=
  rfl

theorem quietFrom_mono {k k1 : Nat} (h : k ≤ k1) {o : List YamlEvent}
    (ho : QuietFrom k o) : QuietFrom k1 o :=
  fun d hd rest => ho d (le_trans h hd) rest

theorem quietFrom_nil (k : Nat) : QuietFrom k [] :=
  fun _ _ _ => rfl

theorem quietFrom_append {k : Nat} {a b : List YamlEvent}
    (ha : QuietFrom k a) (hb : QuietFrom k b) : QuietFrom k (a ++ b) := by
  intro d hd rest
  rw [List.append_assoc, ha d hd, hb d hd]

theorem countersLoop_quiet (c : List Nat) : ∀ I k, QuietFrom k (countersLoop I c) := by
  induction c with
  | nil => intro I k; exact quietFrom_nil k
  | cons v c ih =>
    intro I k d hd rest
    simp only [countersLoop, List.cons_append, mappingKeys_cons, YamlEvent.keyAt,
      YamlEvent.depthAfter, List.nil_append]
    exact ih (I + 1) k d hd rest

theorem writeFields_quiet (g : Nat) (t : Option Nat) (c : List Nat) :
    QuietFrom 2 (writeFields g t c) := by
  intro d hd rest
  have h1 : d ≠ 1 := by omega
  unfold writeFields
  cases t with
  | none =>
    simp only [List.append_assoc, List.cons_append, List.nil_append, mappingKeys_cons,
      YamlEvent.keyAt, YamlEvent.depthAfter, h1, if_false]
    rw [countersLoop_quiet c 0 0 (d + 1) (Nat.zero_le _)]
    simp only [mappingKeys_cons, YamlEvent.keyAt, YamlEvent.depthAfter, Nat.add_sub_cancel,
      List.nil_append]
  | some T =>
    simp only [List.append_assoc, List.cons_append, List.nil_append, mappingKeys_cons,
      YamlEvent.keyAt, YamlEvent.depthAfter, h1, if_false]
    rw [countersLoop_quiet c 0 0 (d + 1) (Nat.zero_le _)]
    simp only [mappingKeys_cons, YamlEvent.keyAt, YamlEvent.depthAfter, Nat.add_sub_cancel,
      List.nil_append]

theorem writeKey_quiet {Key : String} {Required : Bool} {v : Option (List YamlEvent)}
    {o : List YamlEvent} (hv : ∀ x, v = some x → QuietFrom 1 x)
    (h : writeKey Key Required v = some o) : QuietFrom 2 o := by
  cases v with
  | none => cases h
  | some x =>
    simp only [writeKey, Option.some.injEq] at h
    subst h
    intro d hd rest
    have h1 : d ≠ 1 := by omega
    simp only [List.cons_append, List.append_assoc, mappingKeys_cons, YamlEvent.keyAt,
      YamlEvent.depthAfter, h1, if_false, List.nil_append]
    rw [hv x rfl d (by omega)]
    simp only [mappingKeys_cons, YamlEvent.keyAt, YamlEvent.depthAfter, List.nil_append]

/-- A begun and ended block around calls that are quiet from depth 2 is quiet
from depth 1. -/
theorem mapping_quiet {o : List YamlEvent} (ho : QuietFrom 2 o) :
    QuietFrom 1 (YamlEvent.beginMapping :: o ++ [YamlEvent.endMapping]) := by
  intro d hd rest
  simp only [List.cons_append, List.append_assoc, mappingKeys_cons, YamlEvent.keyAt,
    YamlEvent.depthAfter, List.nil_append]
  rw [ho (d + 1) (by omega)]
  simp only [List.cons_append, List.nil_append, mappingKeys_cons, YamlEvent.keyAt,
    YamlEvent.depthAfter, Nat.add_sub_cancel]

theorem sequence_quiet {o : List YamlEvent} (ho : QuietFrom 2 o) :
    QuietFrom 1 (YamlEvent.beginSequence :: o ++ [YamlEvent.endSequence]) := by
  intro d hd rest
  simp only [List.cons_append, List.append_assoc, mappingKeys_cons, YamlEvent.keyAt,
    YamlEvent.depthAfter, List.nil_append]
  rw [ho (d + 1) (by omega)]
  simp only [List.cons_append, List.nil_append, mappingKeys_cons, YamlEvent.keyAt,
    YamlEvent.depthAfter, Nat.add_sub_cancel]

theorem element_quiet {k I : Nat} {o o1 : List YamlEvent} (ho : QuietFrom k o)
    (ho1 : QuietFrom k o1) :
    QuietFrom k (YamlEvent.preflightElement I :: o ++ YamlEvent.postflightElement :: o1) := by
  intro d hd rest
  simp only [List.cons_append, List.append_assoc, mappingKeys_cons, YamlEvent.keyAt,
    YamlEvent.depthAfter, List.nil_append]
  rw [ho d hd]
  simp only [mappingKeys_cons, YamlEvent.keyAt, YamlEvent.depthAfter, List.nil_append]
  exact ho1 d hd rest

theorem callTargetsLoop_quiet {render : PGOCtxProfContext → Option (List YamlEvent)}
    (h : ∀ x o, render x = some o → QuietFrom 1 o) :
    ∀ (l : List (Nat × PGOCtxProfContext)) (I : Nat) (o : List YamlEvent),
      callTargetsLoop render I l = some o → QuietFrom 1 o := by
  intro l
  induction l with
  | nil =>
    intro I o ho
    simp only [callTargetsLoop, Option.some.injEq] at ho
    subst ho
    exact quietFrom_nil 1
  | cons a l ih =>
    intro I o ho
    obtain ⟨g, c⟩ := a
    rw [callTargetsLoop] at ho
    cases h1 : render c with
    | none => rw [h1] at ho; cases ho
    | some o1 =>
      rw [h1] at ho
      cases h2 : callTargetsLoop render (I + 1) l with
      | none => rw [h2] at ho; cases ho
      | some o2 =>
        rw [h2] at ho
        simp only [Option.some.injEq] at ho
        subst ho
        exact element_quiet (h _ _ h1) (ih _ _ h2)

theorem flatLoop_quiet {render : Nat → List Nat → Option (List YamlEvent)}
    (h : ∀ g c o, render g c = some o → QuietFrom 1 o) :
    ∀ (l : List (Nat × List Nat)) (I : Nat) (o : List YamlEvent),
      flatLoop render I l = some o → QuietFrom 1 o := by
  intro l
  induction l with
  | nil =>
    intro I o ho
    simp only [flatLoop, Option.some.injEq] at ho
    subst ho
    exact quietFrom_nil 1
  | cons a l ih =>
    intro I o ho
    obtain ⟨g, c⟩ := a
    rw [flatLoop] at ho
    cases h1 : render g c with
    | none => rw [h1] at ho; cases ho
    | some o1 =>
      rw [h1] at ho
      cases h2 : flatLoop render (I + 1) l with
      | none => rw [h2] at ho; cases ho
      | some o2 =>
        rw [h2] at ho
        simp only [Option.some.injEq] at ho
        subst ho
        exact element_quiet (h _ _ _ h1) (ih _ _ h2)

theorem callsitesLoop_quiet
    {render : PGOCtxProfContext.CallTargetMapTy → Option (List YamlEvent)}
    (h : ∀ x o, render x = some o → QuietFrom 1 o)
    (cs : PGOCtxProfContext.CallsiteMapTy) (m : Nat) :
    ∀ (f I : Nat) (o : List YamlEvent),
      callsitesLoop render cs m f I = some o → QuietFrom 1 o := by
  intro f
  induction f with
  | zero => intro I o ho; rw [callsitesLoop] at ho; cases ho
  | succ f ih =>
    intro I o ho
    rw [callsitesLoop] at ho
    by_cases hI : I ≤ m
    · simp only [hI, if_true] at ho
      cases hF : mapFind I cs with
      | none =>
        simp only [hF] at ho
        cases h2 : callsitesLoop render cs m f ((I + 1) % 2 ^ 32) with
        | none => rw [h2] at ho; cases ho
        | some o2 =>
          simp only [h2, Option.some.injEq] at ho
          subst ho
          refine element_quiet (fun d hd rest => ?_) (ih _ _ h2)
          simp only [List.cons_append, List.nil_append, mappingKeys_cons, YamlEvent.keyAt,
            YamlEvent.depthAfter, Nat.add_sub_cancel]
      | some T =>
        simp only [hF] at ho
        cases h1 : render T with
        | none => simp [h1] at ho
        | some o1 =>
          cases h2 : callsitesLoop render cs m f ((I + 1) % 2 ^ 32) with
          | none => simp only [h1, h2] at ho; cases ho
          | some o2 =>
            simp only [h1, h2, Option.some.injEq] at ho
            subst ho
            exact element_quiet (h _ _ h1) (ih _ _ h2)
    · simp only [hI, if_false, Option.some.injEq] at ho
      subst ho
      exact quietFrom_nil 1

/-- What `toYaml(Out, Guid, Counters, Callsites, TotalRootEntryCount,
Unhandled)` returns: the mapping with the fields, the key Unhandled when the
unhandled profile is not empty and the key Callsites when the call-site map
is not empty. -/
theorem toYamlNode_cases {n g : Nat} {c : List Nat}
    {cs : PGOCtxProfContext.CallsiteMapTy} {t : Option Nat} {u : CtxProfFlatProfile}
    {o : List YamlEvent} (h : toYamlNode (n + 1) g c cs t u = some o) :
    ∃ outU outC,
      o = YamlEvent.beginMapping :: writeFields g t c ++ outU ++ outC ++
        [YamlEvent.endMapping] ∧
      ((u.isEmpty = true ∧ outU = []) ∨
        (u.isEmpty = false ∧ ∃ x, toYamlFlat n u = some x ∧
          outU = YamlEvent.preflightKey "Unhandled" false :: x ++
            [YamlEvent.postflightKey])) ∧
      ((cs.isEmpty = true ∧ outC = []) ∨
        (cs.isEmpty = false ∧ ∃ x, toYamlCallsites n cs = some x ∧
          outC = YamlEvent.preflightKey "Callsites" true :: x ++
            [YamlEvent.postflightKey])) := by
  rw [toYamlNode] at h
  have hU : ∀ ou, (if (!u.isEmpty) = true then
        writeKey "Unhandled" false (toYamlFlat n u) else some []) = some ou →
      ((u.isEmpty = true ∧ ou = []) ∨
        (u.isEmpty = false ∧ ∃ x, toYamlFlat n u = some x ∧
          ou = YamlEvent.preflightKey "Unhandled" false :: x ++
            [YamlEvent.postflightKey])) := by
    intro ou hu
    cases hE : u.isEmpty with
    | true =>
      simp only [hE, Bool.not_true, Bool.false_eq_true, if_false, Option.some.injEq] at hu
      exact Or.inl ⟨rfl, hu.symm⟩
    | false =>
      simp only [hE, Bool.not_false, if_true] at hu
      cases hx : toYamlFlat n u with
      | none => rw [hx] at hu; cases hu
      | some x =>
        rw [hx] at hu
        simp only [writeKey, Option.some.injEq] at hu
        exact Or.inr ⟨rfl, x, rfl, hu.symm⟩
  have hC : ∀ oc, (if (!cs.isEmpty) = true then
        writeKey "Callsites" true (toYamlCallsites n cs) else some []) = some oc →
      ((cs.isEmpty = true ∧ oc = []) ∨
        (cs.isEmpty = false ∧ ∃ x, toYamlCallsites n cs = some x ∧
          oc = YamlEvent.preflightKey "Callsites" true :: x ++
            [YamlEvent.postflightKey])) := by
    intro oc hc
    cases hE : cs.isEmpty with
    | true =>
      simp only [hE, Bool.not_true, Bool.false_eq_true, if_false, Option.some.injEq] at hc
      exact Or.inl ⟨rfl, hc.symm⟩
    | false =>
      simp only [hE, Bool.not_false, if_true] at hc
      cases hx : toYamlCallsites n cs with
      | none => rw [hx] at hc; cases hc
      | some x =>
        rw [hx] at hc
        simp only [writeKey, Option.some.injEq] at hc
        exact Or.inr ⟨rfl, x, rfl, hc.symm⟩
  revert h
  generalize (if (!u.isEmpty) = true then
        writeKey "Unhandled" false (toYamlFlat n u) else some []) = X at hU ⊢
  cases X with
  | none => intro h; cases h
  | some ou =>
    generalize (if (!cs.isEmpty) = true then
        writeKey "Callsites" true (toYamlCallsites n cs) else some []) = Y at hC ⊢
    cases Y with
    | none => intro h; cases h
    | some oc =>
      intro h
      simp only [Option.some.injEq] at h
      exact ⟨ou, oc, h.symm, hU ou rfl, hC oc rfl⟩

/-- What the emitter functions return is quiet: whole values. -/
theorem toYaml_quiet (n : Nat) :
    (∀ Ctx o, toYamlCtx n Ctx = some o → QuietFrom 1 o) ∧
    (∀ T o, toYamlCallTargets n T = some o → QuietFrom 1 o) ∧
    (∀ cs o, toYamlCallsites n cs = some o → QuietFrom 1 o) ∧
    (∀ g c cs t u o, toYamlNode n g c cs t u = some o → QuietFrom 1 o) ∧
    (∀ F o, toYamlFlat n F = some o → QuietFrom 1 o) := by
  induction n with
  | zero =>
    refine ⟨?_, ?_, ?_, ?_, ?_⟩
    · intro Ctx o h
      have h0 : toYamlCtx 0 Ctx = none := rfl
      rw [h0] at h
      cases h
    · intro T o h
      have h0 : toYamlCallTargets 0 T = none := rfl
      rw [h0] at h
      cases h
    · intro cs o h
      have h0 : toYamlCallsites 0 cs = none := rfl
      rw [h0] at h
      cases h
    · intro g c cs t u o h
      have h0 : toYamlNode 0 g c cs t u = none := rfl
      rw [h0] at h
      cases h
    · intro F o h
      have h0 : toYamlFlat 0 F = none := rfl
      rw [h0] at h
      cases h
  | succ n ih =>
    obtain ⟨ihC, ihT, ihS, ihN, ihF⟩ := ih
    refine ⟨?_, ?_, ?_, ?_, ?_⟩
    · intro Ctx o h
      rw [toYamlCtx] at h
      split at h
      · exact ihN _ _ _ _ _ _ h
      · exact ihN _ _ _ _ _ _ h
    · intro T o h
      rw [toYamlCallTargets] at h
      cases h1 : callTargetsLoop (toYamlCtx n) 0 T with
      | none => rw [h1] at h; cases h
      | some o1 =>
        rw [h1] at h
        simp only [Option.some.injEq] at h
        subst h
        exact sequence_quiet (quietFrom_mono (by norm_num)
          (callTargetsLoop_quiet ihC _ _ _ h1))
    · intro cs o h
      rw [toYamlCallsites] at h
      cases h1 : callsitesLoop (toYamlCallTargets n) cs (max_element cs) n 0 with
      | none => rw [h1] at h; cases h
      | some o1 =>
        rw [h1] at h
        simp only [Option.some.injEq] at h
        subst h
        exact sequence_quiet (quietFrom_mono (by norm_num)
          (callsitesLoop_quiet ihT _ _ _ _ _ h1))
    · intro g c cs t u o h
      obtain ⟨outU, outC, rfl, hU, hC⟩ := toYamlNode_cases h
      have qU : QuietFrom 2 outU := by
        rcases hU with ⟨_, rfl⟩ | ⟨_, x, hx, rfl⟩
        · exact quietFrom_nil 2
        · exact writeKey_quiet (v := some x) (fun y hy => by
            cases hy
            exact ihF _ _ hx) rfl
      have qC : QuietFrom 2 outC := by
        rcases hC with ⟨_, rfl⟩ | ⟨_, x, hx, rfl⟩
        · exact quietFrom_nil 2
        · exact writeKey_quiet (v := some x) (fun y hy => by
            cases hy
            exact ihS _ _ hx) rfl
      have := mapping_quiet (quietFrom_append (quietFrom_append (writeFields_quiet g t c) qU) qC)
      simpa only [List.append_assoc, List.cons_append] using this
    · intro F o h
      rw [toYamlFlat] at h
      cases h1 : flatLoop (fun Guid Counters => toYamlNode n Guid Counters [] none []) 0 F with
      | none => rw [h1] at h; cases h
      | some o1 =>
        rw [h1] at h
        simp only [Option.some.injEq] at h
        subst h
        exact sequence_quiet (quietFrom_mono (by norm_num)
          (flatLoop_quiet (fun g c o ho => ihN g c [] none [] o ho) _ _ _ h1))

/-- The keys the first part of a mapping adds. -/
theorem mappingKeys_writeFields (g : Nat) (t : Option Nat) (c : List Nat)
    (rest : List YamlEvent) :
    mappingKeys 1 (writeFields g t c ++ rest) =
      ["Guid"] ++ (if t.isSome then ["TotalRootEntryCount"] else []) ++ ["Counters"] ++
        mappingKeys 1 rest := by
  unfold writeFields
  cases t with
  | none =>
    simp only [List.append_assoc, List.cons_append, List.nil_append, mappingKeys_cons,
      YamlEvent.keyAt, YamlEvent.depthAfter, if_true]
    rw [countersLoop_quiet c 0 0 2 (Nat.zero_le _)]
    simp [mappingKeys_cons, YamlEvent.keyAt, YamlEvent.depthAfter]
  | some T =>
    simp only [List.append_assoc, List.cons_append, List.nil_append, mappingKeys_cons,
      YamlEvent.keyAt, YamlEvent.depthAfter, if_true]
    rw [countersLoop_quiet c 0 0 2 (Nat.zero_le _)]
    simp [mappingKeys_cons, YamlEvent.keyAt, YamlEvent.depthAfter]

/-- The keys of the mapping `toYaml(Out, Guid, Counters, Callsites,
TotalRootEntryCount, Unhandled)` writes. -/
theorem mappingKeys_toYamlNode {n g : Nat} {c : List Nat}
    {cs : PGOCtxProfContext.CallsiteMapTy} {t : Option Nat} {u : CtxProfFlatProfile}
    {o : List YamlEvent} (h : toYamlNode n g c cs t u = some o) :
    mappingKeys 0 o =
      ["Guid"] ++ (if t.isSome then ["TotalRootEntryCount"] else []) ++ ["Counters"] ++
        (if !u.isEmpty then ["Unhandled"] else []) ++
        (if !cs.isEmpty then ["Callsites"] else []) := by
  cases n with
  | zero =>
    have h0 : toYamlNode 0 g c cs t u = none := rfl
    rw [h0] at h
    cases h
  | succ n =>
    obtain ⟨outU, outC, rfl, hU, hC⟩ := toYamlNode_cases h
    have kU : ∀ rest, mappingKeys 1 (outU ++ rest) =
        (if !u.isEmpty then ["Unhandled"] else []) ++ mappingKeys 1 rest := by
      intro rest
      rcases hU with ⟨hE, rfl⟩ | ⟨hE, x, hx, rfl⟩
      · simp [hE]
      · simp only [hE, Bool.not_false, if_true, List.cons_append, List.append_assoc,
          mappingKeys_cons, YamlEvent.keyAt, YamlEvent.depthAfter, List.nil_append]
        rw [(toYaml_quiet n).2.2.2.2 _ _ hx 1 (le_refl _)]
        simp [mappingKeys_cons, YamlEvent.keyAt, YamlEvent.depthAfter]
    have kC : ∀ rest, mappingKeys 1 (outC ++ rest) =
        (if !cs.isEmpty then ["Callsites"] else []) ++ mappingKeys 1 rest := by
      intro rest
      rcases hC with ⟨hE, rfl⟩ | ⟨hE, x, hx, rfl⟩
      · simp [hE]
      · simp only [hE, Bool.not_false, if_true, List.cons_append, List.append_assoc,
          mappingKeys_cons, YamlEvent.keyAt, YamlEvent.depthAfter, List.nil_append]
        rw [(toYaml_quiet n).2.2.1 _ _ hx 1 (le_refl _)]
        simp [mappingKeys_cons, YamlEvent.keyAt, YamlEvent.depthAfter]
    simp only [List.cons_append, List.append_assoc, mappingKeys_cons, YamlEvent.keyAt,
      YamlEvent.depthAfter, List.nil_append]
    rw [mappingKeys_writeFields, kU, kC]
    simp [mappingKeys_cons, mappingKeys_nil, YamlEvent.keyAt, YamlEvent.depthAfter]


/-- A mapping without call sites and without an unhandled profile is written
with any fuel. -/
theorem toYamlNode_flat (n g : Nat) (c : List Nat) :
    toYamlNode (n + 1) g c [] none [] =
      some (YamlEvent.beginMapping :: writeFields g none c ++ [YamlEvent.endMapping]) := by
  rw [toYamlNode]
  simp

theorem flatLoop_eq {render : Nat → List Nat → Option (List YamlEvent)}
    {f : Nat → List Nat → List YamlEvent} (h : ∀ g c, render g c = some (f g c)) :
    ∀ (l : List (Nat × List Nat)) (I : Nat),
      flatLoop render I l = some (sequenceFrom I (l.map (fun e => f e.1 e.2))) := by
  intro l
  induction l with
  | nil => intro I; rfl
  | cons a l ih =>
    intro I
    obtain ⟨g, c⟩ := a
    rw [flatLoop, h g c]
    simp only
    rw [ih (I + 1)]
    rfl

/-- A flat profile is written, with fuel 2 or more, as the block sequence of
the mappings of its entries, each with the fields of the entry only. -/
theorem toYamlFlat_eq (F : CtxProfFlatProfile) (n : Nat) (hn : 2 ≤ n) :
    toYamlFlat n F = some (blockSequence (F.map (fun e =>
      YamlEvent.beginMapping :: writeFields e.1 none e.2 ++ [YamlEvent.endMapping]))) := by
  obtain ⟨k, rfl⟩ : ∃ k, n = k + 2 := ⟨n - 2, by omega⟩
  rw [toYamlFlat, flatLoop_eq (fun g c => toYamlNode_flat k g c)]
  rfl

/-- The call-site map is written when the children at every index are, and
no index is `2 ^ 32 - 1` or more. -/
theorem toYamlCallsites_total (cs : PGOCtxProfContext.CallsiteMapTy) (hne : cs ≠ [])
    (hB : ∀ i, mapFind i cs ≠ none → i < 2 ^ 32 - 1)
    (hR : ∀ i T, mapFind i cs = some T →
      ∃ out, Returns (fun fuel => toYamlCallTargets fuel T) out) :
    ∃ out, Returns (fun fuel => toYamlCallsites fuel cs) out := by
  have hm : mapFind (max_element cs) cs ≠ none := by
    obtain ⟨_, h2, h3⟩ := foldl_max_spec (cs.map Prod.fst) 0
    rw [mapFind_ne_none_iff]
    rcases h3 with h3 | h3
    · cases cs with
      | nil => exact absurd rfl hne
      | cons a cs =>
        have ha : a.1 ≤ 0 := by
          have := h2 a.1 (by simp)
          rw [h3] at this
          exact this
        have ha0 : a.1 = 0 := by omega
        unfold max_element
        rw [h3, ← ha0]
        simp
    · exact h3
  have hlt := hB _ hm
  have hR0 : ∀ i, ∃ r, ∀ T, mapFind i cs = some T →
      Returns (fun fuel => toYamlCallTargets fuel T) r := by
    intro i
    cases hF : mapFind i cs with
    | none => exact ⟨[], fun T hT => by cases hT⟩
    | some T =>
      obtain ⟨out, hout⟩ := hR i T hF
      exact ⟨out, fun T1 hT1 => by cases hT1; exact hout⟩
  choose R hR1 using hR0
  obtain ⟨N, hN⟩ := callsitesLoop_returns cs (max_element cs) R hlt hR1
    (max_element cs + 1) 0 (by omega)
  obtain ⟨o, h1⟩ : ∃ o, toYamlCallsites (N + 1) cs = some o :=
    ⟨_, by rw [toYamlCallsites, hN N N (le_refl _) (le_refl _)]⟩
  exact ⟨o, toYamlCallsites_returns h1⟩

/-- The mapping of a context is written when its call-site map is. -/
theorem toYamlNode_total (g : Nat) (c : List Nat) (cs : PGOCtxProfContext.CallsiteMapTy)
    (t : Option Nat) (u : CtxProfFlatProfile)
    (hcs : cs ≠ [] → ∃ out, Returns (fun fuel => toYamlCallsites fuel cs) out) :
    ∃ out, Returns (fun fuel => toYamlNode fuel g c cs t u) out := by
  have hU : ∃ ou, ∀ n, 2 ≤ n → (if (!u.isEmpty) = true then
      writeKey "Unhandled" false (toYamlFlat n u) else some []) = some ou := by
    cases hE : u.isEmpty with
    | true => exact ⟨[], fun n _ => by simp⟩
    | false =>
      refine ⟨YamlEvent.preflightKey "Unhandled" false ::
        blockSequence (u.map (fun e =>
          YamlEvent.beginMapping :: writeFields e.1 none e.2 ++ [YamlEvent.endMapping])) ++
        [YamlEvent.postflightKey], fun n hn => ?_⟩
      simp only [Bool.not_false, if_true]
      rw [toYamlFlat_eq u n hn]
      rfl
  have hC : ∃ oc N, ∀ n, N ≤ n → (if (!cs.isEmpty) = true then
      writeKey "Callsites" true (toYamlCallsites n cs) else some []) = some oc := by
    cases hE : cs.isEmpty with
    | true => exact ⟨[], 0, fun n _ => by simp⟩
    | false =>
      have hne : cs ≠ [] := by
        intro h
        rw [h] at hE
        cases hE
      obtain ⟨out, N, hN⟩ := hcs hne
      refine ⟨YamlEvent.preflightKey "Callsites" true :: out ++ [YamlEvent.postflightKey],
        N, fun n hn => ?_⟩
      simp only [Bool.not_false, if_true]
      dsimp only at hN
      rw [hN n hn]
      rfl
  obtain ⟨ou, hou⟩ := hU
  obtain ⟨oc, N, hoc⟩ := hC
  obtain ⟨o, h1⟩ : ∃ o, toYamlNode (max N 2 + 1) g c cs t u = some o :=
    ⟨_, by rw [toYamlNode, hou _ (by omega), hoc _ (by omega)]⟩
  exact ⟨o, max N 2 + 1, fun _ hm => (toYaml_fuel_mono hm).2.2.2.1 _ _ _ _ _ _ h1⟩

theorem toYamlCtx_of_node (Ctx : PGOCtxProfContext)
    (h : ∀ t u, ∃ out,
      Returns (fun fuel => toYamlNode fuel Ctx.guid Ctx.counters Ctx.callsites t u) out) :
    ∃ out, Returns (fun fuel => toYamlCtx fuel Ctx) out := by
  cases hr : Ctx.isRoot with
  | true =>
    obtain ⟨out, N, hN⟩ := h Ctx.getTotalRootEntryCount (Ctx.getUnhandled.getD [])
    refine ⟨out, N + 1, fun fuel hf => ?_⟩
    obtain ⟨f, rfl⟩ : ∃ f', fuel = f' + 1 := ⟨fuel - 1, by omega⟩
    dsimp only at hN ⊢
    rw [toYamlCtx, hr]
    simp only [if_true]
    exact hN f (by omega)
  | false =>
    obtain ⟨out, N, hN⟩ := h none []
    refine ⟨out, N + 1, fun fuel hf => ?_⟩
    obtain ⟨f, rfl⟩ : ∃ f', fuel = f' + 1 := ⟨fuel - 1, by omega⟩
    dsimp only at hN ⊢
    rw [toYamlCtx, hr]
    simp only [Bool.false_eq_true, if_false]
    exact hN f (by omega)

/-- A context none of whose call-site indices, at any depth, is `2 ^ 32 - 1`
or more is written by the emitter. -/
theorem toYamlCtx_total (Ctx : PGOCtxProfContext)
    (h : Ctx.indicesBelow (2 ^ 32 - 1) = true) :
    ∃ out, Returns (fun fuel => toYamlCtx fuel Ctx) out := by
  refine @PGOCtxProfContext.rec
    (fun Ctx => Ctx.indicesBelow (2 ^ 32 - 1) = true →
      ∃ out, Returns (fun fuel => toYamlCtx fuel Ctx) out)
    (fun cs => callsitesIndicesBelow (2 ^ 32 - 1) cs = true →
      (∀ i, mapFind i cs ≠ none → i < 2 ^ 32 - 1) ∧
      ∀ i T, mapFind i cs = some T →
        ∃ out, Returns (fun fuel => toYamlCallTargets fuel T) out)
    (fun p => targetsIndicesBelow (2 ^ 32 - 1) p.2 = true →
      ∃ out, Returns (fun fuel => toYamlCallTargets fuel p.2) out)
    (fun T => targetsIndicesBelow (2 ^ 32 - 1) T = true →
      ∀ I, ∃ out N, ∀ g, N ≤ g → callTargetsLoop (toYamlCtx g) I T = some out)
    (fun q => q.2.indicesBelow (2 ^ 32 - 1) = true →
      ∃ out, Returns (fun fuel => toYamlCtx fuel q.2) out)
    ?_ ?_ ?_ ?_ ?_ ?_ ?_ Ctx h
  · intro g c t u cs ih hB
    rw [PGOCtxProfContext.indicesBelow] at hB
    obtain ⟨h1, h2⟩ := ih hB
    exact toYamlCtx_of_node _ (fun t1 u1 =>
      toYamlNode_total g c cs t1 u1 (fun hne => toYamlCallsites_total cs hne h1 h2))
  · intro _
    exact ⟨fun i hi => absurd rfl hi, fun i T hT => by cases hT⟩
  · intro head tail ih3 ih2 hB
    obtain ⟨i, T⟩ := head
    rw [callsitesIndicesBelow] at hB
    simp only [Bool.and_eq_true, decide_eq_true_eq] at hB
    obtain ⟨⟨hi, hT⟩, htail⟩ := hB
    obtain ⟨h1, h2⟩ := ih2 htail
    constructor
    · intro j hj
      rw [mapFind] at hj
      by_cases hji : j = i
      · rw [hji]; exact hi
      · simp only [hji, if_false] at hj
        exact h1 j hj
    · intro j T1 hj
      rw [mapFind] at hj
      by_cases hji : j = i
      · simp only [hji, if_true, Option.some.injEq] at hj
        subst hj
        exact ih3 hT
      · simp only [hji, if_false] at hj
        exact h2 j T1 hj
  · intro i T ih4 hB
    obtain ⟨out, N, hN⟩ := ih4 hB 0
    obtain ⟨o, h1⟩ : ∃ o, toYamlCallTargets (N + 1) T = some o :=
      ⟨_, by rw [toYamlCallTargets, hN N (le_refl _)]⟩
    exact ⟨o, toYamlCallTargets_returns h1⟩
  · intro _ I
    exact ⟨[], 0, fun g _ => rfl⟩
  · intro head tail ih5 ih4 hB I
    obtain ⟨g, c⟩ := head
    rw [targetsIndicesBelow] at hB
    simp only [Bool.and_eq_true] at hB
    obtain ⟨o1, N1, h1⟩ := ih5 hB.1
    obtain ⟨o2, N2, h2⟩ := ih4 hB.2 (I + 1)
    refine ⟨YamlEvent.preflightElement I :: o1 ++ YamlEvent.postflightElement :: o2,
      max N1 N2, fun k hk => ?_⟩
    dsimp only at h1
    rw [callTargetsLoop, h1 k (by omega), h2 k (by omega)]
  · intro g c ih hB
    exact ih hB


theorem countersLoop_eq (c : List Nat) : ∀ I,
    countersLoop I c = (c.enumFrom I).flatMap (fun p =>
      [YamlEvent.preflightFlowElement p.1, YamlEvent.yamlize p.2,
        YamlEvent.postflightFlowElement]) := by
  induction c with
  | nil => intro I; rfl
  | cons v c ih =>
    intro I
    rw [countersLoop, ih (I + 1)]
    rfl

/-- C15.  The mapping of a context.

* Whenever `toYaml(Out, Ctx)` returns, what it has written is a mapping
  whose keys are, in this order and with no others: Guid; TotalRootEntryCount
  exactly when the context is a root; Counters; Unhandled exactly when the
  context is a root and its unhandled flat profile is not empty; Callsites
  exactly when the call-site map is not empty.  The mapping begins with the
  guid, the total root entry count of a root, and the counters.
* `toYaml(Out, Ctx)` returns for every context none of whose call-site
  indices, at any depth, is `2 ^ 32 - 1`.
* `toYaml(Out, Ctx)` does not return for a context whose maximum present
  call-site index is `2 ^ 32 - 1`: the mapping is begun and never ended.
* The value of the key Counters is the flow sequence of all counter values in
  order.
* A flat profile is written as the block sequence of one mapping for each
  entry, and the keys of such a mapping are Guid and Counters only. -/
theorem toYamlCtx_mapping (Ctx : PGOCtxProfContext) :
    (∀ fuel out, toYamlCtx fuel Ctx = some out →
      mappingKeys 0 out =
        ["Guid"] ++ (if Ctx.isRoot then ["TotalRootEntryCount"] else []) ++ ["Counters"] ++
          (if Ctx.isRoot && !(Ctx.getUnhandled.getD []).isEmpty then ["Unhandled"]
            else []) ++
          (if !Ctx.callsites.isEmpty then ["Callsites"] else []) ∧
      ∃ tail, out = YamlEvent.beginMapping ::
        writeFields Ctx.guid Ctx.getTotalRootEntryCount Ctx.counters ++ tail) ∧
    (Ctx.indicesBelow (2 ^ 32 - 1) = true →
      ∃ out, Returns (fun fuel => toYamlCtx fuel Ctx) out) ∧
    (max_element Ctx.callsites = 2 ^ 32 - 1 → ∀ fuel, toYamlCtx fuel Ctx = none) ∧
    (∀ (g : Nat) (t : Option Nat) (c : List Nat),
      writeFields g t c =
        [YamlEvent.preflightKey "Guid" true, YamlEvent.yamlize g, YamlEvent.postflightKey] ++
        (match t with
          | some T =>
            [YamlEvent.preflightKey "TotalRootEntryCount" true, YamlEvent.yamlize T,
              YamlEvent.postflightKey]
          | none => []) ++
        [YamlEvent.preflightKey "Counters" true, YamlEvent.beginFlowSequence] ++
        (c.enumFrom 0).flatMap (fun p =>
          [YamlEvent.preflightFlowElement p.1, YamlEvent.yamlize p.2,
            YamlEvent.postflightFlowElement]) ++
        [YamlEvent.endFlowSequence, YamlEvent.postflightKey]) ∧
    (∀ (Flat : CtxProfFlatProfile) (fuel : Nat), 2 ≤ fuel →
      toYamlFlat fuel Flat = some (blockSequence (Flat.map (fun e =>
        YamlEvent.beginMapping :: writeFields e.1 none e.2 ++ [YamlEvent.endMapping])))) ∧
    (∀ (g : Nat) (c : List Nat),
      mappingKeys 0 (YamlEvent.beginMapping :: writeFields g none c ++
        [YamlEvent.endMapping]) = ["Guid", "Counters"]) := by
  refine ⟨?_, toYamlCtx_total Ctx,
    fun h => toYamlCtx_never Ctx (max_element_empty_ne _ h)
      (toYamlCallsites_never _ (le_of_eq h.symm)),
    ?_, toYamlFlat_eq, ?_⟩
  · intro fuel out h
    cases fuel with
    | zero =>
      have h0 : toYamlCtx 0 Ctx = none := rfl
      rw [h0] at h
      cases h
    | succ n =>
      rw [toYamlCtx] at h
      cases hr : Ctx.isRoot with
      | true =>
        simp only [hr, if_true] at h
        have hk := mappingKeys_toYamlNode h
        have hs : Ctx.getTotalRootEntryCount.isSome = true := hr
        refine ⟨?_, ?_⟩
        · rw [hk, hs]
          simp
        · cases n with
          | zero =>
            have h0 : toYamlNode 0 Ctx.guid Ctx.counters Ctx.callsites
              Ctx.getTotalRootEntryCount (Ctx.getUnhandled.getD []) = none := rfl
            rw [h0] at h
            cases h
          | succ n =>
            obtain ⟨outU, outC, rfl, _, _⟩ := toYamlNode_cases h
            exact ⟨outU ++ outC ++ [YamlEvent.endMapping], by simp⟩
      | false =>
        simp only [hr, Bool.false_eq_true, if_false] at h
        have hk := mappingKeys_toYamlNode h
        have hs : Ctx.getTotalRootEntryCount = none := by
          unfold PGOCtxProfContext.isRoot at hr
          cases ht : Ctx.getTotalRootEntryCount with
          | none => rfl
          | some v => rw [ht] at hr; cases hr
        refine ⟨?_, ?_⟩
        · rw [hk]
          simp
        · cases n with
          | zero =>
            have h0 : toYamlNode 0 Ctx.guid Ctx.counters Ctx.callsites none [] = none := rfl
            rw [h0] at h
            cases h
          | succ n =>
            obtain ⟨outU, outC, rfl, _, _⟩ := toYamlNode_cases h
            rw [hs]
            exact ⟨outU ++ outC ++ [YamlEvent.endMapping], by simp⟩
  · intro g t c
    unfold writeFields
    rw [countersLoop_eq]
  · intro g c
    have h := mappingKeys_toYamlNode (toYamlNode_flat 0 g c)
    simpa using h

/-- C15 (witness): the root of the sample profile is written as a mapping
with the keys Guid, TotalRootEntryCount, Counters, Unhandled and Callsites;
its child as one with the keys Guid and Counters; the root with a child at
the call-site index 4294967295 is not written. -/
theorem toYamlCtx_mapping_witness :
    (∃ out, toYamlCtx 8 sampleRoot = some out ∧
      mappingKeys 0 out =
        ["Guid", "TotalRootEntryCount", "Counters", "Unhandled", "Callsites"]) ∧
    (∃ out, toYamlCtx 8 (leafContext 9 [5]) = some out ∧
      mappingKeys 0 out = ["Guid", "Counters"]) ∧
    (max_element maxIndexRoot.callsites = 2 ^ 32 - 1 ∧
      ∀ fuel, toYamlCtx fuel maxIndexRoot = none) :=
  ⟨⟨_, rfl, ((toYamlCtx_mapping sampleRoot).1 8 _ rfl).1⟩,
    ⟨_, rfl, ((toYamlCtx_mapping (leafContext 9 [5])).1 8 _ rfl).1⟩,
    ⟨by decide, (toYamlCtx_mapping maxIndexRoot).2.2.1 (by decide)⟩⟩

/-- C15 (failing input).  Of a root block whose child has the CallsiteIndex
record 4294967295 the reader makes a root with a child at that call-site
index, and `toYaml(Out, Ctx)` gives no result for this root, whatever the
fuel: its mapping is begun and never ended, and neither is the rendering of a
profile that holds the root. -/
theorem toYamlCtx_max_index_unrendered :
    Returns (fun fuel => readProfile tokCursor fuel ContextRootBlockID
        (TokState.inBlock ContextRootBlockID maxIndexRootBody))
      (Except.ok ((none, maxIndexRoot), TokState.start [])) ∧
    (∀ fuel, toYamlCtx fuel maxIndexRoot = none) ∧
    (∀ fuel, convertCtxProfToYaml fuel
      { Contexts := [(7, maxIndexRoot)], FlatProfiles := [] } = none) := by
  have hroot : ∀ fuel, toYamlCtx fuel maxIndexRoot = none :=
    toYamlCtx_never _ rfl (toYamlCallsites_never _ (by
      have : max_element maxIndexCallsites = 4294967295 := by
        simp [max_element, maxIndexCallsites]
      show 2 ^ 32 - 1 ≤ max_element maxIndexCallsites
      rw [this]; norm_num))
  refine ⟨readProfile_returns tokCursor (n := 12) rfl, hroot, fun fuel => ?_⟩
  unfold convertCtxProfToYaml
  rw [toYamlCallTargets_never _ _ _ hroot fuel]
  rfl

/-! ## C16: a decode completes or fails -/

section Termination

variable {σ : Type} (C : BitstreamCursor σ) {μ : σ → Nat}

theorem tryGetNextKnownBlockID_consumes (hC : Consuming C μ) (s : σ) :
    μ (tryGetNextKnownBlockID C s).2 ≤ μ s ∧
      ((tryGetNextKnownBlockID C s).1 ≠ none → μ (tryGetNextKnownBlockID C s).2 < μ s) := by
  unfold tryGetNextKnownBlockID
  rcases hA : advance C s with ⟨_ | Blk, s1⟩
  · have := hC.advance_le AF_DontAutoprocessAbbrevs s
    unfold advance at hA
    rw [hA] at this
    exact ⟨this, fun h => absurd rfl h⟩
  · have h1 := hC.advance_le AF_DontAutoprocessAbbrevs s
    have h2 := hC.advance_lt AF_DontAutoprocessAbbrevs s Blk s1
    unfold advance at hA
    rw [hA] at h1
    simp only
    by_cases hK : Blk.Kind ≠ EntryKind.SubBlock
    · rw [if_pos hK]
      exact ⟨h1, fun h => absurd rfl h⟩
    · rw [if_neg hK]
      have hK1 : Blk.Kind = EntryKind.SubBlock := not_not.mp hK
      split
      · exact ⟨h1, fun h => absurd rfl h⟩
      · exact ⟨h1, fun _ => h2 hA (Or.inl hK1)⟩

theorem canEnterBlockWithID_consumes (hC : Consuming C μ) (ID : Nat) (s : σ) :
    μ (canEnterBlockWithID C ID s).2 ≤ μ s ∧
      ((canEnterBlockWithID C ID s).1 = true → μ (canEnterBlockWithID C ID s).2 < μ s) := by
  have h := tryGetNextKnownBlockID_consumes C hC s
  unfold canEnterBlockWithID
  rcases hT : tryGetNextKnownBlockID C s with ⟨_ | Test, s1⟩
  · rw [hT] at h
    exact ⟨h.1, fun hc => by cases hc⟩
  · rw [hT] at h
    exact ⟨h.1, fun _ => h.2 (by simp)⟩

theorem enterBlockWithID_consumes (hC : Consuming C μ) (ID : Nat) (s : σ) :
    μ (enterBlockWithID C ID s).2 ≤ μ s :=
  hC.enter_le ID s

/-- What a successful call or iteration of the reader leaves of the stream. -/
theorem decode_consumes (hC : Consuming C μ) (n : Nat) :
    (∀ Kind s r s1, readProfile C n Kind s = some (Except.ok (r, s1)) → μ s1 < μ s) ∧
    (∀ Kind F s F1 s1, readFields C n Kind F s = some (Except.ok (F1, s1)) →
      μ s1 ≤ μ s ∧ (GotAllWeNeed Kind F = false → μ s1 < μ s)) ∧
    (∀ Kind F s F1 s1, readField C n Kind F s = some (Except.ok (F1, s1)) → μ s1 < μ s) ∧
    (∀ I Ret s r s1, readCallees C n I Ret s = some (Except.ok (r, s1)) → μ s1 ≤ μ s) ∧
    (∀ P s P1 s1, loadFlatProfileList C n P s = some (Except.ok (P1, s1)) →
      μ s1 ≤ μ s) := by
  induction n with
  | zero =>
    refine ⟨?_, ?_, ?_, ?_, ?_⟩ <;> intros <;>
      simp_all [readProfile, readFields, readField, readCallees, loadFlatProfileList]
  | succ n ih =>
    obtain ⟨ih1, ih2, ih3, ih4, ih5⟩ := ih
    refine ⟨?_, ?_, ?_, ?_, ?_⟩
    · intro Kind s r s' h
      rw [readProfile] at h
      have hE0 := enterBlockWithID_consumes C hC Kind s
      rcases hE : enterBlockWithID C Kind s with ⟨_ | _, s1⟩
      · rw [hE] at h; cases h
      · rw [hE] at h hE0
        simp only at h hE0
        cases hF : readFields C n Kind {} s1 with
        | none => rw [hF] at h; cases h
        | some x =>
          rw [hF] at h
          cases x with
          | error e => cases h
          | ok v =>
            obtain ⟨F, s2⟩ := v
            simp only at h
            have h1 := (ih2 _ _ _ _ _ hF).2 rfl
            have h2 := ih4 _ _ _ _ _ h
            omega
    · intro Kind F s F' s' h
      rw [readFields] at h
      by_cases hG : GotAllWeNeed Kind F = true
      · rw [if_pos hG] at h
        cases h
        exact ⟨le_refl _, fun hc => by rw [hG] at hc; cases hc⟩
      · rw [if_neg hG] at h
        cases hR : readField C n Kind F s with
        | none => rw [hR] at h; cases h
        | some x =>
          rw [hR] at h
          cases x with
          | error e => cases h
          | ok v =>
            obtain ⟨F1, s1⟩ := v
            have h1 := ih3 _ _ _ _ _ hR
            have h2 := (ih2 _ _ _ _ _ h).1
            exact ⟨by omega, fun _ => by omega⟩
    · intro Kind F s F' s' h
      rw [readField] at h
      have hlt := hC.advance_lt AF_DontAutoprocessAbbrevs s
      rcases hA : advance C s with ⟨_ | Entry, s1⟩
      · rw [hA] at h; cases h
      · rw [hA] at h
        have hlt1 := hlt Entry s1 hA
        simp only at h
        by_cases hK : Entry.Kind ≠ EntryKind.Record
        · rw [if_pos hK] at h
          by_cases hU : Kind = PGOCtxProfileBlockIDs.ContextRootBlockID ∧
              Entry.Kind = EntryKind.SubBlock ∧
              Entry.ID = PGOCtxProfileBlockIDs.UnhandledBlockID
          · rw [if_pos hU] at h
            have hE0 := enterBlockWithID_consumes C hC
              PGOCtxProfileBlockIDs.UnhandledBlockID s1
            rcases hE : enterBlockWithID C PGOCtxProfileBlockIDs.UnhandledBlockID s1
              with ⟨_ | _, s2⟩
            · rw [hE] at h; cases h
            · rw [hE] at h hE0
              simp only at h hE0
              cases hL : loadFlatProfileList C n [] s2 with
              | none => rw [hL] at h; cases h
              | some x =>
                rw [hL] at h
                cases x with
                | error e => cases h
                | ok v =>
                  obtain ⟨P, s3⟩ := v
                  cases h
                  have h1 := ih5 _ _ _ _ hL
                  have h2 := hlt1 (Or.inl hU.2.1)
                  omega
          · rw [if_neg hU] at h; cases h
        · rw [if_neg hK] at h
          have hR0 := hC.read_le bitc.UNABBREV_RECORD s1
          rcases hR : C.readRecord bitc.UNABBREV_RECORD s1 with ⟨_ | ⟨Code, Vals⟩, s2⟩
          · rw [hR] at h; cases h
          · rw [hR] at h hR0
            simp only at h hR0
            cases hA' : applyRecord Kind F Code Vals with
            | error e => rw [hA'] at h; cases h
            | ok F1 =>
              rw [hA'] at h
              cases h
              have h2 := hlt1 (Or.inr (not_not.mp hK))
              omega
    · intro I Ret s r s' h
      rw [readCallees] at h
      have hC0 := canEnterBlockWithID_consumes C hC
        PGOCtxProfileBlockIDs.ContextNodeBlockID s
      rcases hCan : canEnterBlockWithID C PGOCtxProfileBlockIDs.ContextNodeBlockID s
        with ⟨_ | _, s1⟩
      · rw [hCan] at h hC0; cases h; exact hC0.1
      · rw [hCan] at h hC0
        simp only at h hC0
        cases hP : readProfile C n PGOCtxProfileBlockIDs.ContextNodeBlockID s1 with
        | none => rw [hP] at h; cases h
        | some x =>
          rw [hP] at h
          cases x with
          | error e => cases h
          | ok v =>
            obtain ⟨SC, s2⟩ := v
            simp only at h
            cases hI : insertCallee Ret (SC.1.getD 0) SC.2 with
            | error e => rw [hI] at h; cases h
            | ok Ret1 =>
              rw [hI] at h
              have h1 := ih1 _ _ _ _ hP
              have h2 := ih4 _ _ _ _ _ h
              omega
    · intro P s P' s' h
      rw [loadFlatProfileList] at h
      have hC0 := canEnterBlockWithID_consumes C hC
        PGOCtxProfileBlockIDs.FlatProfileBlockID s
      rcases hCan : canEnterBlockWithID C PGOCtxProfileBlockIDs.FlatProfileBlockID s
        with ⟨_ | _, s1⟩
      · rw [hCan] at h hC0; cases h; exact hC0.1
      · rw [hCan] at h hC0
        simp only at h hC0
        cases hR : readProfile C n PGOCtxProfileBlockIDs.FlatProfileBlockID s1 with
        | none => rw [hR] at h; cases h
        | some x =>
          rw [hR] at h
          cases x with
          | error e => cases h
          | ok v =>
            obtain ⟨E, s2⟩ := v
            simp only at h
            by_cases hD : (!(mapInsert E.2.guid E.2.counters P).2) = true
            · rw [if_pos hD] at h; cases h
            · rw [if_neg hD] at h
              have h1 := ih1 _ _ _ _ hR
              have h2 := ih5 _ _ _ _ h
              omega

/-- With fuel in proportion to what is left of the stream, every call and
loop of the reader gives a result or an error. -/
theorem decode_total (hC : Consuming C μ) (n : Nat) :
    (∀ Kind s, 2 * μ s + 3 ≤ n → ∃ r, readProfile C n Kind s = some r) ∧
    (∀ Kind F s, 2 * μ s + 2 ≤ n → ∃ r, readFields C n Kind F s = some r) ∧
    (∀ Kind F s, 2 * μ s + 1 ≤ n → ∃ r, readField C n Kind F s = some r) ∧
    (∀ I Ret s, 2 * μ s + 2 ≤ n → ∃ r, readCallees C n I Ret s = some r) ∧
    (∀ P s, 2 * μ s + 2 ≤ n → ∃ r, loadFlatProfileList C n P s = some r) := by
  induction n with
  | zero =>
    refine ⟨?_, ?_, ?_, ?_, ?_⟩ <;> intros <;> omega
  | succ n ih =>
    obtain ⟨ih1, ih2, ih3, ih4, ih5⟩ := ih
    obtain ⟨d1, d2, d3, d4, d5⟩ := decode_consumes C hC n
    refine ⟨?_, ?_, ?_, ?_, ?_⟩
    · intro Kind s hn
      rw [readProfile]
      have hE0 := enterBlockWithID_consumes C hC Kind s
      rcases hE : enterBlockWithID C Kind s with ⟨_ | _, s1⟩
      · exact ⟨_, rfl⟩
      · rw [hE] at hE0
        simp only at hE0 ⊢
        obtain ⟨x, hF⟩ := ih2 Kind {} s1 (by omega)
        rw [hF]
        cases x with
        | error e => exact ⟨_, rfl⟩
        | ok v =>
          obtain ⟨F, s2⟩ := v
          simp only
          have h1 := (d2 _ _ _ _ _ hF).1
          exact ih4 _ _ s2 (by omega)
    · intro Kind F s hn
      rw [readFields]
      by_cases hG : GotAllWeNeed Kind F = true
      · rw [if_pos hG]
        exact ⟨_, rfl⟩
      · rw [if_neg hG]
        obtain ⟨x, hR⟩ := ih3 Kind F s (by omega)
        rw [hR]
        cases x with
        | error e => exact ⟨_, rfl⟩
        | ok v =>
          obtain ⟨F1, s1⟩ := v
          have h1 := d3 _ _ _ _ _ hR
          exact ih2 Kind F1 s1 (by omega)
    · intro Kind F s hn
      rw [readField]
      have hlt := hC.advance_lt AF_DontAutoprocessAbbrevs s
      rcases hA : advance C s with ⟨_ | Entry, s1⟩
      · exact ⟨_, rfl⟩
      · have hlt1 := hlt Entry s1 hA
        simp only
        by_cases hK : Entry.Kind ≠ EntryKind.Record
        · rw [if_pos hK]
          by_cases hU : Kind = PGOCtxProfileBlockIDs.ContextRootBlockID ∧
              Entry.Kind = EntryKind.SubBlock ∧
              Entry.ID = PGOCtxProfileBlockIDs.UnhandledBlockID
          · rw [if_pos hU]
            have hE0 := enterBlockWithID_consumes C hC
              PGOCtxProfileBlockIDs.UnhandledBlockID s1
            rcases hE : enterBlockWithID C PGOCtxProfileBlockIDs.UnhandledBlockID s1
              with ⟨_ | _, s2⟩
            · exact ⟨_, rfl⟩
            · rw [hE] at hE0
              simp only at hE0 ⊢
              have h2 := hlt1 (Or.inl hU.2.1)
              obtain ⟨x, hL⟩ := ih5 [] s2 (by omega)
              rw [hL]
              cases x with
              | error e => exact ⟨_, rfl⟩
              | ok v => exact ⟨_, rfl⟩
          · rw [if_neg hU]
            exact ⟨_, rfl⟩
        · rw [if_neg hK]
          rcases hR : C.readRecord bitc.UNABBREV_RECORD s1 with ⟨_ | ⟨Code, Vals⟩, s2⟩
          · exact ⟨_, rfl⟩
          · simp only
            cases hA' : applyRecord Kind F Code Vals with
            | error e => exact ⟨_, rfl⟩
            | ok F1 => exact ⟨_, rfl⟩
    · intro I Ret s hn
      rw [readCallees]
      have hC0 := canEnterBlockWithID_consumes C hC
        PGOCtxProfileBlockIDs.ContextNodeBlockID s
      rcases hCan : canEnterBlockWithID C PGOCtxProfileBlockIDs.ContextNodeBlockID s
        with ⟨_ | _, s1⟩
      · exact ⟨_, rfl⟩
      · rw [hCan] at hC0
        simp only at hC0 ⊢
        have h0 := hC0.2 trivial
        obtain ⟨x, hP⟩ := ih1 PGOCtxProfileBlockIDs.ContextNodeBlockID s1 (by omega)
        rw [hP]
        cases x with
        | error e => exact ⟨_, rfl⟩
        | ok v =>
          obtain ⟨SC, s2⟩ := v
          simp only
          cases hI : insertCallee Ret (SC.1.getD 0) SC.2 with
          | error e => exact ⟨_, rfl⟩
          | ok Ret1 =>
            have h1 := d1 _ _ _ _ hP
            exact ih4 _ _ s2 (by omega)
    · intro P s hn
      rw [loadFlatProfileList]
      have hC0 := canEnterBlockWithID_consumes C hC
        PGOCtxProfileBlockIDs.FlatProfileBlockID s
      rcases hCan : canEnterBlockWithID C PGOCtxProfileBlockIDs.FlatProfileBlockID s
        with ⟨_ | _, s1⟩
      · exact ⟨_, rfl⟩
      · rw [hCan] at hC0
        simp only at hC0 ⊢
        have h0 := hC0.2 trivial
        obtain ⟨x, hR⟩ := ih1 PGOCtxProfileBlockIDs.FlatProfileBlockID s1 (by omega)
        rw [hR]
        cases x with
        | error e => exact ⟨_, rfl⟩
        | ok v =>
          obtain ⟨E, s2⟩ := v
          simp only
          by_cases hD : (!(mapInsert E.2.guid E.2.counters P).2) = true
          · rw [if_pos hD]
            exact ⟨_, rfl⟩
          · rw [if_neg hD]
            have h1 := d1 _ _ _ _ hR
            exact ih5 _ s2 (by omega)

end Termination

section TerminationLoaders

variable {σ : Type} (C : BitstreamCursor σ) {μ : σ → Nat}

theorem loadContextRoots_consumes (hC : Consuming C μ) (n : Nat) :
    ∀ P s P1 s1, loadContextRoots C n P s = some (Except.ok (P1, s1)) → μ s1 ≤ μ s := by
  induction n with
  | zero => intro P s P1 s1 h; rw [loadContextRoots] at h; cases h
  | succ n ih =>
    intro P s P1 s1 h
    rw [loadContextRoots] at h
    have hC0 := canEnterBlockWithID_consumes C hC
      PGOCtxProfileBlockIDs.ContextRootBlockID s
    rcases hCan : canEnterBlockWithID C PGOCtxProfileBlockIDs.ContextRootBlockID s
      with ⟨_ | _, s2⟩
    · rw [hCan] at h hC0; cases h; exact hC0.1
    · rw [hCan] at h hC0
      simp only at h hC0
      cases hR : readProfile C n PGOCtxProfileBlockIDs.ContextRootBlockID s2 with
      | none => rw [hR] at h; cases h
      | some x =>
        rw [hR] at h
        cases x with
        | error e => cases h
        | ok v =>
          obtain ⟨E, s3⟩ := v
          simp only at h
          by_cases hD : (!(mapInsert E.2.guid E.2 P).2) = true
          · rw [if_pos hD] at h; cases h
          · rw [if_neg hD] at h
            have h1 := (decode_consumes C hC n).1 _ _ _ _ hR
            have h2 := ih _ _ _ _ h
            omega

theorem loadContextRoots_total (hC : Consuming C μ) (n : Nat) :
    ∀ P s, 2 * μ s + 2 ≤ n → ∃ r, loadContextRoots C n P s = some r := by
  induction n with
  | zero => intro P s h; omega
  | succ n ih =>
    intro P s hn
    rw [loadContextRoots]
    have hC0 := canEnterBlockWithID_consumes C hC
      PGOCtxProfileBlockIDs.ContextRootBlockID s
    rcases hCan : canEnterBlockWithID C PGOCtxProfileBlockIDs.ContextRootBlockID s
      with ⟨_ | _, s1⟩
    · exact ⟨_, rfl⟩
    · rw [hCan] at hC0
      simp only at hC0 ⊢
      have h0 := hC0.2 trivial
      obtain ⟨x, hR⟩ := (decode_total C hC n).1
        PGOCtxProfileBlockIDs.ContextRootBlockID s1 (by omega)
      rw [hR]
      cases x with
      | error e => exact ⟨_, rfl⟩
      | ok v =>
        obtain ⟨E, s2⟩ := v
        simp only
        by_cases hD : (!(mapInsert E.2.guid E.2 P).2) = true
        · rw [if_pos hD]
          exact ⟨_, rfl⟩
        · rw [if_neg hD]
          have h1 := (decode_consumes C hC n).1 _ _ _ _ hR
          exact ih _ s2 (by omega)

theorem loadSections_total (hC : Consuming C μ) (n : Nat) :
    ∀ k Ret s, 2 * μ s + 2 ≤ n → ∃ r, loadSections C n k Ret s = some r := by
  intro k
  induction k with
  | zero => intro Ret s _; exact ⟨_, rfl⟩
  | succ k ih =>
    intro Ret s hn
    rw [loadSections]
    have hT0 := tryGetNextKnownBlockID_consumes C hC s
    rcases hT : tryGetNextKnownBlockID C s with ⟨_ | Test, s1⟩
    · exact ⟨_, rfl⟩
    · rw [hT] at hT0
      simp only at hT0 ⊢
      have h0 := hT0.1
      by_cases h1 : Test = PGOCtxProfileBlockIDs.ContextsSectionBlockID
      · rw [if_pos h1]
        unfold loadContexts
        have hE0 := enterBlockWithID_consumes C hC
          PGOCtxProfileBlockIDs.ContextsSectionBlockID s1
        rcases hE : enterBlockWithID C PGOCtxProfileBlockIDs.ContextsSectionBlockID s1
          with ⟨_ | _, s2⟩
        · exact ⟨_, rfl⟩
        · rw [hE] at hE0
          simp only at hE0 ⊢
          obtain ⟨x, hL⟩ := loadContextRoots_total C hC n Ret.Contexts s2 (by omega)
          rw [hL]
          cases x with
          | error e => exact ⟨_, rfl⟩
          | ok v =>
            obtain ⟨P, s3⟩ := v
            simp only
            have h2 := loadContextRoots_consumes C hC n _ _ _ _ hL
            exact ih _ s3 (by omega)
      · rw [if_neg h1]
        by_cases h2 : Test = PGOCtxProfileBlockIDs.FlatProfilesSectionBlockID
        · rw [if_pos h2]
          unfold loadFlatProfiles
          have hE0 := enterBlockWithID_consumes C hC
            PGOCtxProfileBlockIDs.FlatProfilesSectionBlockID s1
          rcases hE : enterBlockWithID C
            PGOCtxProfileBlockIDs.FlatProfilesSectionBlockID s1 with ⟨_ | _, s2⟩
          · exact ⟨_, rfl⟩
          · rw [hE] at hE0
            simp only at hE0 ⊢
            obtain ⟨x, hL⟩ := (decode_total C hC n).2.2.2.2 Ret.FlatProfiles s2 (by omega)
            rw [hL]
            cases x with
            | error e => exact ⟨_, rfl⟩
            | ok v =>
              obtain ⟨P, s3⟩ := v
              simp only
              have h3 := (decode_consumes C hC n).2.2.2.2 _ _ _ _ hL
              exact ih _ s3 (by omega)
        · rw [if_neg h2]
          exact ⟨_, rfl⟩

theorem readMetadata_consumes (hC : Consuming C μ) (W : PGOCtxProfileWriter)
    (Magic : List Nat) (s : σ) : μ (readMetadata C W Magic s).2 ≤ μ s := by
  unfold readMetadata
  split
  · exact le_refl _
  · have a1 := hC.advance_le 0 s
    rcases h1 : C.advance 0 s with ⟨_ | Entry, s1⟩
    · rw [h1] at a1; exact a1
    · rw [h1] at a1
      simp only at a1 ⊢
      split
      · exact a1
      · have a2 := hC.skip_le s1
        rcases h2 : C.SkipBlock s1 with ⟨_ | _, s2⟩
        · rw [h2] at a2; exact le_trans a2 a1
        · rw [h2] at a2
          simp only at a2 ⊢
          have a3 := hC.advance_le AF_DontAutoprocessAbbrevs s2
          unfold advance
          rcases h3 : C.advance AF_DontAutoprocessAbbrevs s2 with ⟨_ | Blk, s3⟩
          · rw [h3] at a3; exact le_trans a3 (le_trans a2 a1)
          · rw [h3] at a3
            simp only at a3 ⊢
            split
            · exact le_trans a3 (le_trans a2 a1)
            · have a4 := hC.enter_le PGOCtxProfileBlockIDs.ProfileMetadataBlockID s3
              rcases h4 : C.EnterSubBlock PGOCtxProfileBlockIDs.ProfileMetadataBlockID s3
                with ⟨_ | _, s4⟩
              · rw [h4] at a4; simp only at a4 ⊢; omega
              · rw [h4] at a4
                simp only at a4 ⊢
                have a5 := hC.advance_le AF_DontAutoprocessAbbrevs s4
                rcases h5 : C.advance AF_DontAutoprocessAbbrevs s4 with ⟨_ | MData, s5⟩
                · rw [h5] at a5; simp only at a5 ⊢; omega
                · rw [h5] at a5
                  simp only at a5 ⊢
                  split
                  · simp only; omega
                  · have a6 := hC.read_le bitc.UNABBREV_RECORD s5
                    rcases h6 : C.readRecord bitc.UNABBREV_RECORD s5
                      with ⟨_ | ⟨Code, Ver⟩, s6⟩
                    · rw [h6] at a6; simp only at a6 ⊢; omega
                    · rw [h6] at a6
                      simp only at a6 ⊢
                      split
                      · simp only; omega
                      · split
                        · simp only; omega
                        · simp only; omega

theorem loadProfiles_total (hC : Consuming C μ) (W : PGOCtxProfileWriter)
    (Magic : List Nat) (n : Nat) (s : σ) (hn : 2 * μ s + 2 ≤ n) :
    ∃ r, loadProfiles C W Magic n s = some r := by
  unfold loadProfiles
  have h0 := readMetadata_consumes C hC W Magic s
  rcases hM : readMetadata C W Magic s with ⟨_ | _, s1⟩
  · exact ⟨_, rfl⟩
  · rw [hM] at h0
    simp only at h0 ⊢
    exact loadSections_total C hC n 2 _ s1 (by omega)

end TerminationLoaders

theorem skipToEnd_length : ∀ (toks : List Tok) (d : Nat) (r : List Tok),
    skipToEnd d toks = some r → r.length ≤ toks.length := by
  intro toks
  induction toks with
  | nil => intro d r h; cases d <;> simp [skipToEnd] at h
  | cons t toks ih =>
    intro d r h
    cases t with
    | subBlock ID w =>
      have := ih (d + 1) r (by simpa [skipToEnd] using h)
      simp only [List.length_cons]
      omega
    | endBlock =>
      cases d with
      | zero =>
        simp only [skipToEnd, Option.some.injEq] at h
        subst h
        simp
      | succ d =>
        have := ih d r (by simpa [skipToEnd] using h)
        simp only [List.length_cons]
        omega
    | record Code Vals =>
      have := ih d r (by simpa [skipToEnd] using h)
      simp only [List.length_cons]
      omega
    | badRecord =>
      have := ih d r (by simpa [skipToEnd] using h)
      simp only [List.length_cons]
      omega
    | malformed =>
      have := ih d r (by simpa [skipToEnd] using h)
      simp only [List.length_cons]
      omega

/-- The cursor over a sequence of entries consumes it: the measure is the
number of entries ahead. -/
theorem tokCursor_consuming : Consuming tokCursor (fun s => s.rest.length) := by
  constructor
  · intro flags s
    obtain ⟨last, rest⟩ := s
    cases rest with
    | nil => simp [tokCursor]
    | cons t r => cases t <;> simp [tokCursor]
  · intro flags s Entry s1 h hK
    obtain ⟨last, rest⟩ := s
    cases rest with
    | nil =>
      simp only [tokCursor, Prod.mk.injEq, Except.ok.injEq] at h
      obtain ⟨h1, _⟩ := h
      subst h1
      rcases hK with hK | hK <;> cases hK
    | cons t r =>
      cases t <;> simp only [tokCursor, Prod.mk.injEq, Except.ok.injEq, reduceCtorEq,
        false_and] at h
      all_goals
        obtain ⟨h1, h2⟩ := h
        subst h1 h2
        simp only [List.length_cons]
        omega
  · intro ID s
    obtain ⟨last, rest⟩ := s
    simp only [tokCursor]
    split
    · split <;> exact le_refl _
    · exact le_refl _
  · intro s
    obtain ⟨last, rest⟩ := s
    simp only [tokCursor]
    split
    · cases h : skipToEnd 0 rest with
      | none => simp
      | some r => exact skipToEnd_length rest 0 r h
    · exact le_refl _
  · intro a s
    obtain ⟨last, rest⟩ := s
    simp only [tokCursor]
    split <;> exact le_refl _

/-- C16.  A decode either completes or fails.  For every state of the cursor
over a finite sequence of entries, `loadProfiles`, and `readProfile` for
every kind of block, returns a result or an error, the same with every amount
of fuel from twice the number of entries ahead plus 3.  This is because:

* every iteration of the field loop that does not fail consumes at least one
  entry;
* the loop condition of the child loop, of the root loop and of the
  flat-entry loop consumes an entry whenever it holds;
* every call of `readProfile` that does not fail, so every recursive call
  into a nested InnerNode, consumes at least one entry. -/
theorem decode_terminates (W : PGOCtxProfileWriter) (Magic : List Nat) :
    (∀ s : TokState, ∃ r, ∀ fuel, 2 * s.rest.length + 3 ≤ fuel →
      loadProfiles tokCursor W Magic fuel s = some r) ∧
    (∀ (Kind : Nat) (s : TokState), ∃ r, ∀ fuel, 2 * s.rest.length + 3 ≤ fuel →
      readProfile tokCursor fuel Kind s = some r) ∧
    (∀ (fuel Kind : Nat) (F F1 : Fields) (s s1 : TokState),
      readField tokCursor fuel Kind F s = some (Except.ok (F1, s1)) →
      s1.rest.length < s.rest.length) ∧
    (∀ (ID : Nat) (s : TokState), (canEnterBlockWithID tokCursor ID s).1 = true →
      (canEnterBlockWithID tokCursor ID s).2.rest.length < s.rest.length) ∧
    (∀ (fuel Kind : Nat) (s s1 : TokState) (r : Option Nat × PGOCtxProfContext),
      readProfile tokCursor fuel Kind s = some (Except.ok (r, s1)) →
      s1.rest.length < s.rest.length) := by
  refine ⟨fun s => ?_, fun Kind s => ?_, fun fuel Kind F F1 s s1 h => ?_, fun ID s h => ?_,
    fun fuel Kind s s1 r h => ?_⟩
  · obtain ⟨r, hr⟩ := loadProfiles_total tokCursor tokCursor_consuming W Magic
      (2 * s.rest.length + 3) s (by omega)
    exact ⟨r, fun fuel hf => loadProfiles_mono tokCursor hf hr⟩
  · obtain ⟨r, hr⟩ := (decode_total tokCursor tokCursor_consuming
      (2 * s.rest.length + 3)).1 Kind s (le_refl _)
    exact ⟨r, fun fuel hf => readProfile_mono tokCursor hf hr⟩
  · exact (decode_consumes tokCursor tokCursor_consuming fuel).2.2.1 _ _ _ _ _ h
  · exact (canEnterBlockWithID_consumes tokCursor tokCursor_consuming ID s).2 h
  · exact (decode_consumes tokCursor tokCursor_consuming fuel).1 _ _ _ _ h

/-! ## C17: map keys and node identity -/

theorem targetsKeysAgree_iff (m : List (Nat × PGOCtxProfContext)) :
    targetsKeysAgree m = true ↔ ∀ e ∈ m, e.1 = e.2.guid ∧ e.2.keysAgree = true := by
  induction m with
  | nil => simp [targetsKeysAgree]
  | cons a m ih =>
    obtain ⟨k, c⟩ := a
    simp [targetsKeysAgree, ih, and_assoc]

theorem callsitesKeysAgree_iff (cs : List (Nat × List (Nat × PGOCtxProfContext))) :
    callsitesKeysAgree cs = true ↔ ∀ e ∈ cs, targetsKeysAgree e.2 = true := by
  induction cs with
  | nil => simp [callsitesKeysAgree]
  | cons a m ih =>
    obtain ⟨k, c⟩ := a
    simp [callsitesKeysAgree, ih]

theorem targetsKeysAgree_mapInsert (c : PGOCtxProfContext)
    (m : List (Nat × PGOCtxProfContext))
    (hc : c.keysAgree = true) (hm : targetsKeysAgree m = true) :
    targetsKeysAgree (mapInsert c.guid c m).1 = true := by
  rw [targetsKeysAgree_iff] at hm ⊢
  intro e he
  rcases mem_mapInsert c.guid c m e he with h | h
  · rw [h]; exact ⟨rfl, hc⟩
  · exact hm e h

theorem insertCallee_keysAgree (Ret Ret1 SC : PGOCtxProfContext) (Index : Nat)
    (h : insertCallee Ret Index SC = Except.ok Ret1)
    (hRet : Ret.keysAgree = true) (hSC : SC.keysAgree = true) :
    Ret1.keysAgree = true := by
  obtain ⟨g, c, t, u, cs⟩ := Ret
  unfold insertCallee at h
  simp only at h
  split at h
  · cases h
  · cases h
    simp only [PGOCtxProfContext.keysAgree, PGOCtxProfContext.setCallsites,
      PGOCtxProfContext.callsites] at hRet ⊢
    have hcs := (callsitesKeysAgree_iff cs).mp hRet
    rw [callsitesKeysAgree_iff]
    intro e he
    rcases mem_mapPut _ _ _ e he with h | h
    · rw [h]
      apply targetsKeysAgree_mapInsert _ _ hSC
      cases hf : mapFind Index cs with
      | none => simp [targetsKeysAgree]
      | some m => exact hcs _ (mem_of_mapFind _ _ _ hf)
    · exact hcs e h

section KeysInvariant

variable {σ : Type} (C : BitstreamCursor σ)

theorem keysAgree_step (n : Nat) :
    (∀ Kind s r s1, readProfile C n Kind s = some (Except.ok (r, s1)) →
      r.2.keysAgree = true) ∧
    (∀ I Ret s r s1, readCallees C n I Ret s = some (Except.ok (r, s1)) →
      Ret.keysAgree = true → r.2.keysAgree = true) := by
  induction n with
  | zero =>
    refine ⟨?_, ?_⟩ <;> intros <;> simp_all [readProfile, readCallees]
  | succ n ih =>
    obtain ⟨ih1, ih4⟩ := ih
    refine ⟨?_, ?_⟩
    · intro Kind s r s' h
      rw [readProfile] at h
      rcases hE : enterBlockWithID C Kind s with ⟨_ | _, s1⟩
      · rw [hE] at h; cases h
      · rw [hE] at h
        simp only at h
        cases hF : readFields C n Kind {} s1 with
        | none => rw [hF] at h; cases h
        | some x =>
          rw [hF] at h
          cases x with
          | error e => cases h
          | ok v =>
            obtain ⟨F, s2⟩ := v
            simp only at h
            exact ih4 _ _ _ _ _ h rfl
    · intro I Ret s r s' h hRet
      rw [readCallees] at h
      rcases hC : canEnterBlockWithID C PGOCtxProfileBlockIDs.ContextNodeBlockID s
        with ⟨_ | _, s1⟩
      · rw [hC] at h; cases h; exact hRet
      · rw [hC] at h
        simp only at h
        cases hP : readProfile C n PGOCtxProfileBlockIDs.ContextNodeBlockID s1 with
        | none => rw [hP] at h; cases h
        | some x =>
          rw [hP] at h
          cases x with
          | error e => cases h
          | ok v =>
            obtain ⟨SC, s2⟩ := v
            simp only at h
            cases hI : insertCallee Ret (SC.1.getD 0) SC.2 with
            | error e => rw [hI] at h; cases h
            | ok Ret1 =>
              rw [hI] at h
              exact ih4 _ _ _ _ _ h
                (insertCallee_keysAgree _ _ _ _ hI hRet (ih1 _ _ _ _ hP))

/-- An inner node is returned with a call-site index. -/
theorem readProfile_node_index {n : Nat} {s s1 : σ} {I : Option Nat}
    {Ctx : PGOCtxProfContext}
    (h : readProfile C n ContextNodeBlockID s = some (Except.ok ((I, Ctx), s1))) :
    ∃ i, I = some i := by
  cases n with
  | zero => simp [readProfile] at h
  | succ n =>
    rw [readProfile] at h
    rcases hE : enterBlockWithID C ContextNodeBlockID s with ⟨_ | _, sa⟩
    · rw [hE] at h; cases h
    · rw [hE] at h
      simp only at h
      cases hF : readFields C n ContextNodeBlockID {} sa with
      | none => rw [hF] at h; cases h
      | some x =>
        rw [hF] at h
        cases x with
        | error e => cases h
        | ok v =>
          obtain ⟨F, sb⟩ := v
          simp only at h
          have hI := readCallees_index C n h
          obtain ⟨recs, hreach, hgot⟩ := readFields_reach C n hF
          cases hc : F.CallsiteIndex with
          | none => simp [GotAllWeNeed, hc] at hgot
          | some i => exact ⟨i, by rw [hI, hc]⟩

theorem calleesReach_trans {Ret Ret1 Ret2 : PGOCtxProfContext} {s s1 s2 : σ}
    {seen seen1 : List (Nat × PGOCtxProfContext)}
    (h : CalleesReach C Ret s seen Ret1 s1) (h1 : CalleesReach C Ret1 s1 seen1 Ret2 s2) :
    CalleesReach C Ret s (seen1 ++ seen) Ret2 s2 := by
  induction h1 with
  | refl => exact h
  | step n _ hC hP hI ih => exact CalleesReach.step n (ih h) hC hP hI

/-- A callee loop that returns has come to the context it returns, and no
callee follows. -/
theorem readCallees_reach (n : Nat) {I I1 : Option Nat} {Ret Ctx : PGOCtxProfContext}
    {s s1 : σ} (h : readCallees C n I Ret s = some (Except.ok ((I1, Ctx), s1))) :
    ∃ seen s2, CalleesReach C Ret s seen Ctx s2 ∧
      canEnterBlockWithID C ContextNodeBlockID s2 = (false, s1) := by
  induction n generalizing Ret s with
  | zero => simp [readCallees] at h
  | succ n ih =>
    rw [readCallees] at h
    rcases hC : canEnterBlockWithID C ContextNodeBlockID s with ⟨_ | _, sa⟩
    · rw [hC] at h
      cases h
      exact ⟨[], s, CalleesReach.refl _ _, hC⟩
    · rw [hC] at h
      simp only at h
      cases hP : readProfile C n ContextNodeBlockID sa with
      | none => rw [hP] at h; cases h
      | some x =>
        rw [hP] at h
        cases x with
        | error e => cases h
        | ok v =>
          obtain ⟨SC, sb⟩ := v
          simp only at h
          cases hI : insertCallee Ret (SC.1.getD 0) SC.2 with
          | error e => rw [hI] at h; cases h
          | ok Ret1 =>
            rw [hI] at h
            obtain ⟨seen, s2, hreach, hend⟩ := ih h
            exact ⟨_, s2, calleesReach_trans C
              (CalleesReach.step n (CalleesReach.refl _ _) hC hP hI) hreach, hend⟩

/-- The callees a callee loop has decoded were returned, each with its
call-site index, by calls of `readProfile` for an inner node. -/
theorem calleesReach_decoded {Ret Ret1 : PGOCtxProfContext} {s s1 : σ}
    {seen : List (Nat × PGOCtxProfContext)} (h : CalleesReach C Ret s seen Ret1 s1) :
    ∀ e ∈ seen, ∃ n s2 s3,
      readProfile C n ContextNodeBlockID s2 = some (Except.ok ((some e.1, e.2), s3)) := by
  induction h with
  | refl => intro e he; cases he
  | @step Ret1 Ret2 s s1 s2 s3 seen SC n _ hC hP hI ih =>
    intro e he
    rcases List.mem_cons.mp he with he | he
    · subst he
      obtain ⟨I, c⟩ := SC
      obtain ⟨i, hi⟩ := readProfile_node_index C hP
      subst hi
      exact ⟨n, s2, s3, hP⟩
    · exact ih e he

theorem rootsSeen_trans {P P1 P2 : CtxProfContextualProfiles} {s s1 s2 : σ}
    {seen seen1 : List PGOCtxProfContext}
    (h : RootsSeen C P s seen P1 s1) (h1 : RootsSeen C P1 s1 seen1 P2 s2) :
    RootsSeen C P s (seen1 ++ seen) P2 s2 := by
  induction h1 with
  | refl => exact h
  | step n _ hC hP hI ih => exact RootsSeen.step n (ih h) hC hP hI

theorem flatListSeen_trans {P P1 P2 : CtxProfFlatProfile} {s s1 s2 : σ}
    {seen seen1 : List PGOCtxProfContext}
    (h : FlatListSeen C P s seen P1 s1) (h1 : FlatListSeen C P1 s1 seen1 P2 s2) :
    FlatListSeen C P s (seen1 ++ seen) P2 s2 := by
  induction h1 with
  | refl => exact h
  | step n _ hC hP hI ih => exact FlatListSeen.step n (ih h) hC hP hI

/-- A root loop that returns has come to the roots it returns, and no root
follows. -/
theorem loadContextRoots_seen (n : Nat) {P P1 : CtxProfContextualProfiles} {s s1 : σ}
    (h : loadContextRoots C n P s = some (Except.ok (P1, s1))) :
    ∃ seen s2, RootsSeen C P s seen P1 s2 ∧
      canEnterBlockWithID C ContextRootBlockID s2 = (false, s1) := by
  induction n generalizing P s with
  | zero => simp [loadContextRoots] at h
  | succ n ih =>
    rw [loadContextRoots] at h
    rcases hC : canEnterBlockWithID C ContextRootBlockID s with ⟨_ | _, sa⟩
    · rw [hC] at h
      cases h
      exact ⟨[], s, RootsSeen.refl _ _, hC⟩
    · rw [hC] at h
      simp only at h
      cases hP : readProfile C n ContextRootBlockID sa with
      | none => rw [hP] at h; cases h
      | some x =>
        rw [hP] at h
        cases x with
        | error e => cases h
        | ok v =>
          obtain ⟨E, sb⟩ := v
          simp only at h
          by_cases hD : (!(mapInsert E.2.guid E.2 P).2) = true
          · rw [if_pos hD] at h; cases h
          · rw [if_neg hD] at h
            obtain ⟨seen, s2, hreach, hend⟩ := ih h
            exact ⟨_, s2, rootsSeen_trans C
              (RootsSeen.step n (RootsSeen.refl _ _) hC hP (by simpa using hD)) hreach,
              hend⟩

/-- A flat-entry loop that returns has come to the flat profile it returns,
and no entry follows. -/
theorem loadFlatProfileList_seen (n : Nat) {P P1 : CtxProfFlatProfile} {s s1 : σ}
    (h : loadFlatProfileList C n P s = some (Except.ok (P1, s1))) :
    ∃ seen s2, FlatListSeen C P s seen P1 s2 ∧
      canEnterBlockWithID C FlatProfileBlockID s2 = (false, s1) := by
  induction n generalizing P s with
  | zero => simp [loadFlatProfileList] at h
  | succ n ih =>
    rw [loadFlatProfileList] at h
    rcases hC : canEnterBlockWithID C FlatProfileBlockID s with ⟨_ | _, sa⟩
    · rw [hC] at h
      cases h
      exact ⟨[], s, FlatListSeen.refl _ _, hC⟩
    · rw [hC] at h
      simp only at h
      cases hP : readProfile C n FlatProfileBlockID sa with
      | none => rw [hP] at h; cases h
      | some x =>
        rw [hP] at h
        cases x with
        | error e => cases h
        | ok v =>
          obtain ⟨E, sb⟩ := v
          simp only at h
          by_cases hD : (!(mapInsert E.2.guid E.2.counters P).2) = true
          · rw [if_pos hD] at h; cases h
          · rw [if_neg hD] at h
            obtain ⟨seen, s2, hreach, hend⟩ := ih h
            exact ⟨_, s2, flatListSeen_trans C
              (FlatListSeen.step n (FlatListSeen.refl _ _) hC hP (by simpa using hD))
              hreach, hend⟩

/-- The roots the loop has decoded are, with the roots it started from, the
roots the map holds, each decoded root under its own guid. -/
theorem rootsSeen_stored {P P1 : CtxProfContextualProfiles} {s s1 : σ}
    {seen : List PGOCtxProfContext} (h : RootsSeen C P s seen P1 s1) :
    (∀ e ∈ seen, mapFind e.guid P1 = some e) ∧
      (∀ g c, mapFind g P1 = some c → mapFind g P = some c ∨ (c ∈ seen ∧ c.guid = g)) := by
  induction h with
  | refl => exact ⟨fun e he => absurd he (List.not_mem_nil e), fun g c hc => Or.inl hc⟩
  | @step P1 s s1 s2 s3 seen E n _ hC hP hI ih =>
    rw [mapInsert_inserted, Option.isNone_iff_eq_none] at hI
    constructor
    · intro e he
      rw [mapFind_mapInsert _ _ _ _ hI]
      rcases List.mem_cons.mp he with he | he
      · subst he
        simp
      · by_cases hk : e.guid = E.2.guid
        · have := ih.1 e he
          rw [hk, hI] at this
          cases this
        · rw [if_neg hk]
          exact ih.1 e he
    · intro g c hc
      rw [mapFind_mapInsert _ _ _ _ hI] at hc
      by_cases hk : g = E.2.guid
      · rw [if_pos hk] at hc
        cases hc
        exact Or.inr ⟨List.mem_cons_self _ _, hk.symm⟩
      · rw [if_neg hk] at hc
        rcases ih.2 g c hc with h | ⟨h1, h2⟩
        · exact Or.inl h
        · exact Or.inr ⟨List.mem_cons_of_mem _ h1, h2⟩

/-- The entries the loop has decoded are, with the entries it started from,
the entries the flat profile holds, each decoded entry under its own guid
with its own counters. -/
theorem flatListSeen_stored {P P1 : CtxProfFlatProfile} {s s1 : σ}
    {seen : List PGOCtxProfContext} (h : FlatListSeen C P s seen P1 s1) :
    (∀ e ∈ seen, mapFind e.guid P1 = some e.counters) ∧
      (∀ g c, mapFind g P1 = some c →
        mapFind g P = some c ∨ ∃ e ∈ seen, e.guid = g ∧ e.counters = c) := by
  induction h with
  | refl => exact ⟨fun e he => absurd he (List.not_mem_nil e), fun g c hc => Or.inl hc⟩
  | @step P1 s s1 s2 s3 seen E n _ hC hP hI ih =>
    rw [mapInsert_inserted, Option.isNone_iff_eq_none] at hI
    constructor
    · intro e he
      rw [mapFind_mapInsert _ _ _ _ hI]
      rcases List.mem_cons.mp he with he | he
      · subst he
        simp
      · by_cases hk : e.guid = E.2.guid
        · have := ih.1 e he
          rw [hk, hI] at this
          cases this
        · rw [if_neg hk]
          exact ih.1 e he
    · intro g c hc
      rw [mapFind_mapInsert _ _ _ _ hI] at hc
      by_cases hk : g = E.2.guid
      · rw [if_pos hk] at hc
        cases hc
        exact Or.inr ⟨E.2, List.mem_cons_self _ _, hk.symm, rfl⟩
      · rw [if_neg hk] at hc
        rcases ih.2 g c hc with h | ⟨e, h1, h2⟩
        · exact Or.inl h
        · exact Or.inr ⟨e, List.mem_cons_of_mem _ h1, h2⟩

theorem loadContextRoots_keysAgree (n : Nat) (P P1 : CtxProfContextualProfiles)
    (s s1 : σ) (h : loadContextRoots C n P s = some (Except.ok (P1, s1)))
    (hP : targetsKeysAgree P = true) : targetsKeysAgree P1 = true := by
  induction n generalizing P s with
  | zero => simp [loadContextRoots] at h
  | succ n ih =>
    rw [loadContextRoots] at h
    rcases hC : canEnterBlockWithID C PGOCtxProfileBlockIDs.ContextRootBlockID s
      with ⟨_ | _, sa⟩
    · rw [hC] at h; cases h; exact hP
    · rw [hC] at h
      simp only at h
      cases hR : readProfile C n PGOCtxProfileBlockIDs.ContextRootBlockID sa with
      | none => rw [hR] at h; cases h
      | some x =>
        rw [hR] at h
        cases x with
        | error e => cases h
        | ok v =>
          obtain ⟨E, s2⟩ := v
          simp only at h
          by_cases hD : (!(mapInsert E.2.guid E.2 P).2) = true
          · rw [if_pos hD] at h; cases h
          · rw [if_neg hD] at h
            exact ih _ _ h (targetsKeysAgree_mapInsert _ _
              ((keysAgree_step C n).1 _ _ _ _ hR) hP)

theorem loadSections_keysAgree (n k : Nat) (Ret Ret1 : PGOCtxProfile)
    (s s1 : σ) (h : loadSections C n k Ret s = some (Except.ok (Ret1, s1)))
    (hRet : Ret.keysAgree = true) : Ret1.keysAgree = true := by
  induction k generalizing Ret s with
  | zero => simp [loadSections] at h; rw [← h.1]; exact hRet
  | succ k ih =>
    rw [loadSections] at h
    rcases hT : tryGetNextKnownBlockID C s with ⟨_ | Test, sa⟩
    · rw [hT] at h
      cases h
      exact hRet
    · rw [hT] at h
      simp only at h
      by_cases h1 : Test = PGOCtxProfileBlockIDs.ContextsSectionBlockID
      · rw [if_pos h1] at h
        cases hL : loadContexts C n Ret.Contexts sa with
        | none => rw [hL] at h; cases h
        | some x =>
          rw [hL] at h
          cases x with
          | error e => cases h
          | ok v =>
            obtain ⟨P, s2⟩ := v
            simp only at h
            refine ih _ _ h ?_
            unfold loadContexts at hL
            rcases hE : enterBlockWithID C PGOCtxProfileBlockIDs.ContextsSectionBlockID sa
              with ⟨_ | _, s3⟩
            · rw [hE] at hL; cases hL
            · rw [hE] at hL
              exact loadContextRoots_keysAgree C _ _ _ _ _ hL hRet
      · rw [if_neg h1] at h
        by_cases h2 : Test = PGOCtxProfileBlockIDs.FlatProfilesSectionBlockID
        · rw [if_pos h2] at h
          cases hL : loadFlatProfiles C n Ret.FlatProfiles sa with
          | none => rw [hL] at h; cases h
          | some x =>
            rw [hL] at h
            cases x with
            | error e => cases h
            | ok v =>
              obtain ⟨P, s2⟩ := v
              simp only at h
              exact ih _ _ h hRet
        · rw [if_neg h2] at h; cases h

/-- C17.  Map keys agree with node identity in every successfully decoded
profile, whatever the cursor.

* In every profile `loadProfiles` returns, every root is stored in the
  contexts under its own guid, and every child context at every depth is
  stored under its own guid.
* Every context `readProfile` returns holds exactly the children `seen` its
  callee loop decoded: each is stored under `callsites[i][g]` where `g` is
  the child's guid and `i` is the call-site index that the call of
  `readProfile` for the child's own block returned with the child; and every
  context stored under `callsites[i][g]` is such a child and has the guid `g`.
* The roots a call of `loadContexts` adds are the roots its loop decoded,
  each stored under its own guid.
* The entries a call of `loadFlatProfileList` adds are the entries its loop
  decoded, each stored under its own guid with its own counters. -/
theorem decoded_keys_agree (W : PGOCtxProfileWriter) (Magic : List Nat) :
    (∀ fuel s0 P s, loadProfiles C W Magic fuel s0 = some (Except.ok (P, s)) →
      P.keysAgree = true ∧ ∀ g c, mapFind g P.Contexts = some c → c.guid = g) ∧
    (∀ fuel Kind s0 I Ctx s1,
      readProfile C fuel Kind s0 = some (Except.ok ((I, Ctx), s1)) →
      Ctx.keysAgree = true ∧
      ∃ seen s, InCallees C Kind s0 seen Ctx s ∧
        canEnterBlockWithID C ContextNodeBlockID s = (false, s1) ∧
        (∀ e ∈ seen, Ctx.callee e.1 e.2.guid = some e.2 ∧
          ∃ n s2 s3, readProfile C n ContextNodeBlockID s2 =
            some (Except.ok ((some e.1, e.2), s3))) ∧
        (∀ i g c, Ctx.callee i g = some c → (i, c) ∈ seen ∧ c.guid = g)) ∧
    (∀ fuel P s0 P1 s1, loadContextRoots C fuel P s0 = some (Except.ok (P1, s1)) →
      ∃ seen s, RootsSeen C P s0 seen P1 s ∧
        canEnterBlockWithID C ContextRootBlockID s = (false, s1) ∧
        (∀ e ∈ seen, mapFind e.guid P1 = some e) ∧
        (∀ g c, mapFind g P1 = some c →
          mapFind g P = some c ∨ (c ∈ seen ∧ c.guid = g))) ∧
    (∀ fuel Q s0 Q1 s1, loadFlatProfileList C fuel Q s0 = some (Except.ok (Q1, s1)) →
      ∃ seen s, FlatListSeen C Q s0 seen Q1 s ∧
        canEnterBlockWithID C FlatProfileBlockID s = (false, s1) ∧
        (∀ e ∈ seen, mapFind e.guid Q1 = some e.counters) ∧
        (∀ g c, mapFind g Q1 = some c →
          mapFind g Q = some c ∨ ∃ e ∈ seen, e.guid = g ∧ e.counters = c)) := by
  refine ⟨?_, ?_, ?_, ?_⟩
  · intro fuel s0 P s h
    unfold loadProfiles at h
    rcases hM : readMetadata C W Magic s0 with ⟨_ | _, sa⟩
    · rw [hM] at h; cases h
    · rw [hM] at h
      have hk := loadSections_keysAgree C _ _ _ _ _ _ h rfl
      refine ⟨hk, fun g c hc => ?_⟩
      have := (targetsKeysAgree_iff _).mp hk _ (mem_of_mapFind _ _ _ hc)
      exact this.1.symm
  · intro fuel Kind s0 I Ctx s1 h
    refine ⟨(keysAgree_step C fuel).1 _ _ _ _ h, ?_⟩
    cases fuel with
    | zero => simp [readProfile] at h
    | succ n =>
      rw [readProfile] at h
      rcases hE : enterBlockWithID C Kind s0 with ⟨_ | _, sa⟩
      · rw [hE] at h; cases h
      · rw [hE] at h
        simp only at h
        cases hF : readFields C n Kind {} sa with
        | none => rw [hF] at h; cases h
        | some x =>
          rw [hF] at h
          cases x with
          | error e => cases h
          | ok v =>
            obtain ⟨F, sb⟩ := v
            simp only at h
            obtain ⟨recs, hreach, hgot⟩ := readFields_reach C n hF
            obtain ⟨seen, s2, hcal, hend⟩ := readCallees_reach C n h
            obtain ⟨hst, hall⟩ := calleesReach_callee C hcal (fun i g => rfl)
            have hdec := calleesReach_decoded C hcal
            refine ⟨seen, s2, ⟨recs, F, sb, ⟨sa, hE, hreach⟩, hgot, hcal⟩, hend,
              fun e he => ⟨hst e he, hdec e he⟩, fun i g c hc => ?_⟩
            obtain ⟨e, he, h1, h2⟩ := hall i g (by rw [hc]; exact Option.some_ne_none _)
            have h3 := hst e he
            rw [h1, h2, hc] at h3
            cases h3
            subst h1
            exact ⟨he, h2⟩
  · intro fuel P s0 P1 s1 h
    obtain ⟨seen, s, hreach, hend⟩ := loadContextRoots_seen C fuel h
    obtain ⟨h1, h2⟩ := rootsSeen_stored C hreach
    exact ⟨seen, s, hreach, hend, h1, h2⟩
  · intro fuel Q s0 Q1 s1 h
    obtain ⟨seen, s, hreach, hend⟩ := loadFlatProfileList_seen C fuel h
    obtain ⟨h1, h2⟩ := flatListSeen_stored C hreach
    exact ⟨seen, s, hreach, hend, h1, h2⟩

end KeysInvariant

/-- C17 (witness): in the profile decoded from the sample container the root
7 is stored under the guid 7 and its child 9 under call-site index 2 and the
guid 9. -/
theorem decoded_keys_agree_witness :
    sampleProfile.keysAgree = true ∧
    (∀ g c, mapFind g sampleProfile.Contexts = some c → c.guid = g) ∧
    PGOCtxProfContext.callee sampleRoot 2 9 = some (leafContext 9 [5]) :=
  ⟨((decoded_keys_agree tokCursor sampleWriter [67, 84, 88, 80]).1 12
      (TokState.start sampleContainer) sampleProfile (TokState.start [Tok.endBlock])
      rfl).1,
    ((decoded_keys_agree tokCursor sampleWriter [67, 84, 88, 80]).1 12
      (TokState.start sampleContainer) sampleProfile (TokState.start [Tok.endBlock])
      rfl).2,
    by simp [PGOCtxProfContext.callee, sampleRoot, PGOCtxProfContext.callsites, mapFind,
      leafContext]⟩

/-! ## C19: the call-site index modulo 2 ^ 32 -/

/-- An InnerNode block without children is decoded to the index of its
CallsiteIndex record modulo `2 ^ 32`. -/
theorem leafBlock_decoded (g v c0 : Nat) (cs : List Nat) (rest : List Tok) (fuel : Nat)
    (hf : 5 ≤ fuel) :
    readProfile tokCursor fuel ContextNodeBlockID
        (TokState.inBlock ContextNodeBlockID ((leafBlock g v (c0 :: cs)).drop 1 ++ rest)) =
      some (Except.ok ((some (v % 2 ^ 32), leafContext g (c0 :: cs)),
        TokState.start rest)) := by
  have h5 : readProfile tokCursor 5 ContextNodeBlockID
      (TokState.inBlock ContextNodeBlockID ((leafBlock g v (c0 :: cs)).drop 1 ++ rest)) =
      some (Except.ok ((some (v % 2 ^ 32), leafContext g (c0 :: cs)),
        TokState.start rest)) := rfl
  exact readProfile_mono tokCursor hf h5

/-- C19.  The call-site index is the record value reduced modulo `2 ^ 32`.
On the cursor over a sequence of entries:

* `readProfile(ContextNodeBlockID)` accepts a CallsiteIndex record with any
  single value `v`, with no range check, and returns the index
  `v mod 2 ^ 32` (here for a block with the records Guid, CallsiteIndex,
  Counters and no children);
* when the callee loop of any call of `readProfile` comes to two such blocks
  with the same guid whose CallsiteIndex records hold `v` and `v + 2 ^ 32`,
  both are decoded to the same index and `readProfile` fails with the
  `invalid_prof` error of a duplicate target. -/
theorem readProfile_index_mod (g v c0 d0 : Nat) (cs ds : List Nat) (rest : List Tok) :
    (∀ fuel, 5 ≤ fuel →
      readProfile tokCursor fuel ContextNodeBlockID
          (TokState.inBlock ContextNodeBlockID
            ((leafBlock g v (c0 :: cs)).drop 1 ++ rest)) =
        some (Except.ok ((some (v % 2 ^ 32), leafContext g (c0 :: cs)),
          TokState.start rest))) ∧
    (∀ fuel, 5 ≤ fuel →
      readProfile tokCursor fuel ContextNodeBlockID
          (TokState.inBlock ContextNodeBlockID
            ((leafBlock g (v + 2 ^ 32) (d0 :: ds)).drop 1 ++ rest)) =
        some (Except.ok ((some (v % 2 ^ 32), leafContext g (d0 :: ds)),
          TokState.start rest))) ∧
    (∀ (Kind : Nat) (s0 : TokState) (seen : List (Nat × PGOCtxProfContext))
      (Ret : PGOCtxProfContext),
      InCallees tokCursor Kind s0 seen Ret
        (TokState.start (leafBlock g v (c0 :: cs) ++ leafBlock g (v + 2 ^ 32) (d0 :: ds) ++
          rest)) →
      Returns (fun fuel => readProfile tokCursor fuel Kind s0)
        (Except.error (Error.instr instrprof_error.invalid_prof
          "Unexpected duplicate target (callee) at the same callsite."))) := by
  have hmod : (v + 2 ^ 32) % 2 ^ 32 = v % 2 ^ 32 := Nat.add_mod_right v (2 ^ 32)
  refine ⟨fun fuel hf => leafBlock_decoded g v c0 cs rest fuel hf, fun fuel hf => ?_,
    fun Kind s0 seen Ret hpos => ?_⟩
  · rw [leafBlock_decoded g (v + 2 ^ 32) d0 ds rest fuel hf, hmod]
  · obtain ⟨I, hI⟩ := inCallees_returns_iff tokCursor hpos
    refine (hI _).mpr ?_
    have hcan1 : canEnterBlockWithID tokCursor ContextNodeBlockID
        (TokState.start (leafBlock g v (c0 :: cs) ++
          leafBlock g (v + 2 ^ 32) (d0 :: ds) ++ rest)) =
        (true, TokState.inBlock ContextNodeBlockID
          ((leafBlock g v (c0 :: cs)).drop 1 ++
            (leafBlock g (v + 2 ^ 32) (d0 :: ds) ++ rest))) := rfl
    have hchild1 := leafBlock_decoded g v c0 cs
      (leafBlock g (v + 2 ^ 32) (d0 :: ds) ++ rest) 5 (le_refl _)
    by_cases hfree : Ret.callee (v % 2 ^ 32) g = none
    · obtain ⟨Ret1, hins, hcal⟩ :=
        insertCallee_free Ret (leafContext g (c0 :: cs)) (v % 2 ^ 32) hfree
      have hstep := CalleesReach.step 5 (CalleesReach.refl (C := tokCursor) Ret _)
        hcan1 hchild1 hins
      refine (calleesReach_returns_iff tokCursor hstep _).mpr ?_
      have hcan2 : canEnterBlockWithID tokCursor ContextNodeBlockID
          (TokState.start (leafBlock g (v + 2 ^ 32) (d0 :: ds) ++ rest)) =
          (true, TokState.inBlock ContextNodeBlockID
            ((leafBlock g (v + 2 ^ 32) (d0 :: ds)).drop 1 ++ rest)) := rfl
      have hchild2 := leafBlock_decoded g (v + 2 ^ 32) d0 ds rest 5 (le_refl _)
      refine readCallees_fail tokCursor hcan2 hchild2 (insertCallee_taken _ _ _ ?_)
      simp only [Option.getD_some, hmod]
      have : (leafContext g (d0 :: ds)).guid = g := rfl
      rw [this, hcal]
      simp [leafContext, PGOCtxProfContext.guid]
    · exact readCallees_fail tokCursor hcan1 hchild1 (insertCallee_taken _ _ _ hfree)

/-- The position of the witness of C19: the root has read its fields and its
callee loop is at the first child. -/
theorem wrappedIndex_position :
    InCallees tokCursor ContextRootBlockID
      (TokState.inBlock ContextRootBlockID wrappedIndexBody) []
      (PGOCtxProfContext.mk 7 [100] (some 100) (some []) [])
      (TokState.start (leafBlock 9 2 [5] ++ leafBlock 9 (2 + 2 ^ 32) [6] ++
        [Tok.endBlock])) := by
  have h0 := @FieldsReach.refl _ tokCursor ContextRootBlockID {}
    (TokState.start wrappedIndexBody)
  have h1 := FieldsReach.step 1 h0 rfl rfl
  have h2 := FieldsReach.step 1 h1 rfl rfl
  have h3 := FieldsReach.step 1 h2 rfl rfl
  have h4 := FieldsReach.step 2 h3 rfl rfl
  exact ⟨_, _, _, ⟨_, tok_enter _ _, h4⟩, rfl, CalleesReach.refl _ _⟩

/-- C19 (witness): a root whose two children have the guid 9 and the
CallsiteIndex record values 2 and 4294967298 is rejected: both children are
decoded to the index 2. -/
theorem readProfile_index_mod_witness :
    readProfile tokCursor 5 ContextNodeBlockID
        (TokState.inBlock ContextNodeBlockID
          ((leafBlock 9 (2 + 2 ^ 32) [6]).drop 1 ++ [Tok.endBlock])) =
      some (Except.ok ((some 2, leafContext 9 [6]), TokState.start [Tok.endBlock])) ∧
    Returns (fun fuel => readProfile tokCursor fuel ContextRootBlockID
        (TokState.inBlock ContextRootBlockID wrappedIndexBody))
      (Except.error (Error.instr instrprof_error.invalid_prof
        "Unexpected duplicate target (callee) at the same callsite.")) :=
  ⟨(readProfile_index_mod 9 2 5 6 [] [] [Tok.endBlock]).2.1 5 (le_refl _),
    (readProfile_index_mod 9 2 5 6 [] [] [Tok.endBlock]).2.2 _ _ _ _
      wrappedIndex_position⟩

/-! ## C18: decoding the canonical layout -/

theorem mapFind_none_of_lt {V : Type} (k : Nat) (m : MapTy V)
    (h : ∀ e ∈ m, e.1 < k) : mapFind k m = none := by
  induction m with
  | nil => rfl
  | cons a m ih =>
    obtain ⟨k1, v1⟩ := a
    have h1 : k1 < k := h (k1, v1) (List.mem_cons_self _ _)
    rw [mapFind, if_neg (by omega)]
    exact ih (fun e he => h e (List.mem_cons_of_mem _ he))

theorem mapPut_append {V : Type} (k : Nat) (v : V) (m : MapTy V)
    (h : ∀ e ∈ m, e.1 < k) : mapPut k v m = m ++ [(k, v)] := by
  induction m with
  | nil => rfl
  | cons a m ih =>
    obtain ⟨k1, v1⟩ := a
    have h1 : k1 < k := h (k1, v1) (List.mem_cons_self _ _)
    rw [mapPut, if_neg (by omega), if_neg (by omega),
      ih (fun e he => h e (List.mem_cons_of_mem _ he))]
    rfl

theorem mapFind_append_last {V : Type} (k : Nat) (v : V) (m : MapTy V)
    (h : ∀ e ∈ m, e.1 < k) : mapFind k (m ++ [(k, v)]) = some v := by
  induction m with
  | nil => simp [mapFind]
  | cons a m ih =>
    obtain ⟨k1, v1⟩ := a
    have h1 : k1 < k := h (k1, v1) (List.mem_cons_self _ _)
    rw [List.cons_append, mapFind, if_neg (by omega)]
    exact ih (fun e he => h e (List.mem_cons_of_mem _ he))

theorem mapPut_replace_last {V : Type} (k : Nat) (v v0 : V) (m : MapTy V)
    (h : ∀ e ∈ m, e.1 < k) : mapPut k v (m ++ [(k, v0)]) = m ++ [(k, v)] := by
  induction m with
  | nil => simp [mapPut]
  | cons a m ih =>
    obtain ⟨k1, v1⟩ := a
    have h1 : k1 < k := h (k1, v1) (List.mem_cons_self _ _)
    rw [List.cons_append, mapPut, if_neg (by omega), if_neg (by omega),
      ih (fun e he => h e (List.mem_cons_of_mem _ he))]
    rfl

theorem mapInsert_append {V : Type} (k : Nat) (v : V) (m : MapTy V)
    (h : ∀ e ∈ m, e.1 < k) : mapInsert k v m = (m ++ [(k, v)], true) := by
  unfold mapInsert
  rw [mapFind_none_of_lt k m h, mapPut_append k v m h]

theorem keysIncreasing_cons {V : Type} (a : Nat × V) (m : MapTy V)
    (h : keysIncreasing (a :: m) = true) :
    (∀ e ∈ m, a.1 < e.1) ∧ keysIncreasing m = true := by
  unfold keysIncreasing at h ⊢
  simp only [List.map_cons, List.pairwise_cons, decide_eq_true_eq] at h ⊢
  refine ⟨fun e he => h.1 e.1 (List.mem_map_of_mem _ he), h.2⟩

/-- The callee `c` is stored behind the callees `dm` of the last index `i`. -/
theorem insertCallee_snoc (g0 : Nat) (c0 : List Nat) (t0 : Option Nat)
    (u0 : Option CtxProfFlatProfile) (done : PGOCtxProfContext.CallsiteMapTy) (i : Nat)
    (dm : PGOCtxProfContext.CallTargetMapTy) (c : PGOCtxProfContext)
    (hdone : ∀ e ∈ done, e.1 < i) (hdm : ∀ e ∈ dm, e.1 < c.guid) :
    insertCallee (PGOCtxProfContext.mk g0 c0 t0 u0 (snocTarget done i dm)) i c =
      Except.ok (PGOCtxProfContext.mk g0 c0 t0 u0
        (snocTarget done i (dm ++ [(c.guid, c)]))) := by
  have hne : snocTarget done i (dm ++ [(c.guid, c)]) = done ++ [(i, dm ++ [(c.guid, c)])] := by
    unfold snocTarget
    simp
  rw [hne]
  unfold insertCallee
  simp only [PGOCtxProfContext.callsites, PGOCtxProfContext.setCallsites]
  cases dm with
  | nil =>
    have h1 : snocTarget done i [] = done := rfl
    rw [h1, mapFind_none_of_lt i done hdone]
    simp only [Option.getD_none]
    rw [mapInsert_append _ _ _ (fun e he => absurd he (List.not_mem_nil e))]
    simp only [Bool.not_true, Bool.false_eq_true, if_false]
    rw [mapPut_append i _ done hdone]
  | cons d dm =>
    have h1 : snocTarget done i (d :: dm) = done ++ [(i, d :: dm)] := rfl
    rw [h1, mapFind_append_last i _ done hdone]
    simp only [Option.getD_some]
    rw [mapInsert_append _ _ _ hdm]
    simp only [Bool.not_true, Bool.false_eq_true, if_false]
    rw [mapPut_replace_last i _ _ done hdone]

/-- A FlatEntry block is decoded to its guid and counters. -/
theorem flatEntry_decoded (g c0 : Nat) (cs : List Nat) (rest : List Tok) (fuel : Nat)
    (hf : 4 ≤ fuel) :
    readProfile tokCursor fuel FlatProfileBlockID
        (TokState.inBlock FlatProfileBlockID
          (Tok.record Guid [g] :: Tok.record Counters (c0 :: cs) :: Tok.endBlock :: rest)) =
      some (Except.ok ((none, PGOCtxProfContext.mk g (c0 :: cs) none none []),
        TokState.start rest)) :=
  readProfile_mono tokCursor hf rfl

/-- The layout of a flat profile is decoded to that profile, behind the
entries read before. -/
theorem layoutFlat_decoded (todo : CtxProfFlatProfile) :
    ∀ (done : CtxProfFlatProfile) (R : List Tok),
      keysIncreasing todo = true → flatCountersNonEmpty todo = true →
      (∀ e ∈ done, ∀ e1 ∈ todo, e.1 < e1.1) →
      Returns (fun fuel => loadFlatProfileList tokCursor fuel done
          (TokState.start (layoutFlat todo ++ Tok.endBlock :: R)))
        (Except.ok (done ++ todo, TokState.start R)) := by
  induction todo with
  | nil =>
    intro done R _ _ _
    refine ⟨1, fun m hm => ?_⟩
    obtain ⟨k, rfl⟩ : ∃ k, m = k + 1 := ⟨m - 1, by omega⟩
    simp only [List.append_nil]
    rfl
  | cons a todo ih =>
    intro done R hk hc hlt
    obtain ⟨g, c⟩ := a
    obtain ⟨hk1, hk2⟩ := keysIncreasing_cons _ _ hk
    have hc1 : c.isEmpty = false ∧ flatCountersNonEmpty todo = true := by
      simpa [flatCountersNonEmpty] using hc
    obtain ⟨c0, cs, rfl⟩ : ∃ c0 cs, c = c0 :: cs := by
      cases c with
      | nil => simp at hc1
      | cons c0 cs => exact ⟨c0, cs, rfl⟩
    have hnext := ih (done ++ [(g, c0 :: cs)]) R hk2 hc1.2 (by
      intro e he e1 he1
      rcases List.mem_append.mp he with he | he
      · exact hlt e he e1 (List.mem_cons_of_mem _ he1)
      · rw [List.mem_singleton.mp he]
        exact hk1 e1 he1)
    rw [List.append_assoc, List.singleton_append] at hnext
    refine (returns_shift 4 (fun m hm => ?_) _).mpr hnext
    dsimp only
    rw [loadFlatProfileList]
    have hcan : canEnterBlockWithID tokCursor FlatProfileBlockID
        (TokState.start (layoutFlat ((g, c0 :: cs) :: todo) ++ Tok.endBlock :: R)) =
        (true, TokState.inBlock FlatProfileBlockID
          (Tok.record Guid [g] :: Tok.record Counters (c0 :: cs) :: Tok.endBlock ::
            (layoutFlat todo ++ Tok.endBlock :: R))) := rfl
    rw [hcan]
    simp only
    rw [flatEntry_decoded g c0 cs _ m hm]
    simp only [PGOCtxProfContext.guid, PGOCtxProfContext.counters]
    rw [mapInsert_append g (c0 :: cs) done
      (fun e he => hlt e he (g, c0 :: cs) (List.mem_cons_self _ _))]
    simp


/-- The field loop of an inner node reads the three records of the layout. -/
theorem layout_node_fields (g c0 : Nat) (cs : List Nat) (i : Nat) (Y : List Tok) :
    Returns (fun fuel => readFields tokCursor fuel ContextNodeBlockID {}
        (TokState.start (Tok.record Guid [g] :: Tok.record Counters (c0 :: cs) ::
          Tok.record CallsiteIndex [i] :: Y)))
      (Except.ok
        ({ Guid := some g, Counters := some (c0 :: cs), CallsiteIndex := some (i % 2 ^ 32) },
          TokState.start Y)) :=
  ⟨4, fun _ hm => readFields_mono tokCursor hm rfl⟩

/-- The field loop of a root reads the three records of the layout and the
Unhandled sub-block. -/
theorem layout_root_fields (g c0 : Nat) (cs : List Nat) (T : Nat) (U : CtxProfFlatProfile)
    (Y : List Tok) (hk : keysIncreasing U = true) (hc : flatCountersNonEmpty U = true) :
    Returns (fun fuel => readFields tokCursor fuel ContextRootBlockID {}
        (TokState.start (Tok.record Guid [g] :: Tok.record Counters (c0 :: cs) ::
          Tok.record TotalRootEntryCount [T] :: Tok.subBlock UnhandledBlockID true ::
          (layoutFlat U ++ Tok.endBlock :: Y))))
      (Except.ok
        ({ Guid := some g, Counters := some (c0 :: cs), TotalEntryCount := some T,
           Unhandled := some U }, TokState.start Y)) := by
  have h0 := @FieldsReach.refl _ tokCursor ContextRootBlockID {}
    (TokState.start (Tok.record Guid [g] :: Tok.record Counters (c0 :: cs) ::
      Tok.record TotalRootEntryCount [T] :: Tok.subBlock UnhandledBlockID true ::
      (layoutFlat U ++ Tok.endBlock :: Y)))
  have h1 := FieldsReach.step 1 h0 rfl rfl
  have h2 := FieldsReach.step 1 h1 rfl rfl
  have h3 := FieldsReach.step 1 h2 rfl rfl
  obtain ⟨N, hN⟩ := layoutFlat_decoded U [] Y hk hc
    (fun e he => absurd he (List.not_mem_nil e))
  dsimp only at hN
  have hU : readField tokCursor (N + 1) ContextRootBlockID
      { Guid := some g, Counters := some (c0 :: cs), TotalEntryCount := some T }
      (TokState.start (Tok.subBlock UnhandledBlockID true ::
        (layoutFlat U ++ Tok.endBlock :: Y))) =
      some (Except.ok
        ({ Guid := some g, Counters := some (c0 :: cs), TotalEntryCount := some T,
           Unhandled := some U }, TokState.start Y)) := by
    rw [readField]
    have hadv : advance tokCursor (TokState.start (Tok.subBlock UnhandledBlockID true ::
        (layoutFlat U ++ Tok.endBlock :: Y))) =
        (Except.ok ⟨EntryKind.SubBlock, UnhandledBlockID⟩,
          TokState.inBlock UnhandledBlockID (layoutFlat U ++ Tok.endBlock :: Y)) := rfl
    rw [hadv]
    simp only [ne_eq, reduceCtorEq, not_false_eq_true, if_true, and_self]
    rw [tok_enter]
    simp only
    rw [hN N (le_refl _)]
    rfl
  have h4 := FieldsReach.step (N + 1) h3 rfl hU
  exact (fieldsReach_returns_iff tokCursor h4 _).mpr (readFields_done tokCursor rfl)

/-- The callee loop ends at the end of the block. -/
theorem readCallees_end (I : Option Nat) (Ret : PGOCtxProfContext) (R : List Tok) :
    Returns (fun fuel => readCallees tokCursor fuel I Ret
        (TokState.start (Tok.endBlock :: R)))
      (Except.ok ((I, Ret), TokState.start R)) := by
  refine ⟨1, fun m hm => ?_⟩
  obtain ⟨k, rfl⟩ : ∃ k, m = k + 1 := ⟨m - 1, by omega⟩
  rfl

theorem layoutTargets_cons (i g : Nat) (c : PGOCtxProfContext)
    (m : List (Nat × PGOCtxProfContext)) (R : List Tok) :
    layoutTargets i ((g, c) :: m) ++ R =
      Tok.subBlock ContextNodeBlockID true ::
        (layoutContext i c ++ (layoutTargets i m ++ R)) := by
  rw [layoutTargets]
  simp [List.append_assoc]

theorem layoutCallsites_cons (i : Nat) (m : List (Nat × PGOCtxProfContext))
    (cs : List (Nat × List (Nat × PGOCtxProfContext))) (R : List Tok) :
    layoutCallsites ((i, m) :: cs) ++ R =
      layoutTargets i m ++ (layoutCallsites cs ++ R) := by
  rw [layoutCallsites]
  simp [List.append_assoc]

/-- The layout of a canonical context is decoded to that context: as an
inner node with the index of the layout, and as a root. -/
theorem layoutContext_decoded (c : PGOCtxProfContext) :
    ∀ (i : Nat), i < 2 ^ 32 → ∀ (rest : List Tok),
      (c.canonical false = true →
        Returns (fun fuel => readProfile tokCursor fuel ContextNodeBlockID
            (TokState.inBlock ContextNodeBlockID (layoutContext i c ++ rest)))
          (Except.ok ((some i, c), TokState.start rest))) ∧
      (c.canonical true = true →
        Returns (fun fuel => readProfile tokCursor fuel ContextRootBlockID
            (TokState.inBlock ContextRootBlockID (layoutContext i c ++ rest)))
          (Except.ok ((none, c), TokState.start rest))) := by
  refine @PGOCtxProfContext.rec
    (fun c => ∀ (i : Nat), i < 2 ^ 32 → ∀ (rest : List Tok),
      (c.canonical false = true →
        Returns (fun fuel => readProfile tokCursor fuel ContextNodeBlockID
            (TokState.inBlock ContextNodeBlockID (layoutContext i c ++ rest)))
          (Except.ok ((some i, c), TokState.start rest))) ∧
      (c.canonical true = true →
        Returns (fun fuel => readProfile tokCursor fuel ContextRootBlockID
            (TokState.inBlock ContextRootBlockID (layoutContext i c ++ rest)))
          (Except.ok ((none, c), TokState.start rest))))
    (fun cs => callsitesCanonical cs = true → keysIncreasing cs = true →
      ∀ (g0 : Nat) (c0 : List Nat) (t0 : Option Nat) (u0 : Option CtxProfFlatProfile)
        (done : PGOCtxProfContext.CallsiteMapTy) (R : List Tok),
        (∀ e ∈ done, ∀ e1 ∈ cs, e.1 < e1.1) →
        ∃ seen, CalleesReach tokCursor (PGOCtxProfContext.mk g0 c0 t0 u0 done)
          (TokState.start (layoutCallsites cs ++ R)) seen
          (PGOCtxProfContext.mk g0 c0 t0 u0 (done ++ cs)) (TokState.start R))
    (fun p => p.1 < 2 ^ 32 → p.2.isEmpty = false → keysIncreasing p.2 = true →
      targetsCanonical false p.2 = true →
      ∀ (g0 : Nat) (c0 : List Nat) (t0 : Option Nat) (u0 : Option CtxProfFlatProfile)
        (done : PGOCtxProfContext.CallsiteMapTy) (R : List Tok),
        (∀ e ∈ done, e.1 < p.1) →
        ∃ seen, CalleesReach tokCursor (PGOCtxProfContext.mk g0 c0 t0 u0 done)
          (TokState.start (layoutTargets p.1 p.2 ++ R)) seen
          (PGOCtxProfContext.mk g0 c0 t0 u0 (done ++ [p])) (TokState.start R))
    (fun m => targetsCanonical false m = true → keysIncreasing m = true →
      ∀ (i : Nat), i < 2 ^ 32 →
      ∀ (g0 : Nat) (c0 : List Nat) (t0 : Option Nat) (u0 : Option CtxProfFlatProfile)
        (done : PGOCtxProfContext.CallsiteMapTy) (dm : PGOCtxProfContext.CallTargetMapTy)
        (R : List Tok),
        (∀ e ∈ done, e.1 < i) → (∀ e ∈ dm, ∀ e1 ∈ m, e.1 < e1.1) →
        ∃ seen, CalleesReach tokCursor
          (PGOCtxProfContext.mk g0 c0 t0 u0 (snocTarget done i dm))
          (TokState.start (layoutTargets i m ++ R)) seen
          (PGOCtxProfContext.mk g0 c0 t0 u0 (snocTarget done i (dm ++ m)))
          (TokState.start R))
    (fun q => ∀ (i : Nat), i < 2 ^ 32 → ∀ (rest : List Tok),
      (q.2.canonical false = true →
        Returns (fun fuel => readProfile tokCursor fuel ContextNodeBlockID
            (TokState.inBlock ContextNodeBlockID (layoutContext i q.2 ++ rest)))
          (Except.ok ((some i, q.2), TokState.start rest))))
    ?_ ?_ ?_ ?_ ?_ ?_ ?_ c
  · -- a context
    intro g c t u cs ih i hi rest
    constructor
    · intro hcan
      unfold PGOCtxProfContext.canonical at hcan
      simp only [Bool.and_eq_true, Bool.not_eq_true', beq_iff_eq] at hcan
      obtain ⟨⟨⟨⟨⟨hc, ht⟩, hu⟩, _⟩, hk⟩, hcs⟩ := hcan
      obtain rfl : t = none := by
        cases t with
        | none => rfl
        | some T => cases ht
      obtain rfl : u = none := by
        cases u with
        | none => rfl
        | some U => cases hu
      obtain ⟨c0, cs0, rfl⟩ : ∃ c0 cs0, c = c0 :: cs0 := by
        cases c with
        | nil => simp at hc
        | cons c0 cs0 => exact ⟨c0, cs0, rfl⟩
      obtain ⟨seen, hreach⟩ := ih hcs hk g (c0 :: cs0) none none [] (Tok.endBlock :: rest)
        (fun e he => absurd he (List.not_mem_nil e))
      have hlay : layoutContext i (PGOCtxProfContext.mk g (c0 :: cs0) none none cs) ++ rest =
          Tok.record Guid [g] :: Tok.record Counters (c0 :: cs0) ::
            Tok.record CallsiteIndex [i] :: (layoutCallsites cs ++ Tok.endBlock :: rest) := by
        rw [layoutContext]
        simp [List.append_assoc]
      rw [hlay]
      refine (readProfile_of_fields_ok tokCursor (tok_enter _ _)
        (layout_node_fields g c0 cs0 i _) _).mpr ?_
      have himod : i % 2 ^ 32 = i := Nat.mod_eq_of_lt hi
      simp only [Option.getD_some, himod]
      exact (calleesReach_returns_iff tokCursor hreach _).mpr (readCallees_end _ _ _)
    · intro hcan
      unfold PGOCtxProfContext.canonical at hcan
      simp only [Bool.and_eq_true, Bool.not_eq_true', beq_iff_eq] at hcan
      obtain ⟨⟨⟨⟨⟨hc, ht⟩, hu⟩, hU⟩, hk⟩, hcs⟩ := hcan
      obtain ⟨T, rfl⟩ : ∃ T, t = some T := Option.isSome_iff_exists.mp ht
      obtain ⟨U, rfl⟩ : ∃ U, u = some U := Option.isSome_iff_exists.mp hu
      simp only [Bool.and_eq_true] at hU
      obtain ⟨c0, cs0, rfl⟩ : ∃ c0 cs0, c = c0 :: cs0 := by
        cases c with
        | nil => simp at hc
        | cons c0 cs0 => exact ⟨c0, cs0, rfl⟩
      obtain ⟨seen, hreach⟩ := ih hcs hk g (c0 :: cs0) (some T) (some U) []
        (Tok.endBlock :: rest) (fun e he => absurd he (List.not_mem_nil e))
      have hlay : layoutContext i (PGOCtxProfContext.mk g (c0 :: cs0) (some T) (some U) cs) ++
            rest =
          Tok.record Guid [g] :: Tok.record Counters (c0 :: cs0) ::
            Tok.record TotalRootEntryCount [T] :: Tok.subBlock UnhandledBlockID true ::
            (layoutFlat U ++ Tok.endBlock ::
              (layoutCallsites cs ++ Tok.endBlock :: rest)) := by
        rw [layoutContext]
        simp [List.append_assoc]
      rw [hlay]
      refine (readProfile_of_fields_ok tokCursor (tok_enter _ _)
        (layout_root_fields g c0 cs0 T U _ hU.1 hU.2) _).mpr ?_
      simp only [Option.getD_some]
      exact (calleesReach_returns_iff tokCursor hreach _).mpr (readCallees_end _ _ _)
  · -- no call site
    intro _ _ g0 c0 t0 u0 done R _
    refine ⟨[], ?_⟩
    rw [List.append_nil]
    exact CalleesReach.refl _ _
  · -- a call site and the call sites behind it
    intro head tail ih3 ih2 hcan hk g0 c0 t0 u0 done R hlt
    obtain ⟨i, m⟩ := head
    rw [callsitesCanonical] at hcan
    simp only [Bool.and_eq_true, decide_eq_true_eq, Bool.not_eq_true'] at hcan
    obtain ⟨⟨⟨⟨hi, hne⟩, hkm⟩, hm⟩, htail⟩ := hcan
    obtain ⟨hk1, hk2⟩ := keysIncreasing_cons _ _ hk
    obtain ⟨seen1, h1⟩ := ih3 hi hne hkm hm g0 c0 t0 u0 done (layoutCallsites tail ++ R)
      (fun e he => hlt e he (i, m) (List.mem_cons_self _ _))
    obtain ⟨seen2, h2⟩ := ih2 htail hk2 g0 c0 t0 u0 (done ++ [(i, m)]) R (by
      intro e he e1 he1
      rcases List.mem_append.mp he with he | he
      · exact hlt e he e1 (List.mem_cons_of_mem _ he1)
      · rw [List.mem_singleton.mp he]
        exact hk1 e1 he1)
    rw [List.append_assoc, List.singleton_append] at h2
    rw [layoutCallsites_cons]
    exact ⟨_, calleesReach_trans tokCursor h1 h2⟩
  · -- the callees of a call site
    intro i m ih4 hi hne hkm hm g0 c0 t0 u0 done R hlt
    obtain ⟨seen, h⟩ := ih4 hm hkm i hi g0 c0 t0 u0 done [] R hlt
      (fun e he => absurd he (List.not_mem_nil e))
    have h1 : snocTarget done i [] = done := rfl
    have h2 : snocTarget done i ([] ++ m) = done ++ [(i, m)] := by
      unfold snocTarget
      simp only [List.nil_append]
      simp only at hne
      rw [hne]
      rfl
    rw [h1, h2] at h
    exact ⟨seen, h⟩
  · -- no callee
    intro _ _ i _ g0 c0 t0 u0 done dm R _ _
    refine ⟨[], ?_⟩
    rw [List.append_nil]
    exact CalleesReach.refl _ _
  · -- a callee and the callees behind it
    intro head tail ih5 ih4 hcan hk i hi g0 c0 t0 u0 done dm R hlt hdm
    obtain ⟨g, c⟩ := head
    rw [targetsCanonical] at hcan
    simp only [Bool.and_eq_true, decide_eq_true_eq] at hcan
    obtain ⟨⟨hg, hc⟩, htail⟩ := hcan
    obtain ⟨hk1, hk2⟩ := keysIncreasing_cons _ _ hk
    obtain ⟨N, hN⟩ := ih5 i hi (layoutTargets i tail ++ R) hc
    dsimp only at hN
    have hcan1 : canEnterBlockWithID tokCursor ContextNodeBlockID
        (TokState.start (Tok.subBlock ContextNodeBlockID true ::
          (layoutContext i c ++ (layoutTargets i tail ++ R)))) =
        (true, TokState.inBlock ContextNodeBlockID
          (layoutContext i c ++ (layoutTargets i tail ++ R))) := rfl
    have hins := insertCallee_snoc g0 c0 t0 u0 done i dm c hlt (by
      intro e he
      rw [← hg]
      exact hdm e he (g, c) (List.mem_cons_self _ _))
    have hstep := CalleesReach.step N (CalleesReach.refl (C := tokCursor) _ _) hcan1
      (hN N (le_refl _)) hins
    obtain ⟨seen2, h2⟩ := ih4 htail hk2 i hi g0 c0 t0 u0 done (dm ++ [(g, c)]) R hlt (by
      intro e he e1 he1
      rcases List.mem_append.mp he with he | he
      · exact hdm e he e1 (List.mem_cons_of_mem _ he1)
      · rw [List.mem_singleton.mp he]
        exact hk1 e1 he1)
    rw [List.append_assoc, List.singleton_append] at h2
    rw [layoutTargets_cons]
    rw [← hg] at hstep
    exact ⟨_, calleesReach_trans tokCursor hstep h2⟩
  · -- an entry of a map of callees
    intro g c ih i hi rest hcan
    exact (ih i hi rest).1 hcan


/-- The layout of canonical roots is decoded to those roots, behind the
roots read before. -/
theorem layoutRoots_decoded (todo : CtxProfContextualProfiles) :
    ∀ (done : CtxProfContextualProfiles) (R : List Tok),
      targetsCanonical true todo = true → keysIncreasing todo = true →
      (∀ e ∈ done, ∀ e1 ∈ todo, e.1 < e1.1) →
      Returns (fun fuel => loadContextRoots tokCursor fuel done
          (TokState.start (layoutRoots todo ++ Tok.endBlock :: R)))
        (Except.ok (done ++ todo, TokState.start R)) := by
  induction todo with
  | nil =>
    intro done R _ _ _
    refine ⟨1, fun m hm => ?_⟩
    obtain ⟨k, rfl⟩ : ∃ k, m = k + 1 := ⟨m - 1, by omega⟩
    simp only [List.append_nil]
    rfl
  | cons a todo ih =>
    intro done R hcan hk hlt
    obtain ⟨g, c⟩ := a
    rw [targetsCanonical] at hcan
    simp only [Bool.and_eq_true, decide_eq_true_eq] at hcan
    obtain ⟨⟨hg, hc⟩, htail⟩ := hcan
    obtain ⟨hk1, hk2⟩ := keysIncreasing_cons _ _ hk
    have hnext := ih (done ++ [(g, c)]) R htail hk2 (by
      intro e he e1 he1
      rcases List.mem_append.mp he with he | he
      · exact hlt e he e1 (List.mem_cons_of_mem _ he1)
      · rw [List.mem_singleton.mp he]
        exact hk1 e1 he1)
    rw [List.append_assoc, List.singleton_append] at hnext
    obtain ⟨N, hN⟩ := (layoutContext_decoded c 0 (by norm_num)
      (layoutRoots todo ++ Tok.endBlock :: R)).2 hc
    dsimp only at hN
    refine (returns_shift N (fun m hm => ?_) _).mpr hnext
    dsimp only
    rw [loadContextRoots]
    have hcan1 : canEnterBlockWithID tokCursor ContextRootBlockID
        (TokState.start (layoutRoots ((g, c) :: todo) ++ Tok.endBlock :: R)) =
        (true, TokState.inBlock ContextRootBlockID
          (layoutContext 0 c ++ (layoutRoots todo ++ Tok.endBlock :: R))) := by
      rw [layoutRoots]
      simp only [List.cons_append, List.append_assoc]
      rfl
    rw [hcan1]
    simp only
    rw [hN m hm]
    simp only
    rw [← hg, mapInsert_append g c done
      (fun e he => hlt e he (g, c) (List.mem_cons_self _ _))]
    simp

/-- C18 (counterexample).  The root `emptyCallsiteRoot` has a counter, a
total root entry count and an unhandled flat profile, and no child at all, so
every key equals the guid of the node under it; but its call-site map has the
index 3 with no callee under it.  Its layout has no block for the index 3:
it is the layout of the root with the empty call-site map, and `readProfile`
decodes it to that root, which is another tree. -/
theorem layout_loses_empty_callsite :
    emptyCallsiteRoot.countersNonEmpty = true ∧
    emptyCallsiteRoot.keysAgree = true ∧
    emptyCallsiteRoot.getTotalRootEntryCount = some 100 ∧
    emptyCallsiteRoot.getUnhandled = some [] ∧
    emptyCallsiteRoot.callsites = [(3, [])] ∧
    layoutContext 0 emptyCallsiteRoot =
      layoutContext 0 (PGOCtxProfContext.mk 7 [100] (some 100) (some []) []) ∧
    readProfile tokCursor 8 ContextRootBlockID
        (TokState.inBlock ContextRootBlockID (layoutContext 0 emptyCallsiteRoot)) =
      some (Except.ok ((none, PGOCtxProfContext.mk 7 [100] (some 100) (some []) []),
        TokState.start [])) ∧
    PGOCtxProfContext.mk 7 [100] (some 100) (some []) [] ≠ emptyCallsiteRoot := by
  refine ⟨rfl, rfl, rfl, rfl, rfl, rfl, rfl, ?_⟩
  intro h
  injection h with _ _ _ _ h5
  cases h5

/-- C18 (amended).  Decoding inverts the canonical layout of canonical trees.
A context is canonical when all counters (of contexts and of unhandled
entries) are non-empty, a root has a total root entry count and an unhandled
flat profile and an inner node has neither, every map is in increasing key
order, every key of a callee or root equals the guid of the node under it,
every call-site index is a 32-bit value, and every call-site index has at
least one callee.  On the cursor over a sequence of entries, whatever entries
`rest` follow the layout:

* the layout of a canonical inner node with the call-site index `i`, a
  32-bit value, is decoded by `readProfile(ContextNodeBlockID)` to `i` and
  exactly that node;
* the layout of a canonical root is decoded by
  `readProfile(ContextRootBlockID)` to no index and exactly that root;
* the layout of canonical roots in key order, followed by the end of the
  section, is decoded by `loadContexts` to exactly those roots;

and in each case the cursor is left at `rest`. -/
theorem decode_inverts_layout :
    (∀ (c : PGOCtxProfContext) (i : Nat) (rest : List Tok),
      c.canonical false = true → i < 2 ^ 32 →
      Returns (fun fuel => readProfile tokCursor fuel ContextNodeBlockID
          (TokState.inBlock ContextNodeBlockID (layoutContext i c ++ rest)))
        (Except.ok ((some i, c), TokState.start rest))) ∧
    (∀ (c : PGOCtxProfContext) (rest : List Tok),
      c.canonical true = true →
      Returns (fun fuel => readProfile tokCursor fuel ContextRootBlockID
          (TokState.inBlock ContextRootBlockID (layoutContext 0 c ++ rest)))
        (Except.ok ((none, c), TokState.start rest))) ∧
    (∀ (P : CtxProfContextualProfiles) (rest : List Tok),
      targetsCanonical true P = true → keysIncreasing P = true →
      Returns (fun fuel => loadContexts tokCursor fuel []
          (TokState.inBlock ContextsSectionBlockID
            (layoutRoots P ++ Tok.endBlock :: rest)))
        (Except.ok (P, TokState.start rest))) := by
  refine ⟨fun c i rest hc hi => (layoutContext_decoded c i hi rest).1 hc,
    fun c rest hc => (layoutContext_decoded c 0 (by norm_num) rest).2 hc,
    fun P rest hc hk => ?_⟩
  obtain ⟨N, hN⟩ := layoutRoots_decoded P [] rest hc hk
    (fun e he => absurd he (List.not_mem_nil e))
  refine ⟨N, fun m hm => ?_⟩
  dsimp only at hN ⊢
  rw [loadContexts, tok_enter]
  simp only
  rw [hN m hm]
  rfl

/-- C18 (witness): the root of the sample profile, with its unhandled entry
and its child at the call-site index 2, is canonical, and its layout is
decoded to it; so is the layout of the roots of the sample profile. -/
theorem decode_inverts_layout_witness :
    sampleRoot.canonical true = true ∧
    Returns (fun fuel => readProfile tokCursor fuel ContextRootBlockID
        (TokState.inBlock ContextRootBlockID (layoutContext 0 sampleRoot ++ [])))
      (Except.ok ((none, sampleRoot), TokState.start [])) ∧
    Returns (fun fuel => loadContexts tokCursor fuel []
        (TokState.inBlock ContextsSectionBlockID
          (layoutRoots sampleProfile.Contexts ++ Tok.endBlock :: [])))
      (Except.ok (sampleProfile.Contexts, TokState.start [])) :=
  ⟨by decide, decode_inverts_layout.2.1 sampleRoot [] (by decide),
    decode_inverts_layout.2.2 sampleProfile.Contexts [] (by decide) (by decide)⟩

end PGOCtxProf
